import Mathlib

/-!
Les Domaines Rares quote generator: a verification development.

A shallow embedding of the browser front end (`src/frontend/js`):
`pdf-generator.js` (totals), `api-client.js` (retrying HTTP client),
`storage.js` (IndexedDB persistence) and `form-handler.js` (form capture and
re-hydration), followed by theorems about them.

Conventions of the embedding.

* JavaScript numbers have two embeddings.  Where the result depends on the
  rounding of the Number type (the totals of `calculateTotals`, the numbers
  that `collectFormData` captures, the amounts printed by `formatPrice`), a
  number is an IEEE 754 binary64 value (`Double`, in the namespace
  `Binary64`): `NaN`, an infinity or a finite number, with round-to-nearest,
  ties to even.  Where only the text of a number and equations between
  numbers are at stake (re-hydration of the form, the totals on screen against
  those of the PDF), a number is its exact value in `ℚ`, and `NaN` is the
  `none` of an `Option ℚ`.
* Asynchronous functions are functions from the state before the call to the
  outcome and the state after it; what they do to the outside world (HTTP
  requests, timers, notifications) is returned as a list of events.
-/

namespace QuoteGen

/-! ## JavaScript built-ins used by the front end -/

/-- The white space that `parseFloat`, `parseInt`, `String.prototype.trim` and
the regular-expression class `\s` recognise. -/
def isJSWhitespace (c : Char) : Bool :=
  c = ' ' || c = '\t' || c = '\n' || c = '\r' || c.toNat = 0x0B || c.toNat = 0x0C
    || c.toNat = 0xA0 || c.toNat = 0xFEFF || c.toNat = 0x1680
    || (0x2000 ≤ c.toNat && c.toNat ≤ 0x200A)
    || c.toNat = 0x2028 || c.toNat = 0x2029 || c.toNat = 0x202F || c.toNat = 0x205F
    || c.toNat = 0x3000

/-- The number written by a run of decimal digits. -/
def digitsValue (ds : List Char) : Nat :=
  ds.foldl (fun acc c => acc * 10 + (c.toNat - '0'.toNat)) 0

/-- The optional sign in front of a numeric literal: whether it is `-`, and
the rest. -/
def takeSign (cs : List Char) : Bool × List Char :=
  match cs with
  | '-' :: rest => (true, rest)
  | '+' :: rest => (false, rest)
  | _ => (false, cs)

/-- The exponent part `e±ddd` at the head of `cs`, when there is one with at
least one digit; `0` otherwise. -/
def takeExponent (cs : List Char) : Int :=
  match cs with
  | c :: rest =>
      if c = 'e' || c = 'E' then
        let signed := takeSign rest
        let ds := signed.2.takeWhile Char.isDigit
        if ds = [] then 0
        else if signed.1 then - (digitsValue ds : Int) else (digitsValue ds : Int)
      else 0
  | [] => 0

/-- The longest prefix of `s`, after leading white space, that is a decimal
literal `[+-] digits [. digits] [e [+-] digits]`, as a signed mantissa and a
power of ten; `none` when there is none (JavaScript's `NaN`). -/
def parseFloatDecimal (s : String) : Option (Int × Int) :=
  let signed := takeSign (s.data.dropWhile isJSWhitespace)
  let intPart := signed.2.takeWhile Char.isDigit
  let afterInt := signed.2.dropWhile Char.isDigit
  let fracPart := match afterInt with
    | '.' :: rest => rest.takeWhile Char.isDigit
    | _ => []
  let afterFrac := match afterInt with
    | '.' :: rest => rest.dropWhile Char.isDigit
    | _ => afterInt
  if intPart = [] && fracPart = [] then none
  else
    let mantissa : Int := digitsValue (intPart ++ fracPart)
    some (if signed.1 then - mantissa else mantissa,
          takeExponent afterFrac - (fracPart.length : Int))

/-- The rational `mantissa * 10 ^ exponent`. -/
def decimalValue (d : Int × Int) : ℚ := (d.1 : ℚ) * (10 : ℚ) ^ d.2

/-- The built-in `parseFloat(string)`; `none` is `NaN`.  The literal
`Infinity` has no finite value and is outside the model. -/
def parseFloat (s : String) : Option ℚ := (parseFloatDecimal s).map decimalValue

/-- The value of a hexadecimal digit, when `c` is one. -/
def hexDigitValue (c : Char) : Option Nat :=
  if c.isDigit then some (c.toNat - '0'.toNat)
  else if 'a'.toNat ≤ c.toNat && c.toNat ≤ 'f'.toNat then some (c.toNat - 'a'.toNat + 10)
  else if 'A'.toNat ≤ c.toNat && c.toNat ≤ 'F'.toNat then some (c.toNat - 'A'.toNat + 10)
  else none

/-- The number written by the leading hexadecimal digits of `cs`, and how many
there are. -/
def hexPrefixValue (cs : List Char) (acc : Nat) (count : Nat) : Nat × Nat :=
  match cs with
  | [] => (acc, count)
  | c :: rest =>
      match hexDigitValue c with
      | some v => hexPrefixValue rest (acc * 16 + v) (count + 1)
      | none => (acc, count)

/-- The built-in `parseInt(string)` without a radix, as an integer; `none` is
`NaN`. -/
def parseIntInteger (s : String) : Option Int :=
  let signed := takeSign (s.data.dropWhile isJSWhitespace)
  let body : Option Nat :=
    match signed.2 with
    | '0' :: x :: rest =>
        if x = 'x' || x = 'X' then
          let h := hexPrefixValue rest 0 0
          if h.2 = 0 then none else some h.1
        else some (digitsValue (('0' :: x :: rest).takeWhile Char.isDigit))
    | cs =>
        let ds := cs.takeWhile Char.isDigit
        if ds = [] then none else some (digitsValue ds)
  body.map fun n => if signed.1 then - (n : Int) else (n : Int)

/-- The built-in `parseInt(string)`; `none` is `NaN`. -/
def parseInt (s : String) : Option ℚ := (parseIntInteger s).map fun n => (n : ℚ)

/-- The expression `x || 0` for the result `x` of a parse: `NaN` and `0` are
falsy. -/
def orZero (x : Option ℚ) : ℚ :=
  match x with
  | some q => if q = 0 then 0 else q
  | none => 0


/-- The smallest `j` with `a * 10 ^ j ≥ b`, searched for at most `fuel` steps. -/
def shiftToUnit : (fuel : Nat) → (a b : Nat) → Nat
  | 0, _, _ => 0
  | fuel + 1, a, b => if b ≤ a then 0 else shiftToUnit fuel (a * 10) b + 1

/-- The decimal exponent `n` of the positive fraction `a / b`:
`10 ^ (n - 1) ≤ a / b < 10 ^ n`. -/
def decimalExponent (a b : Nat) : Int :=
  if b ≤ a then ((Nat.toDigits 10 (a / b)).length : Int)
  else 1 - (shiftToUnit b a b : Int)

/-- The first 17 significant decimal digits of the positive fraction `a / b`
whose decimal exponent is `n`, as a number. -/
def significand (a b : Nat) (n : Int) : Nat :=
  if n ≤ 17 then a * 10 ^ (17 - n).toNat / b
  else a / (b * 10 ^ (n - 17).toNat)

/-- A digit string without its trailing zeros. -/
def stripTrailingZeros (ds : List Char) : List Char :=
  (ds.reverse.dropWhile (fun c => c = '0')).reverse

/-- The notation `Number::toString` chooses for the significant digits `ds` of
a positive number with decimal exponent `n`. -/
def formatDecimal (ds : List Char) (n : Int) : List Char :=
  let k : Int := ds.length
  if k ≤ n ∧ n ≤ 21 then ds ++ List.replicate (n - k).toNat '0'
  else if 0 < n ∧ n ≤ 21 then ds.take n.toNat ++ '.' :: ds.drop n.toNat
  else if -6 < n ∧ n ≤ 0 then '0' :: '.' :: List.replicate (-n).toNat '0' ++ ds
  else
    let exponent := 'e' :: (if n - 1 < 0 then '-' else '+') :: Nat.toDigits 10 (n - 1).natAbs
    match ds with
    | [] => exponent
    | [d] => d :: exponent
    | d :: rest => d :: '.' :: rest ++ exponent

/-- The text of the positive fraction `a / b`. -/
def positiveToString (a b : Nat) : String :=
  String.mk (formatDecimal
    (stripTrailingZeros (Nat.toDigits 10 (significand a b (decimalExponent a b))))
    (decimalExponent a b))

/-- The conversion of a number to a string (`String(x)`, and what assigning a
number to an element's `value` stores): at most 17 significant digits,
positional notation from `1e-6` up to `1e21` and exponent notation beyond. -/
def numToString (q : ℚ) : String :=
  if q = 0 then "0"
  else if q < 0 then "-" ++ positiveToString q.num.natAbs q.den
  else positiveToString q.num.natAbs q.den

/-- The digits of `n` hundredths as `toFixed(2)` lays them out: at least one
digit, a point, two digits. -/
def fixedDigits (n : Nat) : List Char :=
  let m := Nat.toDigits 10 n
  let m := List.replicate (3 - m.length) '0' ++ m
  m.take (m.length - 2) ++ '.' :: m.drop (m.length - 2)

/-- The method `x.toFixed(2)`: the nearest multiple of `0.01`, the larger one
on a tie; at `1e21` and above, `String(x)`. -/
def toFixed2 (x : ℚ) : String :=
  if (10 : ℚ) ^ 21 ≤ |x| then numToString x
  else
    (if x < 0 then "-" else "")
      ++ String.mk (fixedDigits (Int.floor (|x| * 100 + 1 / 2)).toNat)

/-- The class `\w` of regular expressions. -/
def isWordChar (c : Char) : Bool := c.isAlphanum || c = '_'

/-- The look-ahead `(?=(\d{3})+(?!\d))`: the digits that follow come in a
positive number of groups of three. -/
def groupsOfThreeAhead (cs : List Char) : Bool :=
  let run := (cs.takeWhile Char.isDigit).length
  3 ≤ run && run % 3 = 0

/-- The call `integer.replace(/\B(?=(\d{3})+(?!\d))/g, ' ')`, scanning `cs`
with `previous` the character before it (`none` at the start). -/
def insertThousands (previous : Option Char) : List Char → List Char
  | [] => []
  | c :: cs =>
      let notBoundary : Bool :=
        (match previous with
          | some p => isWordChar p
          | none => false) == isWordChar c
      if notBoundary && groupsOfThreeAhead (c :: cs) then
        ' ' :: c :: insertThousands (some c) cs
      else c :: insertThousands (some c) cs

/-- What `formatPrice` does with the text `fixed` of `toFixed(2)`: split it at
the points, group the first part, and join it to the second part (`undefined`
when there is none) with a comma, followed by ` €`. -/
def formatFixed (fixed : String) : String :=
  let integer := fixed.data.takeWhile (fun c => c ≠ '.')
  let decimal : List Char :=
    match fixed.data.dropWhile (fun c => c ≠ '.') with
    | _ :: rest => rest.takeWhile (fun c => c ≠ '.')
    | [] => "undefined".data
  String.mk (insertThousands none integer) ++ "," ++ String.mk decimal ++ " €"

/-- Function `formatPrice(value)` of utils.js, for a number of exact value
`value`. -/
def formatPrice (value : ℚ) : String := formatFixed (toFixed2 value)

/-- A regular expression over characters. -/
inductive Regex where
  | nothing
  | empty
  | char (p : Char → Bool)
  | seq (a b : Regex)
  | alt (a b : Regex)
  | star (a : Regex)

/-- One or more repetitions, `a+`. -/
def Regex.plus (a : Regex) : Regex := .seq a (.star a)

/-- Whether the expression matches the empty string. -/
def Regex.nullable : Regex → Bool
  | .nothing => false
  | .empty => true
  | .char _ => false
  | .seq a b => a.nullable && b.nullable
  | .alt a b => a.nullable || b.nullable
  | .star _ => true

/-- The expression that matches what may follow `c`. -/
def Regex.derivative (c : Char) : Regex → Regex
  | .nothing => .nothing
  | .empty => .nothing
  | .char p => if p c then .empty else .nothing
  | .seq a b =>
      if a.nullable then .alt (.seq (a.derivative c) b) (b.derivative c)
      else .seq (a.derivative c) b
  | .alt a b => .alt (a.derivative c) (b.derivative c)
  | .star a => .seq (a.derivative c) (.star a)

/-- Whether the expression matches the whole of `cs`. -/
def Regex.matchesAll (r : Regex) : List Char → Bool
  | [] => r.nullable
  | c :: cs => (r.derivative c).matchesAll cs

/-- The pattern `/^[^\s@]+@[^\s@]+\.[^\s@]+$/`. -/
def emailPattern : Regex :=
  let plain : Regex := .char fun c => !isJSWhitespace c && c ≠ '@'
  .seq plain.plus (.seq (.char fun c => c = '@')
    (.seq plain.plus (.seq (.char fun c => c = '.') plain.plus)))

/-- Function `validateEmail(email)` of utils.js. -/
def validateEmail (email : String) : Bool := emailPattern.matchesAll email.data

/-! ## Data model -/

/-- One billable line of a quote (`{description, quantite, prixUnitaire}`). -/
structure Prestation where
  description : String
  quantite : ℚ
  prixUnitaire : ℚ
deriving DecidableEq

/-- The object returned by `calculateTotals`: `{ ht, tva, ttc }`. -/
structure Totals where
  ht : ℚ
  tva : ℚ
  ttc : ℚ
deriving DecidableEq

/-- The quote record built by `collectFormData` and read by `fillFormData`.
`prestations` is `none` when the property is absent.  For the other
properties an absent value is not told apart from the falsy one (`''`, `0`):
every read of them in the source goes through `|| default`. -/
structure QuoteRecord where
  titre : String
  adresse : String
  textePresentation : String
  informationsAcces : String
  nomClient : String
  emailClient : String
  telephoneClient : String
  entrepriseClient : String
  dateEvenement : String
  nbPersonnes : ℚ
  typeEvenement : String
  prestations : Option (List Prestation)
  notes : String
  timestamp : String
deriving DecidableEq

/-! ## pdf-generator.js -/

/-- Function `calculateTotals(prestations)` of pdf-generator.js.  The argument is `none`
when the caller passes `undefined`/`null`; the literal `0.20` is `20/100`. -/
def calculateTotals (prestations : Option (List Prestation)) : Totals :=
  let ht : ℚ :=
    match prestations with
    | some ps =>
        if ps.length > 0 then
          ps.foldl (fun sum p => sum + p.quantite * p.prixUnitaire) 0
        else 0
    | none => 0
  let tva := ht * (20 / 100)
  let ttc := ht + tva
  { ht := ht, tva := tva, ttc := ttc }

/-! ## api-client.js -/

/-- A request body before `JSON.stringify`: an object with string-valued
fields (`{titre, adresse}`). -/
abbrev Json := List (String × String)

/-- A thrown JavaScript error: its `name` and its `message`. -/
structure JSError where
  name : String
  message : String
deriving DecidableEq

/-- What the functions of the front end do to the outside world, in order. -/
inductive Event where
  /-- A call `fetch(url, {method, body, ...})`. -/
  | fetch (url : String) (method : String) (body : Option Json)
  /-- The pause `await new Promise(resolve => setTimeout(resolve, ms))`. -/
  | sleep (ms : Nat)
  /-- A line written by `console.warn(...)`. -/
  | warn (message : String)
  /-- A line written by `console.error(...)`. -/
  | error (message : String)
  /-- A toast shown by `showNotification(message, type)`. -/
  | notify (message : String) (type : String)
  /-- A dialog opened by `confirm(message)`. -/
  | confirm (message : String)
  /-- A request made on the object store: `add`, `put`, `get`, `getAll`,
  `delete` or `clear`. -/
  | idb (request : String)
deriving DecidableEq

/-- The `config` object of api-client.js. -/
structure Config where
  timeout : Nat
  retries : Nat
  retryDelay : Nat

/-- The value `config = { timeout: 30000, retries: 3, retryDelay: 1000 }`. -/
def config : Config := { timeout := 30000, retries := 3, retryDelay := 1000 }

/-- A value read by `response.json()`: any JSON text, not only an object.  A
number is kept as the text `String(x)` of the value read (`"0"` for both
zeros), which is all that the client looks at; an object lists each of its
properties once. -/
inductive JsonValue where
  | null
  | bool (b : Bool)
  | number (text : String)
  | string (s : String)
  | array (items : List JsonValue)
  | object (fields : List (String × JsonValue))

/-- An HTTP response as `fetch` resolves it.  `body` is what `response.json()`
gives: the value read, or the error it rejects with when the body is not
JSON. -/
structure Response where
  status : Nat
  statusText : String
  body : Except JSError JsonValue

/-- The flag `response.ok`: the status is in the range 200-299. -/
def Response.ok (r : Response) : Bool := 200 ≤ r.status && r.status ≤ 299

/-- How one `fetch` call ends. -/
inductive FetchOutcome where
  /-- The 30 s timer fired `controller.abort()`; `fetch` rejects with an
  `AbortError` carrying this message. -/
  | timeout (message : String)
  /-- Transport failure: `fetch` rejects with a `TypeError`. -/
  | networkError (message : String)
  /-- The server answered. -/
  | response (r : Response)

/-- The world outside the client: `window.location.origin` and, for the calls
of one `apiRequest`, how the `attempt`-th `fetch` (from 0) ends. -/
structure Backend where
  origin : String
  respond : Nat → FetchOutcome

/-- The `options` argument of `apiRequest`. -/
structure RequestOptions where
  method : String
  body : Option Json

/-- The conversion `ToBoolean(v)` of a JSON value, as `||` applies it: `null`,
`false`, zero and the empty string are falsy, every array and object is
truthy. -/
def JsonValue.truthy : JsonValue → Bool
  | .null => false
  | .bool b => b
  | .number text => text ≠ "0"
  | .string s => s ≠ ""
  | .array _ => true
  | .object _ => true

mutual
/-- The conversion `String(v)` that `new Error(v)` applies to its argument. -/
def JsonValue.toText : JsonValue → String
  | .null => "null"
  | .bool b => if b then "true" else "false"
  | .number text => text
  | .string s => s
  | .array items => JsonValue.joinText items
  | .object _ => "[object Object]"
/-- The text `items.join(",")` of an array: `null` items give the empty text. -/
def JsonValue.joinText : List JsonValue → String
  | [] => ""
  | [v] => (match v with | .null => "" | w => w.toText)
  | v :: w :: rest =>
      (match v with | .null => "" | u => u.toText) ++ "," ++ JsonValue.joinText (w :: rest)
end

/-- The read `errorData.error`: it throws a `TypeError` when `errorData` is
`null` (with the message that V8 gives it); it gives the field of an object
that has one; and it is `undefined` (`none`) for an object without the field
and for every other value. -/
def JsonValue.errorField : JsonValue → Except JSError (Option JsonValue)
  | .null => .error { name := "TypeError",
                      message := "Cannot read properties of null (reading 'error')" }
  | .object fields => .ok (fields.lookup "error")
  | _ => .ok none

/-- The expression `field || fallback` inside `new Error(...)`, as the message
it yields. -/
def orElseString (field : Option JsonValue) (fallback : String) : String :=
  match field with
  | some v => if v.truthy then v.toText else fallback
  | none => fallback

/-- The text of the template `HTTP ${response.status}: ${response.statusText}`. -/
def statusLine (r : Response) : String :=
  "HTTP " ++ toString r.status ++ ": " ++ r.statusText

/-- The body of the `try` block of `apiRequest` for one attempt: the JSON value
it returns, or the error it throws. -/
def tryAttempt (o : FetchOutcome) : Except JSError JsonValue :=
  match o with
  | .timeout m => .error { name := "AbortError", message := m }
  | .networkError m => .error { name := "TypeError", message := m }
  | .response r =>
      if !r.ok then
        -- `await response.json().catch(() => ({}))`
        let errorData : JsonValue := match r.body with
          | .ok j => j
          | .error _ => .object []
        match errorData.errorField with
        | .error typeError => .error typeError
        | .ok field => .error { name := "Error", message := orElseString field (statusLine r) }
      else
        r.body

/-- The `console.warn` line of the `catch` block for attempt `attempt`. -/
def warnLine (error : JSError) (attempt : Nat) : Event :=
  if error.name = "AbortError" then
    .warn ("Request timeout (attempt " ++ toString (attempt + 1) ++ "/"
      ++ toString config.retries ++ ")")
  else
    .warn ("Request failed (attempt " ++ toString (attempt + 1) ++ "/"
      ++ toString config.retries ++ "): " ++ error.message)

/-- The `for (let attempt = ...; attempt < config.retries; attempt++)` loop of
`apiRequest`, entered with `remaining = config.retries - attempt` iterations
left, followed by `throw lastError`.  `lastError` is `none` while it is still
`undefined`. -/
def apiRequestLoop (b : Backend) (endpoint : String) (options : RequestOptions) :
    (remaining : Nat) → (attempt : Nat) → (lastError : Option JSError) →
      Except (Option JSError) JsonValue × List Event
  | 0, _, lastError => (.error lastError, [])
  | remaining + 1, attempt, _ =>
      let call := Event.fetch (b.origin ++ endpoint) options.method options.body
      match tryAttempt (b.respond attempt) with
      | .ok data => (.ok data, [call])
      | .error error =>
          let wait : List Event :=
            if attempt < config.retries - 1 then
              [.sleep (config.retryDelay * (attempt + 1))]
            else []
          let rest := apiRequestLoop b endpoint options remaining (attempt + 1) (some error)
          (rest.1, call :: warnLine error attempt :: wait ++ rest.2)

/-- Function `apiRequest(endpoint, options)`: the result (or the thrown value) and the
events issued. -/
def apiRequest (b : Backend) (endpoint : String) (options : RequestOptions) :
    Except (Option JSError) JsonValue × List Event :=
  apiRequestLoop b endpoint options config.retries 0 none

/-- Function `generateAITexts(titre, adresse)`.  `JSON.stringify({ titre, adresse })` is
kept as the object it serialises. -/
def generateAITexts (b : Backend) (titre adresse : String) :
    Except (Option JSError) JsonValue × List Event :=
  if titre = "" || adresse = "" then
    (.error (some { name := "Error", message := "Le titre et l'adresse sont requis" }), [])
  else
    apiRequest b "/api/generate"
      { method := "POST", body := some [("titre", titre), ("adresse", adresse)] }

/-- Function `healthCheck()`. -/
def healthCheck (b : Backend) : Except (Option JSError) JsonValue × List Event :=
  apiRequest b "/health" { method := "GET", body := none }

/-- Function `testConnection()`. -/
def testConnection (b : Backend) : Bool × List Event :=
  match healthCheck b with
  | (.ok _, evs) => (true, evs)
  | (.error _, evs) => (false, evs ++ [.error "API connection test failed:"])

/-- The `fetch` calls among the events. -/
def fetches (evs : List Event) : List Event :=
  evs.filter fun e => match e with
    | .fetch _ _ _ => true
    | _ => false

/-- The delays slept, in order. -/
def sleeps (evs : List Event) : List Nat :=
  evs.filterMap fun e => match e with
    | .sleep ms => some ms
    | _ => none

/-! ## storage.js

The object store `quotes` of the IndexedDB database `LDRQuotesDB`, created by
`onupgradeneeded` with `{ keyPath: 'id', autoIncrement: true }`.  The engine
is the one of the Indexed Database standard: records are kept in ascending key
order, and the store owns a key generator whose current number starts at 1,
is handed out and incremented by `add` without a key, is raised past an
explicit numeric key by `put`, and is lowered by nothing (neither `delete` nor
`clear`).  Keys are integers.  Engine failures other than the ones the
standard defines for these calls (quota, disk) are outside the model. -/

/-- The stored unit `{ id, timestamp, data }`. -/
structure Envelope where
  id : Int
  timestamp : String
  data : QuoteRecord
deriving DecidableEq

/-- The object store: the current number of its key generator and its records
in ascending key order. -/
structure Database where
  keyGenerator : Nat
  records : List Envelope
deriving DecidableEq

/-- The largest number a key generator hands out, `2^53`. -/
def maxGeneratedKey : Nat := 9007199254740992

/-- The store as `createObjectStore` makes it. -/
def Database.fresh : Database := { keyGenerator := 1, records := [] }

/-- Function `initStorage()`: opens the database, creating the object store
when the database is new (`persisted = none`); the result is the module
variable `db`. -/
def initStorage (persisted : Option Database) : Option Database :=
  match persisted with
  | some d => some d
  | none => some Database.fresh

/-- Insertion of a record at its place in ascending key order. -/
def insertByKey (e : Envelope) : List Envelope → List Envelope
  | [] => [e]
  | x :: xs => if e.id < x.id then e :: x :: xs else x :: insertByKey e xs

/-- The engine call `store.add({ timestamp, data })` on the auto-increment
store: the key generator supplies the key, which is also written to `id`. -/
def Database.add (d : Database) (timestamp : String) (data : QuoteRecord) :
    Except JSError (Int × Database) :=
  if d.keyGenerator > maxGeneratedKey then
    .error { name := "ConstraintError", message := "key generator exhausted" }
  else if d.records.any (fun x => x.id = (d.keyGenerator : Int)) then
    .error { name := "ConstraintError", message := "key already exists" }
  else
    .ok ((d.keyGenerator : Int),
      { keyGenerator := d.keyGenerator + 1,
        records := insertByKey
          { id := (d.keyGenerator : Int), timestamp := timestamp, data := data } d.records })

/-- The engine call `store.put(quote)` with the explicit key `quote.id`: the
record replaces the one with that key, if any, and the key generator moves
past the key. -/
def Database.put (d : Database) (quote : Envelope) : Database :=
  { keyGenerator :=
      if (d.keyGenerator : Int) ≤ min quote.id (maxGeneratedKey : Int) then
        (min quote.id (maxGeneratedKey : Int)).toNat + 1
      else d.keyGenerator,
    records := insertByKey quote (d.records.filter (fun x => x.id ≠ quote.id)) }

/-- The engine call `store.delete(id)`. -/
def Database.delete (d : Database) (id : Int) : Database :=
  { d with records := d.records.filter (fun x => x.id ≠ id) }

/-- The engine call `store.get(id)`. -/
def Database.get (d : Database) (id : Int) : Option Envelope :=
  d.records.find? (fun x => x.id = id)

/-- The engine call `store.clear()`. -/
def Database.clear (d : Database) : Database :=
  { d with records := [] }

/-- What a call of a storage function leaves behind: the value the promise
resolves with or the error it rejects with, the database, the events. -/
structure StorageResult (α : Type) where
  result : Except JSError α
  db : Option Database
  events : List Event

/-- The error of `throw new Error('Database not initialized')`. -/
def notInitialized : JSError := { name := "Error", message := "Database not initialized" }

/-- Function `saveQuote(quoteData)`; `now` is `new Date().toISOString()`. -/
def saveQuote (db : Option Database) (now : String) (quoteData : QuoteRecord) :
    StorageResult Int :=
  match db with
  | none => { result := .error notInitialized, db := none, events := [] }
  | some d =>
      match d.add now quoteData with
      | .ok (id, d') =>
          { result := .ok id, db := some d',
            events := [.idb "add", .notify "Devis sauvegardé avec succès" "success"] }
      | .error e =>
          { result := .error e, db := some d,
            events := [.idb "add", .error "Failed to save quote:",
                       .notify "Erreur lors de la sauvegarde" "error"] }

/-- Function `loadAllQuotes()`. -/
def loadAllQuotes (db : Option Database) : StorageResult (List Envelope) :=
  match db with
  | none => { result := .error notInitialized, db := none, events := [] }
  | some d => { result := .ok d.records, db := some d, events := [.idb "getAll"] }

/-- Function `loadQuote(id)`. -/
def loadQuote (db : Option Database) (id : Int) : StorageResult Envelope :=
  match db with
  | none => { result := .error notInitialized, db := none, events := [] }
  | some d =>
      match d.get id with
      | some quote => { result := .ok quote, db := some d, events := [.idb "get"] }
      | none =>
          { result := .error { name := "Error", message := "Quote not found" },
            db := some d, events := [.idb "get"] }

/-- Function `deleteQuote(id)`. -/
def deleteQuote (db : Option Database) (id : Int) : StorageResult Unit :=
  match db with
  | none => { result := .error notInitialized, db := none, events := [] }
  | some d =>
      { result := .ok (), db := some (d.delete id),
        events := [.idb "delete", .notify "Devis supprimé" "success"] }

/-- Function `updateQuote(id, quoteData)`; `now` is `new Date().toISOString()`. -/
def updateQuote (db : Option Database) (now : String) (id : Int) (quoteData : QuoteRecord) :
    StorageResult Unit :=
  match db with
  | none => { result := .error notInitialized, db := none, events := [] }
  | some d =>
      { result := .ok (),
        db := some (d.put { id := id, timestamp := now, data := quoteData }),
        events := [.idb "put", .notify "Devis mis à jour" "success"] }

/-- Function `clearAllQuotes()`; `confirmed` is the answer to its `confirm`
dialog. -/
def clearAllQuotes (db : Option Database) (confirmed : Bool) : StorageResult Unit :=
  if !confirmed then
    { result := .ok (), db := db,
      events := [.confirm "Êtes-vous sûr de vouloir supprimer tous les devis ?"] }
  else
    match db with
    | none =>
        { result := .error notInitialized, db := none,
          events := [.confirm "Êtes-vous sûr de vouloir supprimer tous les devis ?"] }
    | some d =>
        { result := .ok (), db := some d.clear,
          events := [.confirm "Êtes-vous sûr de vouloir supprimer tous les devis ?",
                     .idb "clear", .notify "Tous les devis supprimés" "success"] }

/-- A call made on the storage module. -/
inductive StorageCall where
  | save (now : String) (quoteData : QuoteRecord)
  | delete (id : Int)
  | update (now : String) (id : Int) (quoteData : QuoteRecord)
  | clear (confirmed : Bool)

/-- The database after one call. -/
def StorageCall.after (db : Option Database) : StorageCall → Option Database
  | .save now quoteData => (saveQuote db now quoteData).db
  | .delete id => (deleteQuote db id).db
  | .update now id quoteData => (updateQuote db now id quoteData).db
  | .clear confirmed => (clearAllQuotes db confirmed).db

/-- The ids that the successful `saveQuote` calls of a sequence of calls
resolve with, in call order. -/
def savedIds (db : Option Database) : List StorageCall → List Int
  | [] => []
  | .save now quoteData :: calls =>
      match (saveQuote db now quoteData).result with
      | .ok id => id :: savedIds (saveQuote db now quoteData).db calls
      | .error _ => savedIds (saveQuote db now quoteData).db calls
  | call :: calls => savedIds (call.after db) calls

/-- The current number of the key generator; `0` without a database. -/
def generatorOf (db : Option Database) : Nat :=
  match db with
  | some d => d.keyGenerator
  | none => 0

/-! ## form-handler.js and main.js

The page is the part of the document the code reads and writes: the twelve
fields of the form, the rows of `#prestations-container` (each a clone of
`#prestation-template`), the three totals, and the module variables
`prestationsCount` and `appState.isDirty`.  Every field holds the string last
written to it. -/

/-- A row `.prestation-item`: the text of its `.prestation-number` (`none`
when the template has no such element) and the values of its inputs. -/
structure PrestationItem where
  number : Option String
  description : String
  quantite : String
  prix : String
  total : String
deriving DecidableEq

/-- The form: the values of its fields, its rows and the text of its totals. -/
structure Form where
  titre : String
  adresse : String
  textePresentation : String
  informationsAcces : String
  nomClient : String
  emailClient : String
  telephoneClient : String
  entrepriseClient : String
  dateEvenement : String
  nbPersonnes : String
  typeEvenement : String
  notes : String
  items : List PrestationItem
  totalHT : String
  totalTVA : String
  totalTTC : String
deriving DecidableEq

/-- The form together with `prestationsCount` and `appState.isDirty`. -/
structure Page where
  form : Form
  prestationsCount : Nat
  isDirty : Bool
deriving DecidableEq

/-- What form-handler.js takes from outside the source tree: `sanitizeInput`,
which it imports from utils.js although utils.js does not define it, and the
row that cloning `#prestation-template` gives. -/
structure Env where
  sanitizeInput : String → String
  template : PrestationItem

/-- Function `markFormClean()` of main.js. -/
def markFormClean (page : Page) : Page := { page with isDirty := false }

/-- Function `markFormDirty()` of main.js. -/
def markFormDirty (page : Page) : Page := { page with isDirty := true }

/-- Function `updateTotals()`. -/
def updateTotals (form : Form) : Form :=
  let totalHT : ℚ :=
    form.items.foldl
      (fun totalHT prestation =>
        totalHT + orZero (parseFloat prestation.quantite) * orZero (parseFloat prestation.prix))
      0
  let tva := totalHT * (20 / 100)
  let totalTTC := totalHT + tva
  { form with
    totalHT := formatPrice totalHT, totalTVA := formatPrice tva,
    totalTTC := formatPrice totalTTC }

/-- Function `addPrestation()`. -/
def addPrestation (env : Env) (page : Page) : Page :=
  let count := page.prestationsCount + 1
  let clone : PrestationItem :=
    { env.template with
      number := env.template.number.map fun _ => "Prestation " ++ toString count }
  { page with
    prestationsCount := count,
    form := updateTotals { page.form with items := page.form.items ++ [clone] } }

/-- The list with `f` applied to its element at index `i`. -/
def modifyAt {α : Type} (f : α → α) : Nat → List α → List α
  | _, [] => []
  | 0, x :: xs => f x :: xs
  | i + 1, x :: xs => x :: modifyAt f i xs

/-- The listener `calculateTotal` of the row at index `i`, run by an `input`
event on its quantity or its price. -/
def calculateTotal (i : Nat) (page : Page) : Page :=
  let items := modifyAt
    (fun item =>
      { item with
        total := formatPrice (orZero (parseFloat item.quantite) * orZero (parseFloat item.prix)) })
    i page.form.items
  markFormDirty { page with form := updateTotals { page.form with items := items } }

/-- Function `collectFormData()`; `now` is `new Date().toISOString()`. -/
def collectFormData (env : Env) (form : Form) (now : String) : QuoteRecord :=
  let prestations : List Prestation :=
    form.items.map fun item =>
      { description := env.sanitizeInput item.description,
        quantite := orZero (parseFloat item.quantite),
        prixUnitaire := orZero (parseFloat item.prix) }
  { titre := env.sanitizeInput form.titre,
    adresse := env.sanitizeInput form.adresse,
    textePresentation := env.sanitizeInput form.textePresentation,
    informationsAcces := env.sanitizeInput form.informationsAcces,
    nomClient := env.sanitizeInput form.nomClient,
    emailClient := env.sanitizeInput form.emailClient,
    telephoneClient := env.sanitizeInput form.telephoneClient,
    entrepriseClient := env.sanitizeInput form.entrepriseClient,
    dateEvenement := form.dateEvenement,
    nbPersonnes := orZero (parseInt form.nbPersonnes),
    typeEvenement := form.typeEvenement,
    prestations := some prestations,
    notes := env.sanitizeInput form.notes,
    timestamp := now }

/-- The body of the `forEach` of `fillFormData` for one line: a row is added,
the last row of the document takes the line's values, and an `input` event is
dispatched on its quantity. -/
def fillPrestation (env : Env) (page : Page) (prestation : Prestation) : Page :=
  let page := addPrestation env page
  let last := page.form.items.length - 1
  let items := modifyAt
    (fun lastItem =>
      { lastItem with
        description := prestation.description,
        quantite := numToString (if prestation.quantite = 0 then 1 else prestation.quantite),
        prix := numToString prestation.prixUnitaire })
    last page.form.items
  calculateTotal last { page with form := { page.form with items := items } }

/-- The first part of `fillFormData(data)`: the twelve fields take the values
of `data` (`data.x || ''`) and `#prestations-container` is emptied. -/
def fillFields (form : Form) (data : QuoteRecord) : Form :=
  { form with
    titre := data.titre, adresse := data.adresse,
    textePresentation := data.textePresentation,
    informationsAcces := data.informationsAcces,
    nomClient := data.nomClient, emailClient := data.emailClient,
    telephoneClient := data.telephoneClient,
    entrepriseClient := data.entrepriseClient,
    dateEvenement := data.dateEvenement,
    nbPersonnes := if data.nbPersonnes = 0 then "" else numToString data.nbPersonnes,
    typeEvenement := data.typeEvenement, notes := data.notes,
    items := [] }

/-- Function `fillFormData(data)`. -/
def fillFormData (env : Env) (page : Page) (data : QuoteRecord) : Page :=
  let page : Page := { page with form := fillFields page.form data, prestationsCount := 0 }
  let page : Page :=
    match data.prestations with
    | some prestations =>
        if prestations.length > 0 then prestations.foldl (fillPrestation env) page
        else addPrestation env page
    | none => addPrestation env page
  markFormClean page

/-- What `handleSave` leaves behind: the page, the database, the events. -/
structure SaveOutcome where
  page : Page
  db : Option Database
  events : List Event

/-- Function `handleSave()`; `captureTime` and `saveTime` are the two readings
of the clock, in `collectFormData` and in `saveQuote`. -/
def handleSave (env : Env) (page : Page) (db : Option Database)
    (captureTime saveTime : String) : SaveOutcome :=
  let data := collectFormData env page.form captureTime
  if data.nomClient = "" || data.titre = "" then
    { page := page, db := db,
      events := [.notify "Le nom du client et le titre sont requis" "warning"] }
  else if data.emailClient ≠ "" && !validateEmail data.emailClient then
    { page := page, db := db, events := [.notify "Email invalide" "warning"] }
  else
    let saved := saveQuote db saveTime data
    match saved.result with
    | .ok _ => { page := markFormClean page, db := saved.db, events := saved.events }
    | .error _ =>
        { page := page, db := saved.db,
          events := saved.events
            ++ [.error "Save error:", .notify "Erreur lors de la sauvegarde" "error"] }

/-- The requests made on the object store among the events. -/
def storeRequests (evs : List Event) : List String :=
  evs.filterMap fun e => match e with
    | .idb request => some request
    | _ => none

/-- The row that `fillFormData` leaves for the line `prestation` when it is the
`count`-th row added since the counter was reset. -/
def filledRow (env : Env) (count : Nat) (prestation : Prestation) : PrestationItem :=
  { number := env.template.number.map fun _ => "Prestation " ++ toString count,
    description := prestation.description,
    quantite := numToString (if prestation.quantite = 0 then 1 else prestation.quantite),
    prix := numToString prestation.prixUnitaire,
    total := formatPrice
      (orZero (parseFloat (numToString (if prestation.quantite = 0 then 1 else prestation.quantite)))
        * orZero (parseFloat (numToString prestation.prixUnitaire))) }

/-- The rows for the lines `prestations`, numbered from `count + 1`. -/
def filledRows (env : Env) : Nat → List Prestation → List PrestationItem
  | _, [] => []
  | count, prestation :: rest =>
      filledRow env (count + 1) prestation :: filledRows env (count + 1) rest

/-- A sanitizer of the kind the spec describes for `sanitizeInput`: control
characters and angle brackets are dropped and the result is trimmed. -/
def stripAndTrim (s : String) : String :=
  let kept := s.data.filter fun c =>
    !(c.toNat < 32 || c.toNat = 127 || c = '<' || c = '>')
  String.mk ((kept.dropWhile isJSWhitespace).reverse.dropWhile isJSWhitespace).reverse

/-- An environment used in examples: the sanitizer `stripAndTrim` and a
template row with quantity `1` and price `0`. -/
def sampleEnv : Env :=
  { sanitizeInput := stripAndTrim,
    template := { number := some "Prestation", description := "", quantite := "1",
                  prix := "0", total := "" } }

/-- The page before anything is typed: empty fields and no row. -/
def blankPage : Page :=
  { form := { titre := "", adresse := "", textePresentation := "", informationsAcces := "",
              nomClient := "", emailClient := "", telephoneClient := "",
              entrepriseClient := "", dateEvenement := "", nbPersonnes := "",
              typeEvenement := "", notes := "", items := [], totalHT := "",
              totalTVA := "", totalTTC := "" },
    prestationsCount := 0, isDirty := false }

/-- A backend whose server answers every request with `500 Internal Server
Error` and the body `{"error": "boom"}`. -/
def serverDown : Backend :=
  { origin := "https://devis.example",
    respond := fun _ =>
      .response { status := 500, statusText := "Internal Server Error",
                  body := .ok (.object [("error", .string "boom")]) } }

/-- A backend that times out once and then answers `200 OK`. -/
def slowStart : Backend :=
  { origin := "https://devis.example",
    respond := fun attempt =>
      if attempt = 0 then .timeout "The user aborted a request."
      else .response { status := 200, statusText := "OK",
                       body := .ok (.object [("status", .string "healthy")]) } }

/-- The number of `fetch` calls one `apiRequest` makes against `b`: up to the
first attempt whose `try` block returns, three when none does. -/
def attemptsMade (b : Backend) : Nat :=
  match tryAttempt (b.respond 0) with
  | .ok _ => 1
  | .error _ =>
      match tryAttempt (b.respond 1) with
      | .ok _ => 2
      | .error _ => 3

/-- A record used in examples. -/
def sampleRecord : QuoteRecord :=
  { titre := "Château X", adresse := "1 Rue Y", textePresentation := "Un lieu rare",
    informationsAcces := "Gare à 5 min", nomClient := "Mme Martin",
    emailClient := "martin@example.org", telephoneClient := "01 02 03 04 05",
    entrepriseClient := "ACME", dateEvenement := "2025-06-01", nbPersonnes := 40,
    typeEvenement := "seminaire",
    prestations := some [⟨"Salle", 2, 100⟩, ⟨"Traiteur", 40, 25 / 2⟩],
    notes := "RAS", timestamp := "2025-01-01T00:00:00.000Z" }

/-- A store holding one envelope, with id 1. -/
def sampleDatabase : Database :=
  { keyGenerator := 2,
    records := [{ id := 1, timestamp := "2025-01-01T00:00:00.000Z", data := sampleRecord }] }

/-- The sample record without lines. -/
def emptyLinesRecord : QuoteRecord := { sampleRecord with prestations := some [] }

/-- The sample record with a single line of quantity `0`. -/
def zeroQuantityRecord : QuoteRecord :=
  { sampleRecord with prestations := some [⟨"Salle", 0, 100⟩] }

/-- Function `handleNew()`; `confirmed` is the answer to its `confirm` dialog.
Emptying every `input`, `textarea` and `select` empties the twelve fields (and
the inputs of the rows, which are removed next). -/
def handleNew (env : Env) (page : Page) (confirmed : Bool) : Page × List Event :=
  if confirmed then
    let form : Form :=
      { page.form with
        titre := "", adresse := "", textePresentation := "", informationsAcces := "",
        nomClient := "", emailClient := "", telephoneClient := "", entrepriseClient := "",
        dateEvenement := "", nbPersonnes := "", typeEvenement := "", notes := "",
        items := [] }
    let page := addPrestation env { page with form := form, prestationsCount := 0 }
    let page := { page with form := updateTotals page.form }
    (markFormClean page,
      [.confirm "Créer un nouveau devis ? Les modifications non sauvegardées seront perdues.",
       .notify "Nouveau devis créé" "success"])
  else
    (page,
      [.confirm "Créer un nouveau devis ? Les modifications non sauvegardées seront perdues."])

/-- Insertion of an envelope in front of the first one that is not more
recent.  Timestamps are the strings `toISOString()` gives, which are ordered
as the instants they denote. -/
def insertByRecency (quote : Envelope) : List Envelope → List Envelope
  | [] => [quote]
  | x :: xs =>
      if x.timestamp ≤ quote.timestamp then quote :: x :: xs
      else x :: insertByRecency quote xs

/-- Function `createLoadModal(quotes)`: the entries of the modal in the order
of `quotes.sort((a, b) => new Date(b.timestamp) - new Date(a.timestamp))`,
most recent first. -/
def createLoadModal : List Envelope → List Envelope
  | [] => []
  | quote :: quotes => insertByRecency quote (createLoadModal quotes)

/-- Function `handleLoad()`: the entries of the modal it opens, if it opens
one, and the events. -/
def handleLoad (db : Option Database) : Option (List Envelope) × List Event :=
  match (loadAllQuotes db).result with
  | .ok quotes =>
      if quotes.length = 0 then
        (none, (loadAllQuotes db).events ++ [.notify "Aucun devis sauvegardé" "info"])
      else (some (createLoadModal quotes), (loadAllQuotes db).events)
  | .error _ =>
      (none, (loadAllQuotes db).events
        ++ [.error "Load error:", .notify "Erreur lors du chargement" "error"])

/-- The handler `item.onclick` of the entry of the load modal for `quote`. -/
def loadModalSelect (env : Env) (page : Page) (quote : Envelope) : Page × List Event :=
  (fillFormData env page quote.data, [.notify "Devis chargé" "success"])

/-- The dialogs opened by `confirm` among the events. -/
def confirms (evs : List Event) : List String :=
  evs.filterMap fun e => match e with
    | .confirm message => some message
    | _ => none

/-- Whether the text, after leading white space, starts with a minus sign. -/
def hasMinusSign (s : String) : Bool := (takeSign (s.data.dropWhile isJSWhitespace)).1

/-- Following the claim's words, a row shows a line when its description, its
quantity and its unit price are those of the line. -/
def rowShows (row : PrestationItem) (line : Prestation) : Prop :=
  row.description = line.description ∧ row.quantite = numToString line.quantite
    ∧ row.prix = numToString line.prixUnitaire

/-- The control characters: U+0000 to U+001F and U+007F to U+009F. -/
def isControlChar (c : Char) : Bool :=
  c.toNat < 32 || (127 ≤ c.toNat && c.toNat ≤ 159)

/-- A list of characters without its leading and its trailing white space. -/
def trimChars (cs : List Char) : List Char :=
  ((cs.dropWhile isJSWhitespace).reverse.dropWhile isJSWhitespace).reverse

/-- Modelled from the spec: `sanitizeInput`, which form-handler.js imports from
utils.js and which no file of the source tree defines.  The spec (4.2) has the
free-text fields trimmed and sanitized, where sanitization is to "strip control
characters and characters used for injection in downstream rendering
contexts".  `stripped` is the set of the latter, which the spec does not
list. -/
def sanitizeInput (stripped : Char → Bool) (s : String) : String :=
  String.mk (trimChars (s.data.filter fun c => !(isControlChar c || stripped c)))

/-- Following the claim's words, a text is sanitized when it holds no control
character and none of the stripped characters, and neither starts nor ends
with white space. -/
def Sanitized (stripped : Char → Bool) (s : String) : Prop :=
  (∀ c ∈ s.data, isControlChar c = false ∧ stripped c = false)
    ∧ (∀ c, s.data.head? = some c → isJSWhitespace c = false)
    ∧ (∀ c, s.data.getLast? = some c → isJSWhitespace c = false)

/-- The environment whose `sanitizeInput` is the one modelled from the spec. -/
def specEnv (stripped : Char → Bool) (template : PrestationItem) : Env :=
  { sanitizeInput := sanitizeInput stripped, template := template }

/-- A form with a discount line: quantity `-5`, unit price `-2.5`, and `-3`
guests. -/
def negativeForm : Form :=
  { blankPage.form with
    nbPersonnes := "-3",
    items := [{ number := none, description := "Remise", quantite := "-5", prix := "-2.5",
                total := "" }] }

/-- A page with unsaved changes: a title was typed. -/
def dirtyPage : Page :=
  { blankPage with form := { blankPage.form with titre := "Brouillon" }, isDirty := true }

/-- A form as typed by a user: one line `2 x 100` and `40` guests. -/
def typedForm : Form :=
  { blankPage.form with
    titre := "Château X", nomClient := "Mme Martin", nbPersonnes := "40",
    items := [{ number := some "Prestation 1", description := "Salle", quantite := "2",
                prix := "100", total := "" }] }

/-- The strings a regular expression matches. -/
inductive Regex.Matches : Regex → List Char → Prop where
  | empty : Regex.Matches .empty []
  | char (p : Char → Bool) (c : Char) (h : p c = true) : Regex.Matches (.char p) [c]
  | seq (a b : Regex) (s t : List Char) (ha : Regex.Matches a s) (hb : Regex.Matches b t) :
      Regex.Matches (.seq a b) (s ++ t)
  | altLeft (a b : Regex) (s : List Char) (ha : Regex.Matches a s) :
      Regex.Matches (.alt a b) s
  | altRight (a b : Regex) (s : List Char) (hb : Regex.Matches b s) :
      Regex.Matches (.alt a b) s
  | starNil (a : Regex) : Regex.Matches (.star a) []
  | starCons (a : Regex) (s t : List Char) (ha : Regex.Matches a s)
      (ht : Regex.Matches (.star a) t) : Regex.Matches (.star a) (s ++ t)

/-- The characters `[^\s@]` of the e-mail pattern. -/
def isPlainChar (c : Char) : Bool := !isJSWhitespace c && c ≠ '@'

/-- Following the claim's words, the shape of an accepted e-mail address: no
white space, exactly one `@` with at least one character before it, and after
the `@` a `.` that is neither the first nor the last character of that part. -/
def EmailShape (s : List Char) : Prop :=
  (∀ c ∈ s, isJSWhitespace c = false)
    ∧ s.count '@' = 1
    ∧ ∃ front domain, s = front ++ '@' :: domain ∧ front ≠ []
        ∧ ∃ i, 0 < i ∧ i + 1 < domain.length ∧ domain[i]? = some '.'

/-- A form as typed by a user whose e-mail address lacks its domain. -/
def badEmailForm : Form := { typedForm with emailClient := "martin@" }

/-- Following the claim's words, the grouping of digits given from the right
(units first): a space after every third digit that is followed by another. -/
def groupReversed : List Char → List Char
  | a :: b :: c :: d :: rest => a :: b :: c :: ' ' :: groupReversed (d :: rest)
  | ds => ds

/-- Following the claim's words, a digit string split into groups of three
counted from the right and separated by single spaces. -/
def groupThousands (ds : List Char) : List Char := (groupReversed ds.reverse).reverse

/-- Whether one of the two guards of `handleSave` returns before the save:
a missing client name or title, or a non-empty e-mail address that
`validateEmail` rejects. -/
def validationBlocks (data : QuoteRecord) : Bool :=
  (data.nomClient = "" || data.titre = "")
    || (data.emailClient ≠ "" && !validateEmail data.emailClient)

/-- Whether a call of `handleSave` gets through its guards and its `saveQuote`
resolves. -/
def saveSucceeds (env : Env) (page : Page) (db : Option Database)
    (captureTime saveTime : String) : Bool :=
  !validationBlocks (collectFormData env page.form captureTime)
    && (match (saveQuote db saveTime (collectFormData env page.form captureTime)).result with
        | .ok _ => true
        | .error _ => false)

/-- A page with unsaved changes whose form passes the guards of `handleSave`. -/
def typedPage : Page := { form := typedForm, prestationsCount := 1, isDirty := true }

/-- The envelope held by `sampleDatabase`. -/
def sampleEnvelope : Envelope :=
  { id := 1, timestamp := "2025-01-01T00:00:00.000Z", data := sampleRecord }

/-- A `500` answer whose JSON body carries no `error` field. -/
def plainServerError : Response :=
  { status := 500, statusText := "Internal Server Error", body := .ok (.object []) }

/-- A `404` answer whose JSON body carries the field `error`. -/
def notFoundWithReason : Response :=
  { status := 404, statusText := "Not Found",
    body := .ok (.object [("error", .string "no such quote")]) }

/-! ## Numbers as IEEE 754 binary64 values

The definitions above compute with the exact value of a number.  Where the
rounding of the Number type decides the result (the totals, the capture of
numeric fields, the amounts handed to `formatPrice`), the code is embedded
again over `Double`, with round-to-nearest, ties to even. -/

/-- The power `2 ^ k`, by repeated doubling. -/
def twoPow : Nat → Nat
  | 0 => 1
  | k + 1 => 2 * twoPow k

/-- The power `10 ^ k`. -/
def tenPow : Nat → Nat
  | 0 => 1
  | k + 1 => 10 * tenPow k

/-- The number of halvings that take `n` to `0`, counted for at most `fuel`
steps. -/
def bitLengthAux : Nat → Nat → Nat
  | 0, _ => 0
  | fuel + 1, n => if n = 0 then 0 else bitLengthAux fuel (n / 2) + 1

/-- The number of binary digits of `n`: the least `k` with `n < 2 ^ k`. -/
def bitLength (n : Nat) : Nat := bitLengthAux n n

/-- A value of the Number type: `NaN`, an infinity, or the finite number
`± mantissa * 2 ^ exponent`.  The operations below return finite numbers in
canonical form: a mantissa in `[2 ^ 52, 2 ^ 53)` with an exponent in
`[-1074, 971]`, or a mantissa below `2 ^ 52` with the exponent `-1074` (the
subnormal numbers and the two zeros). -/
inductive Double where
  | nan
  | infinity (negative : Bool)
  | finite (negative : Bool) (mantissa : Nat) (exponent : Int)
deriving DecidableEq

/-- The exact value of the finite number `± mantissa * 2 ^ exponent`. -/
def Double.exactValue (negative : Bool) (mantissa : Nat) (exponent : Int) : ℚ :=
  (if negative then -1 else 1) * (mantissa : ℚ) * (2 : ℚ) ^ exponent

/-- The whole number nearest to `num / den`, the even one of two equally
near. -/
def roundQuotient (num den : Nat) : Nat :=
  let q := num / den
  let r := num % den
  if den < 2 * r || (2 * r = den && q % 2 = 1) then q + 1 else q

/-- The fraction `a / b` rounded to a multiple of `2 ^ e`, the nearest one and
on a tie the one with an even mantissa; a mantissa that reaches `2 ^ 53` moves
to the next exponent, and past the exponent `971` the result is an infinity. -/
def roundAt (negative : Bool) (a b : Nat) (e : Int) : Double :=
  let q :=
    if e < 0 then roundQuotient (a * twoPow (-e).toNat) b
    else roundQuotient a (b * twoPow e.toNat)
  let m := if q = twoPow 53 then twoPow 52 else q
  let e := if q = twoPow 53 then e + 1 else e
  if 971 < e then .infinity negative else .finite negative m e

/-- The exponent at which the positive fraction `a / b` has a mantissa of 53
binary digits, and `-1074` when that exponent would be lower. -/
def roundingExponent (a b : Nat) : Int :=
  let e0 : Int := (bitLength a : Int) - (bitLength b : Int) - 53
  let q0 := if e0 < 0 then a * twoPow (-e0).toNat / b else a / (b * twoPow e0.toNat)
  let e1 := if twoPow 53 ≤ q0 then e0 + 1 else e0
  if e1 < -1074 then -1074 else e1

/-- The Number nearest to `± a / b` (for `b > 0`): the conversion of a real
number to the Number type. -/
def roundRatio (negative : Bool) (a b : Nat) : Double :=
  if a = 0 then .finite negative 0 (-1074)
  else roundAt negative a b (roundingExponent a b)

/-- The Number nearest to `± m * 2 ^ e`. -/
def Double.round (negative : Bool) (m : Nat) (e : Int) : Double :=
  if e < 0 then roundRatio negative m (twoPow (-e).toNat)
  else roundRatio negative (m * twoPow e.toNat) 1

/-- The Number nearest to the decimal `± m * 10 ^ e`: the value of a numeric
literal, and of the digits that `parseFloat` reads. -/
def Double.ofDecimal (negative : Bool) (m : Nat) (e : Int) : Double :=
  if e < 0 then roundRatio negative m (tenPow (-e).toNat)
  else roundRatio negative (m * tenPow e.toNat) 1

/-- The Number nearest to the natural number `n`. -/
def Double.ofNat (n : Nat) : Double := roundRatio false n 1

/-- The operator `*` on Numbers. -/
def Double.mul : Double → Double → Double
  | .nan, _ => .nan
  | _, .nan => .nan
  | .infinity s, .infinity t => .infinity (s != t)
  | .infinity s, .finite t m _ => if m = 0 then .nan else .infinity (s != t)
  | .finite s m _, .infinity t => if m = 0 then .nan else .infinity (s != t)
  | .finite s m e, .finite t n f => Double.round (s != t) (m * n) (e + f)

/-- The operator `+` on Numbers. -/
def Double.add : Double → Double → Double
  | .nan, _ => .nan
  | _, .nan => .nan
  | .infinity s, .infinity t => if s = t then .infinity s else .nan
  | .infinity s, .finite _ _ _ => .infinity s
  | .finite _ _ _, .infinity t => .infinity t
  | .finite s m e, .finite t n f =>
      let g := min e f
      let x : Int := (if s then -1 else 1) * ((m * twoPow (e - g).toNat : Nat) : Int)
      let y : Int := (if t then -1 else 1) * ((n * twoPow (f - g).toNat : Nat) : Int)
      if x + y = 0 then .finite (s && t) 0 (-1074)
      else Double.round (decide (x + y < 0)) (x + y).natAbs g

/-- The comparison `x >= 0`. -/
def Double.GeZero : Double → Prop
  | .nan => False
  | .infinity negative => negative = false
  | .finite negative m e => 0 ≤ Double.exactValue negative m e

/-- The test `Number.isInteger(x)`: a finite number whose value is a whole
number. -/
def Double.IsInteger : Double → Prop
  | .finite negative m e => ∃ z : Int, Double.exactValue negative m e = (z : ℚ)
  | _ => False

namespace Binary64

/-- A prestation line whose numbers are Numbers. -/
structure Prestation where
  description : String
  quantite : Double
  prixUnitaire : Double
deriving DecidableEq

/-- The object `{ ht, tva, ttc }` of Numbers. -/
structure Totals where
  ht : Double
  tva : Double
  ttc : Double
deriving DecidableEq

/-- The quote record built by `collectFormData`, with Numbers. -/
structure QuoteRecord where
  titre : String
  adresse : String
  textePresentation : String
  informationsAcces : String
  nomClient : String
  emailClient : String
  telephoneClient : String
  entrepriseClient : String
  dateEvenement : String
  nbPersonnes : Double
  typeEvenement : String
  prestations : Option (List Prestation)
  notes : String
  timestamp : String
deriving DecidableEq

/-- Function `calculateTotals(prestations)` of pdf-generator.js on Numbers.
The argument is `none` when the caller passes `undefined`/`null`; the literals
`0` and `0.20` are the Numbers nearest to them. -/
def calculateTotals (prestations : Option (List Prestation)) : Totals :=
  let ht : Double :=
    match prestations with
    | some ps =>
        if ps.length > 0 then
          ps.foldl (fun sum p => sum.add (p.quantite.mul p.prixUnitaire)) (Double.ofNat 0)
        else Double.ofNat 0
    | none => Double.ofNat 0
  let tva := ht.mul (Double.ofDecimal false 20 (-2))
  let ttc := ht.add tva
  { ht := ht, tva := tva, ttc := ttc }

/-- Following the claim's words: the sum of the terms, added one after the
other to `0`. -/
def sumOf (terms : List Double) : Double :=
  terms.foldl Double.add (Double.ofNat 0)

/-- The longest prefix of `cs` that is an unsigned decimal literal
`digits [. digits] [e [+-] digits]` or `. digits [e [+-] digits]`, as a
mantissa and a power of ten; `none` when there is none. -/
def unsignedDecimal (cs : List Char) : Option (Nat × Int) :=
  let intPart := cs.takeWhile Char.isDigit
  let afterInt := cs.dropWhile Char.isDigit
  let fracPart := match afterInt with
    | '.' :: rest => rest.takeWhile Char.isDigit
    | _ => []
  let afterFrac := match afterInt with
    | '.' :: rest => rest.dropWhile Char.isDigit
    | _ => afterInt
  if intPart = [] && fracPart = [] then none
  else some (digitsValue (intPart ++ fracPart), takeExponent afterFrac - (fracPart.length : Int))

/-- The built-in `parseFloat(string)`: leading white space is skipped, then an
optional sign, then the longest prefix that is `Infinity` or an unsigned
decimal literal is read and rounded to the nearest Number; `NaN` when there is
no such prefix. -/
def parseFloat (s : String) : Double :=
  let signed := takeSign (s.data.dropWhile isJSWhitespace)
  if "Infinity".data.isPrefixOf signed.2 then .infinity signed.1
  else
    match unsignedDecimal signed.2 with
    | some (m, e) => Double.ofDecimal signed.1 m e
    | none => .nan

/-- The digits that `parseInt` reads without a radix, as the number they
write: hexadecimal digits after a prefix `0x` or `0X`, decimal digits
otherwise; `none` when there is no digit to read. -/
def unsignedInteger (cs : List Char) : Option Nat :=
  match cs with
  | '0' :: x :: rest =>
      if x = 'x' || x = 'X' then
        let h := hexPrefixValue rest 0 0
        if h.2 = 0 then none else some h.1
      else some (digitsValue (('0' :: x :: rest).takeWhile Char.isDigit))
  | cs =>
      let ds := cs.takeWhile Char.isDigit
      if ds = [] then none else some (digitsValue ds)

/-- The built-in `parseInt(string)`: leading white space is skipped, then an
optional sign, then the digits are read and the integer they write is rounded
to the nearest Number; `NaN` when there is no digit. -/
def parseInt (s : String) : Double :=
  let signed := takeSign (s.data.dropWhile isJSWhitespace)
  match unsignedInteger signed.2 with
  | some n => roundRatio signed.1 n 1
  | none => .nan

/-- The expression `x || 0`: `NaN` and the two zeros are falsy and give `0`. -/
def orZero (x : Double) : Double :=
  match x with
  | .nan => Double.ofNat 0
  | .infinity negative => .infinity negative
  | .finite negative m e => if m = 0 then Double.ofNat 0 else .finite negative m e

/-- Function `collectFormData()` with its numbers as Numbers; `now` is
`new Date().toISOString()`. -/
def collectFormData (env : Env) (form : Form) (now : String) : QuoteRecord :=
  let prestations : List Prestation :=
    form.items.map fun item =>
      { description := env.sanitizeInput item.description,
        quantite := orZero (parseFloat item.quantite),
        prixUnitaire := orZero (parseFloat item.prix) }
  { titre := env.sanitizeInput form.titre,
    adresse := env.sanitizeInput form.adresse,
    textePresentation := env.sanitizeInput form.textePresentation,
    informationsAcces := env.sanitizeInput form.informationsAcces,
    nomClient := env.sanitizeInput form.nomClient,
    emailClient := env.sanitizeInput form.emailClient,
    telephoneClient := env.sanitizeInput form.telephoneClient,
    entrepriseClient := env.sanitizeInput form.entrepriseClient,
    dateEvenement := form.dateEvenement,
    nbPersonnes := orZero (parseInt form.nbPersonnes),
    typeEvenement := form.typeEvenement,
    prestations := some prestations,
    notes := env.sanitizeInput form.notes,
    timestamp := now }

/-- Following the claim's words, a text that parses as a number for
`parseFloat`: after leading white space and an optional sign it starts with a
digit, with a point followed by a digit, or with `Infinity`. -/
def startsFloat (s : String) : Bool :=
  match (takeSign (s.data.dropWhile isJSWhitespace)).2 with
  | [] => false
  | c :: rest =>
      c.isDigit
        || (c = '.' && (match rest with
              | d :: _ => d.isDigit
              | [] => false))
        || "Infinity".data.isPrefixOf (c :: rest)

/-- Following the claim's words, a text that parses as a number for
`parseInt`: after leading white space and an optional sign it starts with a
digit, and with a hexadecimal digit after the prefix `0x` or `0X` when it has
one. -/
def startsInt (s : String) : Bool :=
  match (takeSign (s.data.dropWhile isJSWhitespace)).2 with
  | [] => false
  | [c] => c.isDigit
  | c :: x :: rest =>
      if c = '0' && (x = 'x' || x = 'X') then
        (match rest with
          | h :: _ => (hexDigitValue h).isSome
          | [] => false)
      else c.isDigit

/-- Following the claim's words, for a text that parses (`parses`) or not to
the Number `parsed`: the captured value is a number; it is `0` when the text
does not parse, which is when `parsed` is `NaN`; and it is the parsed number
otherwise, a parsed zero of either sign being captured as `0`. -/
def Captures (parses : Bool) (parsed captured : Double) : Prop :=
  captured ≠ .nan
    ∧ (parses = false → parsed = .nan ∧ captured = Double.ofNat 0)
    ∧ (parses = true →
        parsed ≠ .nan
          ∧ (captured = parsed ∨ ∃ negative e, parsed = .finite negative 0 e
                ∧ captured = Double.ofNat 0))

/-- The method `x.toFixed(2)` on a Number.  From `1e21` on the text is
`String(x)`, which is not modelled for Numbers: the result is `none` there. -/
def toFixed2 : Double → Option String
  | .nan => some "NaN"
  | .infinity negative => some (if negative then "-Infinity" else "Infinity")
  | .finite negative m e =>
      if (10 : ℚ) ^ 21 ≤ |Double.exactValue negative m e| then none
      else some (QuoteGen.toFixed2 (Double.exactValue negative m e))

/-- Function `formatPrice(value)` of utils.js for a Number `value`
(`parseFloat(value)` gives `value` back, a negative zero as `0`). -/
def formatPrice (value : Double) : Option String :=
  (toFixed2 value).map formatFixed

end Binary64

/-- A form whose only row has no quantity typed. -/
def emptyQuantityForm : Form :=
  { blankPage.form with
    items := [{ number := none, description := "Salle", quantite := "", prix := "100",
                total := "" }] }

/-- A form whose numeric fields hold texts that are not plain numerals. -/
def oddNumbersForm : Form :=
  { blankPage.form with
    nbPersonnes := "9007199254740993",
    items := [{ number := none, description := "a", quantite := "1e400", prix := "Infinity",
                total := "" },
              { number := none, description := "b", quantite := "", prix := "abc",
                total := "" },
              { number := none, description := "c", quantite := "12abc", prix := "0.1",
                total := "" },
              { number := none, description := "d", quantite := "-0", prix := " .5e1x",
                total := "" }] }

/-- Following the claim's words: the text of an amount of `n` hundredths, its
integer part in groups of three digits counted from the right, a comma, two
decimal digits and the suffix ` €`. -/
def priceText (n : Nat) : String :=
  String.mk (groupThousands (Nat.toDigits 10 (n / 100))) ++ ","
    ++ String.mk [Nat.digitChar (n / 10 % 10), Nat.digitChar (n % 10)] ++ " €"

/-! ## Theorems -/

/-! ### pdf-generator.js -/

/-- The totals of one line of quantity `1` at the price `3`: the tax
`3 * 0.20` is the Number `0.6000000000000001`, one unit in the last place
above the Number nearest to `0.6`. -/
theorem calculateTotals_rounds :
    (Binary64.calculateTotals (some [⟨"a", Double.ofNat 1, Double.ofNat 3⟩])).tva
        = .finite false 5404319552844596 (-53)
      ∧ Double.ofDecimal false 6 (-1) = .finite false 5404319552844595 (-53)
      ∧ Double.ofDecimal false 6000000000000001 (-16) = .finite false 5404319552844596 (-53) := by
  decide!

/-- C1: for every list of prestation lines (or none at all), `calculateTotals`
returns as `ht` the sum of the products `quantite * prixUnitaire` of the
lines, added in order from `0` (`0` for the empty or absent list), as `tva`
the product `ht * 0.20` and as `ttc` the sum `ht + tva`, each operation being
the one of the Number type; for the lines `[(2, 100), (1, 50)]` it returns
`250`, `50` and `300`. -/
theorem calculateTotals_binary64 (prestations : Option (List Binary64.Prestation)) :
    (Binary64.calculateTotals prestations).ht
        = Binary64.sumOf ((prestations.getD []).map fun p => p.quantite.mul p.prixUnitaire)
      ∧ (Binary64.calculateTotals prestations).tva
          = (Binary64.calculateTotals prestations).ht.mul (Double.ofDecimal false 20 (-2))
      ∧ (Binary64.calculateTotals prestations).ttc
          = (Binary64.calculateTotals prestations).ht.add
              (Binary64.calculateTotals prestations).tva
      ∧ (Binary64.calculateTotals none).ht = Double.ofNat 0
      ∧ (Binary64.calculateTotals (some [])).ht = Double.ofNat 0
      ∧ Binary64.calculateTotals
            (some [⟨"a", Double.ofNat 2, Double.ofNat 100⟩, ⟨"b", Double.ofNat 1, Double.ofNat 50⟩])
          = ⟨Double.ofNat 250, Double.ofNat 50, Double.ofNat 300⟩ := by
  refine ⟨?_, rfl, rfl, rfl, rfl, by decide!⟩
  cases prestations with
  | none => rfl
  | some ps =>
      cases ps with
      | nil => rfl
      | cons p ps =>
          simp only [Binary64.calculateTotals, Option.getD_some, Binary64.sumOf]
          rw [if_pos (by simp), List.foldl_map]

/-! ### api-client.js -/

@[simp] theorem fetches_fetch (url method : String) (body : Option Json) (evs : List Event) :
    fetches (Event.fetch url method body :: evs) = Event.fetch url method body :: fetches evs := by
  simp [fetches]

@[simp] theorem fetches_warnLine (error : JSError) (attempt : Nat) (evs : List Event) :
    fetches (warnLine error attempt :: evs) = fetches evs := by
  unfold warnLine fetches
  split <;> simp

@[simp] theorem fetches_sleep (ms : Nat) (evs : List Event) :
    fetches (Event.sleep ms :: evs) = fetches evs := by
  simp [fetches]

@[simp] theorem fetches_nil : fetches [] = [] := rfl

@[simp] theorem sleeps_fetch (url method : String) (body : Option Json) (evs : List Event) :
    sleeps (Event.fetch url method body :: evs) = sleeps evs := by
  simp [sleeps]

@[simp] theorem sleeps_warnLine (error : JSError) (attempt : Nat) (evs : List Event) :
    sleeps (warnLine error attempt :: evs) = sleeps evs := by
  unfold warnLine sleeps
  split <;> simp

@[simp] theorem sleeps_sleep (ms : Nat) (evs : List Event) :
    sleeps (Event.sleep ms :: evs) = ms :: sleeps evs := by
  simp [sleeps]

@[simp] theorem sleeps_nil : sleeps [] = [] := rfl

/-- A timeout, a transport failure and a non-2xx answer each make the `try`
block of an attempt throw. -/
theorem tryAttempt_failure_kinds (m : String) (r : Response) (h : r.ok = false) :
    (∃ e, tryAttempt (.timeout m) = .error e) ∧ (∃ e, tryAttempt (.networkError m) = .error e)
      ∧ ∃ e, tryAttempt (.response r) = .error e := by
  refine ⟨⟨_, rfl⟩, ⟨_, rfl⟩, ?_⟩
  simp only [tryAttempt, h, Bool.not_false, if_true]
  split
  · exact ⟨_, rfl⟩
  · exact ⟨_, rfl⟩

/-- One iteration of the retry loop whose attempt throws `error`. -/
theorem apiRequestLoop_error (b : Backend) (endpoint : String) (options : RequestOptions)
    (remaining attempt : Nat) (last : Option JSError) (error : JSError)
    (h : tryAttempt (b.respond attempt) = .error error) :
    apiRequestLoop b endpoint options (remaining + 1) attempt last
      = ((apiRequestLoop b endpoint options remaining (attempt + 1) (some error)).1,
          Event.fetch (b.origin ++ endpoint) options.method options.body
            :: warnLine error attempt
            :: (if attempt < config.retries - 1 then
                  [Event.sleep (config.retryDelay * (attempt + 1))] else [])
              ++ (apiRequestLoop b endpoint options remaining (attempt + 1) (some error)).2) := by
  simp [apiRequestLoop, h]

/-- One iteration of the retry loop whose attempt returns `data`. -/
theorem apiRequestLoop_ok (b : Backend) (endpoint : String) (options : RequestOptions)
    (remaining attempt : Nat) (last : Option JSError) (data : JsonValue)
    (h : tryAttempt (b.respond attempt) = .ok data) :
    apiRequestLoop b endpoint options (remaining + 1) attempt last
      = (.ok data, [Event.fetch (b.origin ++ endpoint) options.method options.body]) := by
  simp [apiRequestLoop, h]

/-- Entered at attempt `a` with more than `k` iterations left, the retry loop
whose attempts `a, ..., a + k - 1` throw and whose attempt `a + k` returns
`data` returns `data` after `k + 1` fetches. -/
theorem apiRequestLoop_first_success (b : Backend) (endpoint : String)
    (options : RequestOptions) (data : JsonValue) (k : Nat) :
    ∀ (remaining a : Nat) (last : Option JSError), k < remaining →
      (∀ i, i < k → ∃ e, tryAttempt (b.respond (a + i)) = .error e) →
      tryAttempt (b.respond (a + k)) = .ok data →
      (apiRequestLoop b endpoint options remaining a last).1 = .ok data
        ∧ (fetches (apiRequestLoop b endpoint options remaining a last).2).length = k + 1 := by
  induction k with
  | zero =>
      intro remaining a last hlt _ hok
      obtain ⟨n, rfl⟩ : ∃ n, remaining = n + 1 := ⟨remaining - 1, by omega⟩
      rw [apiRequestLoop_ok b endpoint options n a last data (by simpa using hok)]
      simp
  | succ k ih =>
      intro remaining a last hlt hfail hok
      obtain ⟨n, rfl⟩ : ∃ n, remaining = n + 1 := ⟨remaining - 1, by omega⟩
      obtain ⟨e, he⟩ := hfail 0 (by omega)
      rw [apiRequestLoop_error b endpoint options n a last e (by simpa using he)]
      have hrec := ih n (a + 1) (some e) (by omega)
        (fun i hi => by
          have := hfail (i + 1) (by omega)
          simpa [Nat.add_assoc, Nat.add_comm 1 i] using this)
        (by simpa [Nat.add_assoc, Nat.add_comm 1 k] using hok)
      refine ⟨hrec.1, ?_⟩
      split <;> simp [hrec.2]

/-- C7: whenever `titre` is empty or `adresse` is empty, `generateAITexts`
throws its argument error and issues no event at all, so neither `apiRequest`
nor `fetch` is called. -/
theorem generateAITexts_rejects_empty (b : Backend) (titre adresse : String)
    (h : titre = "" ∨ adresse = "") :
    (generateAITexts b titre adresse).1
        = .error (some { name := "Error", message := "Le titre et l'adresse sont requis" })
      ∧ (generateAITexts b titre adresse).2 = []
      ∧ fetches (generateAITexts b titre adresse).2 = [] := by
  have hc : (titre = "" || adresse = "") = true := by
    rcases h with h | h <;> simp [h]
  simp [generateAITexts, hc]

/-- Witness of C7: an empty title with a filled address. -/
theorem generateAITexts_rejects_empty_witness :
    (generateAITexts serverDown "" "1 Rue Y").1
        = .error (some { name := "Error", message := "Le titre et l'adresse sont requis" })
      ∧ (generateAITexts serverDown "" "1 Rue Y").2 = []
      ∧ fetches (generateAITexts serverDown "" "1 Rue Y").2 = [] :=
  generateAITexts_rejects_empty serverDown "" "1 Rue Y" (Or.inl rfl)

/-- The result and the full event trace of an `apiRequest` whose three attempts
throw `e0`, `e1` and `e2`. -/
theorem apiRequest_failure_trace (b : Backend) (endpoint : String)
    (options : RequestOptions) (e0 e1 e2 : JSError)
    (h0 : tryAttempt (b.respond 0) = .error e0)
    (h1 : tryAttempt (b.respond 1) = .error e1)
    (h2 : tryAttempt (b.respond 2) = .error e2) :
    apiRequest b endpoint options
        = (.error (some e2),
            [ Event.fetch (b.origin ++ endpoint) options.method options.body,
              warnLine e0 0, Event.sleep 1000,
              Event.fetch (b.origin ++ endpoint) options.method options.body,
              warnLine e1 1, Event.sleep 2000,
              Event.fetch (b.origin ++ endpoint) options.method options.body,
              warnLine e2 2 ]) := by
  unfold apiRequest
  have hr : config.retries = 2 + 1 := rfl
  rw [hr, apiRequestLoop_error b endpoint options 2 0 none e0 h0,
    apiRequestLoop_error b endpoint options 1 1 (some e0) e1 h1,
    apiRequestLoop_error b endpoint options 0 2 (some e1) e2 h2]
  simp [apiRequestLoop, config]

/-- C8: when the three attempts throw `e0`, `e1` and `e2`, `apiRequest` issues
exactly three fetches, sleeps 1000 ms after the first failure and 2000 ms after
the second (3000 ms in all, nothing after the third) and throws `e2`. -/
theorem apiRequest_all_attempts_fail (b : Backend) (endpoint : String)
    (options : RequestOptions) (e0 e1 e2 : JSError)
    (h0 : tryAttempt (b.respond 0) = .error e0)
    (h1 : tryAttempt (b.respond 1) = .error e1)
    (h2 : tryAttempt (b.respond 2) = .error e2) :
    apiRequest b endpoint options
        = (.error (some e2),
            [ Event.fetch (b.origin ++ endpoint) options.method options.body,
              warnLine e0 0, Event.sleep 1000,
              Event.fetch (b.origin ++ endpoint) options.method options.body,
              warnLine e1 1, Event.sleep 2000,
              Event.fetch (b.origin ++ endpoint) options.method options.body,
              warnLine e2 2 ])
      ∧ (fetches (apiRequest b endpoint options).2).length = 3
      ∧ sleeps (apiRequest b endpoint options).2 = [1000, 2000]
      ∧ (sleeps (apiRequest b endpoint options).2).sum = 3000 := by
  have key := apiRequest_failure_trace b endpoint options e0 e1 e2 h0 h1 h2
  rw [key]
  simp

/-- Witness of C8: a server that answers 500 three times. -/
theorem apiRequest_all_attempts_fail_witness :
    apiRequest serverDown "/api/generate" { method := "POST", body := none }
        = (.error (some { name := "Error", message := "boom" }),
            [ Event.fetch (serverDown.origin ++ "/api/generate") "POST" none,
              warnLine { name := "Error", message := "boom" } 0, Event.sleep 1000,
              Event.fetch (serverDown.origin ++ "/api/generate") "POST" none,
              warnLine { name := "Error", message := "boom" } 1, Event.sleep 2000,
              Event.fetch (serverDown.origin ++ "/api/generate") "POST" none,
              warnLine { name := "Error", message := "boom" } 2 ])
      ∧ (fetches (apiRequest serverDown "/api/generate"
            { method := "POST", body := none }).2).length = 3
      ∧ sleeps (apiRequest serverDown "/api/generate"
            { method := "POST", body := none }).2 = [1000, 2000]
      ∧ (sleeps (apiRequest serverDown "/api/generate"
            { method := "POST", body := none }).2).sum = 3000 :=
  apiRequest_all_attempts_fail serverDown "/api/generate" { method := "POST", body := none }
    { name := "Error", message := "boom" } { name := "Error", message := "boom" }
    { name := "Error", message := "boom" } rfl rfl rfl

/-- C9: when attempt `k` (counted from 1, at most 3) is the first whose `try`
block returns, `apiRequest` makes exactly `k` fetches and returns the JSON body
of attempt `k`; the errors of the earlier attempts are not thrown. -/
theorem apiRequest_first_success (b : Backend) (endpoint : String)
    (options : RequestOptions) (k : Nat) (data : JsonValue) (hk1 : 1 ≤ k) (hk3 : k ≤ 3)
    (hfail : ∀ i, i + 1 < k → ∃ e, tryAttempt (b.respond i) = .error e)
    (hok : tryAttempt (b.respond (k - 1)) = .ok data) :
    (apiRequest b endpoint options).1 = .ok data
      ∧ (fetches (apiRequest b endpoint options).2).length = k := by
  have h := apiRequestLoop_first_success b endpoint options data (k - 1) config.retries 0 none
    (by simp only [config]; omega)
    (fun i hi => by simpa using hfail i (by omega))
    (by simpa using hok)
  have hk : k - 1 + 1 = k := by omega
  rw [hk] at h
  exact h

/-- Witness of C9: the first attempt times out, the second succeeds. -/
theorem apiRequest_first_success_witness :
    (apiRequest slowStart "/health" { method := "GET", body := none }).1
        = .ok (.object [("status", .string "healthy")])
      ∧ (fetches (apiRequest slowStart "/health" { method := "GET", body := none }).2).length
          = 2 :=
  apiRequest_first_success slowStart "/health" { method := "GET", body := none } 2
    (.object [("status", .string "healthy")]) (by decide) (by decide)
    (fun i hi => by
      have hi0 : i = 0 := by omega
      subst hi0
      exact ⟨_, rfl⟩)
    rfl

@[simp] theorem fetches_append (xs ys : List Event) :
    fetches (xs ++ ys) = fetches xs ++ fetches ys := by
  simp [fetches]

@[simp] theorem fetches_error (m : String) (evs : List Event) :
    fetches (Event.error m :: evs) = fetches evs := by
  simp [fetches]

/-- The fetches of `testConnection` are those of `healthCheck`. -/
theorem fetches_testConnection (b : Backend) :
    fetches (testConnection b).2 = fetches (healthCheck b).2 := by
  unfold testConnection
  split <;> rename_i h <;> simp [h]

/-- The fetches of one `apiRequest`: `attemptsMade` copies of the same call. -/
theorem fetches_apiRequest (b : Backend) (endpoint : String) (options : RequestOptions) :
    fetches (apiRequest b endpoint options).2
      = List.replicate (attemptsMade b)
          (Event.fetch (b.origin ++ endpoint) options.method options.body) := by
  unfold apiRequest attemptsMade
  have hr : config.retries = 2 + 1 := rfl
  rw [hr]
  cases h0 : tryAttempt (b.respond 0) with
  | ok d0 =>
      rw [apiRequestLoop_ok b endpoint options 2 0 none d0 h0]
      simp [List.replicate]
  | error e0 =>
      rw [apiRequestLoop_error b endpoint options 2 0 none e0 h0]
      cases h1 : tryAttempt (b.respond 1) with
      | ok d1 =>
          rw [apiRequestLoop_ok b endpoint options 1 1 (some e0) d1 h1]
          simp [List.replicate, config]
      | error e1 =>
          rw [apiRequestLoop_error b endpoint options 1 1 (some e0) e1 h1]
          cases h2 : tryAttempt (b.respond 2) with
          | ok d2 =>
              rw [apiRequestLoop_ok b endpoint options 0 2 (some e1) d2 h2]
              simp [List.replicate, config]
          | error e2 =>
              rw [apiRequestLoop_error b endpoint options 0 2 (some e1) e2 h2]
              simp [List.replicate, config, apiRequestLoop]

/-- The waits of `testConnection` are those of `healthCheck`. -/
theorem sleeps_testConnection (b : Backend) :
    sleeps (testConnection b).2 = sleeps (healthCheck b).2 := by
  unfold testConnection
  split <;> rename_i h <;> simp [h, sleeps]

/-- The waits of one `apiRequest`: one after each attempt but the last made,
of 1000 ms times the number of the attempt. -/
theorem sleeps_apiRequest (b : Backend) (endpoint : String) (options : RequestOptions) :
    sleeps (apiRequest b endpoint options).2
      = (List.range (attemptsMade b - 1)).map fun i => 1000 * (i + 1) := by
  unfold apiRequest attemptsMade
  have hr : config.retries = 2 + 1 := rfl
  rw [hr]
  cases h0 : tryAttempt (b.respond 0) with
  | ok d0 =>
      rw [apiRequestLoop_ok b endpoint options 2 0 none d0 h0]
      simp
  | error e0 =>
      rw [apiRequestLoop_error b endpoint options 2 0 none e0 h0]
      cases h1 : tryAttempt (b.respond 1) with
      | ok d1 =>
          rw [apiRequestLoop_ok b endpoint options 1 1 (some e0) d1 h1]
          simp [config, List.range_succ]
      | error e1 =>
          rw [apiRequestLoop_error b endpoint options 1 1 (some e0) e1 h1]
          cases h2 : tryAttempt (b.respond 2) with
          | ok d2 =>
              rw [apiRequestLoop_ok b endpoint options 0 2 (some e1) d2 h2]
              simp [config, List.range_succ]
          | error e2 =>
              rw [apiRequestLoop_error b endpoint options 0 2 (some e1) e2 h2]
              simp [config, List.range_succ, apiRequestLoop]

/-- Counterexample to C10 as stated: against a server that answers 500,
one `testConnection` (and one `healthCheck`) sends three requests, not one. -/
theorem testConnection_retries_on_failure :
    (fetches (testConnection serverDown).2).length = 3
      ∧ (fetches (healthCheck serverDown).2).length = 3
      ∧ ¬ (fetches (testConnection serverDown).2).length = 1
      ∧ sleeps (healthCheck serverDown).2 = [1000, 2000] := by
  have h := apiRequest_failure_trace serverDown "/health" { method := "GET", body := none }
    { name := "Error", message := "boom" } { name := "Error", message := "boom" }
    { name := "Error", message := "boom" } rfl rfl rfl
  have hh : (fetches (healthCheck serverDown).2).length = 3 := by
    unfold healthCheck; rw [h]; simp
  have hs : sleeps (healthCheck serverDown).2 = [1000, 2000] := by
    unfold healthCheck; rw [h]; simp
  refine ⟨?_, hh, ?_, hs⟩
  · rw [fetches_testConnection]; exact hh
  · rw [fetches_testConnection, hh]; decide

/-- C10, amended: one `healthCheck` or `testConnection` sends only
`GET /health` requests, as many as the retry loop of `apiRequest` makes: one
when the first attempt succeeds, two when the second is the first to succeed,
three otherwise; it waits 1000 ms between the first and the second request and
2000 ms between the second and the third, and not otherwise;
`testConnection` answers `true` exactly when `healthCheck` returns. -/
theorem testConnection_requests (b : Backend) :
    fetches (healthCheck b).2
        = List.replicate (attemptsMade b) (Event.fetch (b.origin ++ "/health") "GET" none)
      ∧ fetches (testConnection b).2
        = List.replicate (attemptsMade b) (Event.fetch (b.origin ++ "/health") "GET" none)
      ∧ 1 ≤ attemptsMade b ∧ attemptsMade b ≤ 3
      ∧ ((testConnection b).1 = true ↔ ∃ data, (healthCheck b).1 = .ok data)
      ∧ sleeps (testConnection b).2 = sleeps (healthCheck b).2
      ∧ (attemptsMade b = 1 → sleeps (healthCheck b).2 = [])
      ∧ (attemptsMade b = 2 → sleeps (healthCheck b).2 = [1000])
      ∧ (attemptsMade b = 3 → sleeps (healthCheck b).2 = [1000, 2000]) := by
  have hf : fetches (healthCheck b).2
      = List.replicate (attemptsMade b) (Event.fetch (b.origin ++ "/health") "GET" none) :=
    fetches_apiRequest b "/health" { method := "GET", body := none }
  have hs : sleeps (healthCheck b).2
      = (List.range (attemptsMade b - 1)).map fun i => 1000 * (i + 1) :=
    sleeps_apiRequest b "/health" { method := "GET", body := none }
  refine ⟨hf, ?_, ?_, ?_, ?_, sleeps_testConnection b, ?_, ?_, ?_⟩
  rotate_right 3
  · intro h; rw [hs, h]; rfl
  · intro h; rw [hs, h]; rfl
  · intro h; rw [hs, h]; rfl
  · rw [fetches_testConnection, hf]
  · unfold attemptsMade
    split
    · omega
    · split <;> omega
  · unfold attemptsMade
    split
    · omega
    · split <;> omega
  · unfold testConnection
    split <;> rename_i h <;> simp [h]

/-! ### storage.js -/

/-- A successful `saveQuote` resolves with the current number of the key
generator and leaves the generator one higher. -/
theorem saveQuote_ok (db : Option Database) (now : String) (quoteData : QuoteRecord)
    (id : Int) (h : (saveQuote db now quoteData).result = .ok id) :
    id = (generatorOf db : Int)
      ∧ generatorOf (saveQuote db now quoteData).db = generatorOf db + 1 := by
  cases db with
  | none => simp [saveQuote] at h
  | some d =>
      unfold saveQuote Database.add at *
      by_cases h1 : d.keyGenerator > maxGeneratedKey
      · simp [h1] at h
      · by_cases h2 : (d.records.any fun x => x.id = (d.keyGenerator : Int)) = true
        · simp [h1, h2] at h
        · simp only [h1, h2, if_false] at h ⊢
          simp only [Bool.false_eq_true, if_false] at h ⊢
          simp only [Except.ok.injEq] at h
          exact ⟨h.symm, rfl⟩

/-- A failed `saveQuote` leaves the database as it was. -/
theorem saveQuote_error (db : Option Database) (now : String) (quoteData : QuoteRecord)
    (e : JSError) (h : (saveQuote db now quoteData).result = .error e) :
    (saveQuote db now quoteData).db = db := by
  cases db with
  | none => rfl
  | some d =>
      unfold saveQuote at *
      cases hadd : d.add now quoteData with
      | error e' => simp [hadd]
      | ok r => simp [hadd] at h

/-- No storage call lowers the key generator. -/
theorem generator_le_after (db : Option Database) (call : StorageCall) :
    generatorOf db ≤ generatorOf (call.after db) := by
  cases db with
  | none =>
      cases call <;> simp [StorageCall.after, generatorOf, saveQuote, deleteQuote, updateQuote,
        clearAllQuotes]
  | some d =>
      cases call with
      | save now quoteData =>
          simp only [StorageCall.after]
          cases h : (saveQuote (some d) now quoteData).result with
          | ok id => rw [(saveQuote_ok _ _ _ id h).2]; omega
          | error e => rw [saveQuote_error _ _ _ e h]
      | delete id => simp [StorageCall.after, deleteQuote, Database.delete, generatorOf]
      | update now id quoteData =>
          simp only [StorageCall.after, updateQuote, Database.put, generatorOf]
          split <;> omega
      | clear confirmed =>
          simp only [StorageCall.after, clearAllQuotes]
          split <;> simp [generatorOf, Database.clear]

/-- Every id a sequence of calls saves under is at least the key generator's
number before the sequence. -/
theorem generator_le_savedIds (calls : List StorageCall) :
    ∀ (db : Option Database) (id : Int), id ∈ savedIds db calls → (generatorOf db : Int) ≤ id := by
  induction calls with
  | nil => intro db id h; simp [savedIds] at h
  | cons call calls ih =>
      intro db id h
      cases call with
      | save now quoteData =>
          simp only [savedIds] at h
          cases hr : (saveQuote db now quoteData).result with
          | ok id' =>
              rw [hr] at h
              have hs := saveQuote_ok db now quoteData id' hr
              rcases List.mem_cons.mp h with h | h
              · rw [h, hs.1]
              · have := ih _ id h
                rw [hs.2] at this
                push_cast at this
                omega
          | error e =>
              rw [hr] at h
              have := ih _ id h
              rw [saveQuote_error db now quoteData e hr] at this
              exact this
      | delete id' =>
          simp only [savedIds] at h
          have h1 := ih _ id h
          have h2 := generator_le_after db (.delete id')
          omega
      | update now id' quoteData =>
          simp only [savedIds] at h
          have h1 := ih _ id h
          have h2 := generator_le_after db (.update now id' quoteData)
          omega
      | clear confirmed =>
          simp only [savedIds] at h
          have h1 := ih _ id h
          have h2 := generator_le_after db (.clear confirmed)
          omega

/-- C4: over any sequence of calls on one store (saves interleaved with
deletions, and also with updates and clears), the ids that the successful
`saveQuote` calls return are strictly increasing in call order, hence pairwise
distinct: an id is never handed out again, also after its envelope is
deleted. -/
theorem savedIds_strictly_increasing (db : Option Database) (calls : List StorageCall) :
    (savedIds db calls).Pairwise (fun a b => a < b) ∧ (savedIds db calls).Nodup := by
  have hp : ∀ (calls : List StorageCall) (db : Option Database),
      (savedIds db calls).Pairwise (fun a b => a < b) := by
    intro calls
    induction calls with
    | nil => intro db; simp [savedIds]
    | cons call calls ih =>
        intro db
        cases call with
        | save now quoteData =>
            simp only [savedIds]
            cases hr : (saveQuote db now quoteData).result with
            | ok id =>
                have hs := saveQuote_ok db now quoteData id hr
                refine List.pairwise_cons.mpr ⟨?_, ih _⟩
                intro id' hid'
                have := generator_le_savedIds calls _ id' hid'
                rw [hs.2] at this
                push_cast at this
                omega
            | error e => exact ih _
        | delete id => simpa only [savedIds] using ih _
        | update now id quoteData => simpa only [savedIds] using ih _
        | clear confirmed => simpa only [savedIds] using ih _
  refine ⟨hp calls db, ?_⟩
  exact (hp calls db).imp (fun h => ne_of_lt h)

/-- A record inserted among records of other keys is the one found under its
key. -/
theorem find_insertByKey_self (e : Envelope) (xs : List Envelope)
    (h : ∀ x ∈ xs, x.id ≠ e.id) :
    (insertByKey e xs).find? (fun x => x.id = e.id) = some e := by
  induction xs with
  | nil => simp [insertByKey]
  | cons x xs ih =>
      have hx : x.id ≠ e.id := h x (List.mem_cons_self _ _)
      have hxs : ∀ y ∈ xs, y.id ≠ e.id := fun y hy => h y (List.mem_cons_of_mem _ hy)
      unfold insertByKey
      split
      · simp
      · simp [List.find?_cons, hx, ih hxs]

/-- Looking up another key does not see the inserted record. -/
theorem find_insertByKey_other (e : Envelope) (xs : List Envelope) (j : Int)
    (h : e.id ≠ j) :
    (insertByKey e xs).find? (fun x => x.id = j) = xs.find? (fun x => x.id = j) := by
  induction xs with
  | nil => simp [insertByKey, h]
  | cons x xs ih =>
      unfold insertByKey
      split
      · simp [List.find?_cons, h]
      · simp only [List.find?_cons, ih]

/-- Dropping the records of one key does not change what is found under another. -/
theorem find_filter_other (xs : List Envelope) (i j : Int) (h : i ≠ j) :
    (xs.filter (fun x => x.id ≠ i)).find? (fun x => x.id = j)
      = xs.find? (fun x => x.id = j) := by
  induction xs with
  | nil => rfl
  | cons x xs ih =>
      by_cases hx : x.id = i
      · have hj : ¬ x.id = j := fun hj => h (hx.symm.trans hj)
        have h1 : (List.filter (fun x => decide (x.id ≠ i)) (x :: xs))
            = List.filter (fun x => decide (x.id ≠ i)) xs := by
          rw [List.filter_cons]; simp [hx]
        have h2 : List.find? (fun x => decide (x.id = j)) (x :: xs)
            = List.find? (fun x => decide (x.id = j)) xs := by
          rw [List.find?_cons]; simp [hj]
        rw [h1, h2, ih]
      · have h1 : (List.filter (fun x => decide (x.id ≠ i)) (x :: xs))
            = x :: List.filter (fun x => decide (x.id ≠ i)) xs := by
          rw [List.filter_cons]; simp [hx]
        rw [h1, List.find?_cons, List.find?_cons, ih]

/-- The records of the other keys are the same before and after an insertion. -/
theorem filter_insertByKey (e : Envelope) (xs : List Envelope) :
    (insertByKey e xs).filter (fun x => x.id ≠ e.id) = xs.filter (fun x => x.id ≠ e.id) := by
  induction xs with
  | nil => simp [insertByKey]
  | cons x xs ih =>
      unfold insertByKey
      split
      · simp [List.filter_cons]
      · simp only [List.filter_cons, ih]

/-- C5: on an initialised store, `updateQuote(id, r)` succeeds and afterwards
`loadQuote(id)` resolves with the envelope `{ id, timestamp: now, data: r }`,
whether or not an envelope with that id was stored before (upsert); what
`loadQuote` returns for every other id, and the stored envelopes of the other
ids, are unchanged. -/
theorem updateQuote_then_loadQuote (d : Database) (now : String) (id : Int)
    (r : QuoteRecord) :
    (updateQuote (some d) now id r).result = .ok ()
      ∧ (loadQuote (updateQuote (some d) now id r).db id).result
          = .ok { id := id, timestamp := now, data := r }
      ∧ (∀ j, j ≠ id →
          (loadQuote (updateQuote (some d) now id r).db j).result
            = (loadQuote (some d) j).result)
      ∧ (∀ d', (updateQuote (some d) now id r).db = some d' →
          d'.records.filter (fun x => x.id ≠ id) = d.records.filter (fun x => x.id ≠ id)) := by
  have hself : ((d.put { id := id, timestamp := now, data := r }).get id)
      = some { id := id, timestamp := now, data := r } := by
    unfold Database.put Database.get
    exact find_insertByKey_self { id := id, timestamp := now, data := r } _
      (fun x hx => by simpa using (List.mem_filter.mp hx).2)
  have hother : ∀ j, j ≠ id →
      (d.put { id := id, timestamp := now, data := r }).get j = d.get j := by
    intro j hj
    unfold Database.put Database.get
    rw [find_insertByKey_other _ _ j (fun h => hj h.symm)]
    exact find_filter_other d.records id j (fun h => hj h.symm)
  refine ⟨rfl, ?_, ?_, ?_⟩
  · simp only [updateQuote, loadQuote, hself]
  · intro j hj
    simp only [updateQuote, loadQuote, hother j hj]
    cases d.get j <;> rfl
  · intro d' hd'
    simp only [updateQuote, Option.some.injEq] at hd'
    subst hd'
    simp only [Database.put]
    rw [filter_insertByKey { id := id, timestamp := now, data := r }]
    simp

/-- C6: on an initialised store, `deleteQuote(id)` for an id under which
nothing is stored resolves without error and leaves the store as it was:
`loadAllQuotes` resolves with the same envelopes before and after. -/
theorem deleteQuote_absent (d : Database) (id : Int) (h : d.get id = none) :
    (deleteQuote (some d) id).result = .ok ()
      ∧ (deleteQuote (some d) id).db = some d
      ∧ (loadAllQuotes (deleteQuote (some d) id).db).result = (loadAllQuotes (some d)).result := by
  have hrec : d.records.filter (fun x => x.id ≠ id) = d.records := by
    apply List.filter_eq_self.mpr
    intro x hx
    have := List.find?_eq_none.mp h x hx
    simpa using this
  have hdb : (deleteQuote (some d) id).db = some d := by
    simp only [deleteQuote, Database.delete, hrec]
  refine ⟨rfl, hdb, ?_⟩
  rw [hdb]

/-- Witness of C6: deleting id 7 from a store that holds only id 1. -/
theorem deleteQuote_absent_witness :
    (deleteQuote (some sampleDatabase) 7).result = .ok ()
      ∧ (deleteQuote (some sampleDatabase) 7).db = some sampleDatabase
      ∧ (loadAllQuotes (deleteQuote (some sampleDatabase) 7).db).result
          = (loadAllQuotes (some sampleDatabase)).result :=
  deleteQuote_absent sampleDatabase 7 (by decide)

/-! ### form-handler.js -/

/-- C3: whenever the captured `nomClient` is empty or the captured `titre` is
empty, `handleSave` only shows its warning: the page and the database are
returned as they were, no request is made on the object store (`saveQuote` is
not called) and `loadAllQuotes` gives the same envelopes as before. -/
theorem handleSave_blocks_missing_required (env : Env) (page : Page) (db : Option Database)
    (captureTime saveTime : String)
    (h : (collectFormData env page.form captureTime).nomClient = ""
      ∨ (collectFormData env page.form captureTime).titre = "") :
    (handleSave env page db captureTime saveTime).page = page
      ∧ (handleSave env page db captureTime saveTime).db = db
      ∧ (handleSave env page db captureTime saveTime).events
          = [.notify "Le nom du client et le titre sont requis" "warning"]
      ∧ storeRequests (handleSave env page db captureTime saveTime).events = []
      ∧ (loadAllQuotes (handleSave env page db captureTime saveTime).db).result
          = (loadAllQuotes db).result := by
  have hc : ((collectFormData env page.form captureTime).nomClient = ""
      || (collectFormData env page.form captureTime).titre = "") = true := by
    rcases h with h | h <;> simp [h]
  have hs : handleSave env page db captureTime saveTime
      = { page := page, db := db,
          events := [.notify "Le nom du client et le titre sont requis" "warning"] } := by
    unfold handleSave
    simp only [hc, if_true]
  rw [hs]
  simp [storeRequests]

/-- Witness of C3: saving the blank page, whose client name is empty, over a
store that holds one envelope. -/
theorem handleSave_blocks_missing_required_witness :
    (handleSave sampleEnv blankPage (some sampleDatabase) "t1" "t2").page = blankPage
      ∧ (handleSave sampleEnv blankPage (some sampleDatabase) "t1" "t2").db
          = some sampleDatabase
      ∧ (handleSave sampleEnv blankPage (some sampleDatabase) "t1" "t2").events
          = [.notify "Le nom du client et le titre sont requis" "warning"]
      ∧ storeRequests (handleSave sampleEnv blankPage (some sampleDatabase) "t1" "t2").events
          = []
      ∧ (loadAllQuotes (handleSave sampleEnv blankPage (some sampleDatabase) "t1" "t2").db).result
          = (loadAllQuotes (some sampleDatabase)).result :=
  handleSave_blocks_missing_required sampleEnv blankPage (some sampleDatabase) "t1" "t2"
    (Or.inl (by decide))

/-- Modifying the element at the last index of `xs ++ [x]` modifies `x`. -/
theorem modifyAt_last {α : Type} (f : α → α) (xs : List α) (x : α) :
    modifyAt f xs.length (xs ++ [x]) = xs ++ [f x] := by
  induction xs with
  | nil => rfl
  | cons y ys ih => simp [modifyAt, ih]

/-- The totals written by `updateTotals` depend on the rows only. -/
theorem updateTotals_absorb (form : Form) (items : List PrestationItem) :
    updateTotals { updateTotals form with items := items }
      = updateTotals { form with items := items } := rfl

/-- One pass of the loop of `fillFormData`: the row of the line is appended,
the counter goes up by one and the page is dirty. -/
theorem fillPrestation_eq (env : Env) (page : Page) (prestation : Prestation) :
    fillPrestation env page prestation
      = { form := updateTotals
            { page.form with
              items := page.form.items
                ++ [filledRow env (page.prestationsCount + 1) prestation] },
          prestationsCount := page.prestationsCount + 1,
          isDirty := true } := by
  have hlen : (page.form.items
      ++ [({ env.template with
              number := env.template.number.map
                fun _ => "Prestation " ++ toString (page.prestationsCount + 1) } :
            PrestationItem)]).length - 1 = page.form.items.length := by
    simp
  simp only [fillPrestation, addPrestation, calculateTotal, markFormDirty, updateTotals, hlen,
    modifyAt_last, filledRow]

/-- The loop of `fillFormData` over a non-empty list of lines. -/
theorem foldl_fillPrestation (env : Env) (rest : List Prestation) :
    ∀ (page : Page) (prestation : Prestation),
      (prestation :: rest).foldl (fillPrestation env) page
        = { form := updateTotals
              { page.form with
                items := page.form.items
                  ++ filledRows env page.prestationsCount (prestation :: rest) },
            prestationsCount := page.prestationsCount + (rest.length + 1),
            isDirty := true } := by
  induction rest with
  | nil =>
      intro page prestation
      simp only [List.foldl_cons, List.foldl_nil, fillPrestation_eq, filledRows, List.length_nil]
  | cons next rest ih =>
      intro page prestation
      rw [List.foldl_cons, ih, fillPrestation_eq]
      simp only [updateTotals, filledRows, List.append_assoc, List.singleton_append,
        List.length_cons, Page.mk.injEq, and_true, Nat.add_assoc, Nat.add_comm 1]

/-- The page after `fillFormData` for a record with at least one line. -/
theorem fillFormData_lines (env : Env) (page : Page) (data : QuoteRecord)
    (prestation : Prestation) (rest : List Prestation)
    (h : data.prestations = some (prestation :: rest)) :
    fillFormData env page data
      = { form := updateTotals
            { fillFields page.form data with
              items := filledRows env 0 (prestation :: rest) },
          prestationsCount := rest.length + 1,
          isDirty := false } := by
  unfold fillFormData
  simp only [h, List.length_cons, gt_iff_lt, Nat.zero_lt_succ, if_true]
  rw [foldl_fillPrestation]
  simp [markFormClean, fillFields]

/-- The page after `fillFormData` for a record without lines: one row, the
clone of the template. -/
theorem fillFormData_default (env : Env) (page : Page) (data : QuoteRecord)
    (h : data.prestations = none ∨ data.prestations = some []) :
    fillFormData env page data
      = { form := updateTotals
            { fillFields page.form data with
              items := [{ env.template with
                          number := env.template.number.map fun _ => "Prestation " ++ toString 1 }] },
          prestationsCount := 1,
          isDirty := false } := by
  unfold fillFormData
  rcases h with h | h <;>
    simp [h, markFormClean, addPrestation, fillFields]

/-- The value of `parseFloat` on a text whose decimal literal is known. -/
theorem parseFloat_of_decimal (s : String) (m e : Int)
    (h : parseFloatDecimal s = some (m, e)) :
    parseFloat s = some ((m : ℚ) * (10 : ℚ) ^ e) := by
  simp [parseFloat, h, decimalValue]

/-- The value of `parseInt` on a text whose integer literal is known. -/
theorem parseInt_of_integer (s : String) (n : Int) (h : parseIntInteger s = some n) :
    parseInt s = some (n : ℚ) := by
  simp [parseInt, h]

/-- The text of a positive whole number. -/
theorem numToString_natCast (n : ℕ) (h : n ≠ 0) :
    numToString (n : ℚ) = positiveToString n 1 := by
  have h0 : ¬ ((n : ℚ) = 0) := by exact_mod_cast h
  have h1 : ¬ ((n : ℚ) < 0) := by
    have : (0 : ℚ) ≤ (n : ℚ) := Nat.cast_nonneg n
    exact not_lt.mpr this
  simp [numToString, h0, h1]

/-- For a number, `x || 0` is `x`. -/
theorem orZero_some (q : ℚ) : orZero (some q) = q := by
  show (if q = 0 then 0 else q) = q
  split
  · rename_i h; exact h.symm
  · rfl

/-- For `NaN`, `x || 0` is `0`. -/
theorem orZero_none : orZero none = 0 := rfl

/-- Capturing the rows written for lines whose quantities are non-zero, whose
numbers survive the passage through text and whose descriptions the sanitizer
keeps gives the lines back. -/
theorem capture_filledRows (env : Env) (lines : List Prestation) :
    ∀ (count : Nat),
      (∀ p ∈ lines, p.quantite ≠ 0) →
      (∀ p ∈ lines, parseFloat (numToString p.quantite) = some p.quantite
        ∧ parseFloat (numToString p.prixUnitaire) = some p.prixUnitaire) →
      (∀ p ∈ lines, env.sanitizeInput p.description = p.description) →
      (filledRows env count lines).map
          (fun item =>
            ({ description := env.sanitizeInput item.description,
               quantite := orZero (parseFloat item.quantite),
               prixUnitaire := orZero (parseFloat item.prix) } : Prestation))
        = lines := by
  induction lines with
  | nil => intro count _ _ _; rfl
  | cons p rest ih =>
      intro count hq hnum hdesc
      have hq0 : p.quantite ≠ 0 := hq p (List.mem_cons_self _ _)
      obtain ⟨hn1, hn2⟩ := hnum p (List.mem_cons_self _ _)
      have hd := hdesc p (List.mem_cons_self _ _)
      have ihr := ih (count + 1)
        (fun x hx => hq x (List.mem_cons_of_mem _ hx))
        (fun x hx => hnum x (List.mem_cons_of_mem _ hx))
        (fun x hx => hdesc x (List.mem_cons_of_mem _ hx))
      simp only [filledRows, List.map_cons, ihr, filledRow, if_neg hq0, hn1, hn2, hd,
        orZero_some]

/-- Whatever the sanitizer, the template and the page before, a record without
lines comes back from `fillFormData` and `collectFormData` with exactly one
line, read from the default row. -/
theorem fill_collect_default_line (env : Env) (page : Page) (data : QuoteRecord)
    (now : String) (h : data.prestations = none ∨ data.prestations = some []) :
    (collectFormData env (fillFormData env page data).form now).prestations
      = some [{ description := env.sanitizeInput env.template.description,
                quantite := orZero (parseFloat env.template.quantite),
                prixUnitaire := orZero (parseFloat env.template.prix) }] := by
  rw [fillFormData_default env page data h]
  simp [collectFormData, updateTotals]

/-- Counterexample to C2 as stated.  A record without lines comes back with
one line, the default row (here of a template with quantity `1` and price `0`;
by `fill_collect_default_line` it is one line for every template); a record
whose line has quantity `0` comes back with quantity `1`. -/
theorem fill_collect_changes_lines :
    (collectFormData sampleEnv (fillFormData sampleEnv blankPage emptyLinesRecord).form
        "t").prestations = some [⟨"", 1, 0⟩]
      ∧ (collectFormData sampleEnv (fillFormData sampleEnv blankPage emptyLinesRecord).form
          "t").prestations ≠ emptyLinesRecord.prestations
      ∧ (collectFormData sampleEnv (fillFormData sampleEnv blankPage zeroQuantityRecord).form
          "t").prestations = some [⟨"Salle", 1, 100⟩]
      ∧ (collectFormData sampleEnv (fillFormData sampleEnv blankPage zeroQuantityRecord).form
          "t").prestations ≠ zeroQuantityRecord.prestations := by
  have hp1 : parseFloat "1" = some 1 := by
    rw [parseFloat_of_decimal "1" 1 0 (by decide)]; norm_num
  have hp0 : parseFloat "0" = some 0 := by
    rw [parseFloat_of_decimal "0" 0 0 (by decide)]; norm_num
  have hp100 : parseFloat "100" = some 100 := by
    rw [parseFloat_of_decimal "100" 100 0 (by decide)]; norm_num
  have hs1 : numToString 1 = "1" := by
    have h := numToString_natCast 1 (by decide)
    rw [Nat.cast_one] at h
    rw [h]; decide
  have hs100 : numToString 100 = "100" := by
    have h := numToString_natCast 100 (by decide)
    rw [Nat.cast_ofNat] at h
    rw [h]; decide
  have hd1 : stripAndTrim "" = "" := by decide
  have hd2 : stripAndTrim "Salle" = "Salle" := by decide
  have e1 : (collectFormData sampleEnv (fillFormData sampleEnv blankPage emptyLinesRecord).form
      "t").prestations = some [⟨"", 1, 0⟩] := by
    rw [fillFormData_default sampleEnv blankPage emptyLinesRecord (Or.inr rfl)]
    simp [collectFormData, updateTotals, sampleEnv, hp1, hp0, hd1, orZero_some]
  have e2 : (collectFormData sampleEnv (fillFormData sampleEnv blankPage zeroQuantityRecord).form
      "t").prestations = some [⟨"Salle", 1, 100⟩] := by
    rw [fillFormData_lines sampleEnv blankPage zeroQuantityRecord ⟨"Salle", 0, 100⟩ [] rfl]
    simp [collectFormData, updateTotals, sampleEnv, filledRows, filledRow, hs1, hs100, hp1,
      hp100, hd2, orZero_some]
  refine ⟨e1, ?_, e2, ?_⟩
  · rw [e1]; simp [emptyLinesRecord]
  · rw [e2]; simp [zeroQuantityRecord]

/-- C2, amended: for a record with at least one line, whose lines all have a
non-zero quantity, whose free texts the sanitizer leaves as they are and whose
numbers are read back from their text (`parseFloat(String(x)) = x` for the
quantities and unit prices, `parseInt(String(n)) = n` for a non-zero
`nbPersonnes`), `fillFormData` followed by `collectFormData` gives the record
back in every field; only `timestamp` is the time of the capture. -/
theorem fillFormData_then_collectFormData (env : Env) (page : Page) (r : QuoteRecord)
    (now : String) (lines : List Prestation)
    (hlines : r.prestations = some lines) (hne : lines ≠ [])
    (hq : ∀ p ∈ lines, p.quantite ≠ 0)
    (hnum : ∀ p ∈ lines, parseFloat (numToString p.quantite) = some p.quantite
      ∧ parseFloat (numToString p.prixUnitaire) = some p.prixUnitaire)
    (hnb : r.nbPersonnes ≠ 0 → parseInt (numToString r.nbPersonnes) = some r.nbPersonnes)
    (hdesc : ∀ p ∈ lines, env.sanitizeInput p.description = p.description)
    (htext : env.sanitizeInput r.titre = r.titre
      ∧ env.sanitizeInput r.adresse = r.adresse
      ∧ env.sanitizeInput r.textePresentation = r.textePresentation
      ∧ env.sanitizeInput r.informationsAcces = r.informationsAcces
      ∧ env.sanitizeInput r.nomClient = r.nomClient
      ∧ env.sanitizeInput r.emailClient = r.emailClient
      ∧ env.sanitizeInput r.telephoneClient = r.telephoneClient
      ∧ env.sanitizeInput r.entrepriseClient = r.entrepriseClient
      ∧ env.sanitizeInput r.notes = r.notes) :
    collectFormData env (fillFormData env page r).form now = { r with timestamp := now } := by
  obtain ⟨p, rest, rfl⟩ : ∃ p rest, lines = p :: rest := by
    cases lines with
    | nil => exact absurd rfl hne
    | cons p rest => exact ⟨p, rest, rfl⟩
  rw [fillFormData_lines env page r p rest hlines]
  have hcap := capture_filledRows env (p :: rest) 0 hq hnum hdesc
  obtain ⟨t1, t2, t3, t4, t5, t6, t7, t8, t9⟩ := htext
  have hnb' : orZero (parseInt (if r.nbPersonnes = 0 then "" else numToString r.nbPersonnes))
      = r.nbPersonnes := by
    by_cases h0 : r.nbPersonnes = 0
    · have : parseInt "" = none := by
        have : parseIntInteger "" = none := by decide
        simp [parseInt, this]
      simp [h0, this, orZero_none]
    · simp [h0, hnb h0, orZero_some]
  cases r with
  | mk titre adresse textePresentation informationsAcces nomClient emailClient telephoneClient
      entrepriseClient dateEvenement nbPersonnes typeEvenement prestations notes timestamp =>
      simp only [collectFormData, updateTotals, fillFields] at *
      simp only [hcap, t1, t2, t3, t4, t5, t6, t7, t8, t9, hnb', hlines]

/-- The text of a positive fraction in lowest terms. -/
theorem numToString_div (a b : ℕ) (ha : a ≠ 0) (hb : b ≠ 0) (h : Nat.Coprime a b) :
    numToString ((a : ℚ) / (b : ℚ)) = positiveToString a b := by
  have hb0 : (0 : ℤ) < (b : ℤ) := by exact_mod_cast Nat.pos_of_ne_zero hb
  have hnum : (((a : ℤ) : ℚ) / ((b : ℤ) : ℚ)).num = (a : ℤ) :=
    Rat.num_div_eq_of_coprime hb0 (by simpa using h)
  have hden : ((((a : ℤ) : ℚ) / ((b : ℤ) : ℚ)).den : ℤ) = (b : ℤ) :=
    Rat.den_div_eq_of_coprime hb0 (by simpa using h)
  have hpos : (0 : ℚ) < (a : ℚ) / (b : ℚ) := by
    apply div_pos
    · exact_mod_cast Nat.pos_of_ne_zero ha
    · exact_mod_cast Nat.pos_of_ne_zero hb
  have h0 : ¬ ((a : ℚ) / (b : ℚ) = 0) := ne_of_gt hpos
  have h1 : ¬ ((a : ℚ) / (b : ℚ) < 0) := not_lt.mpr (le_of_lt hpos)
  have hnum' : ((a : ℚ) / (b : ℚ)).num = (a : ℤ) := by simpa using hnum
  have hden' : ((a : ℚ) / (b : ℚ)).den = b := by
    have : ((((a : ℚ) / (b : ℚ)).den : ℕ) : ℤ) = (b : ℤ) := by simpa using hden
    exact_mod_cast this
  simp [numToString, h0, h1, hnum', hden']

/-- Witness of C2, amended: the sample record, with the lines `2 x 100` and
`40 x 12.5`, put on the blank page and captured again. -/
theorem fillFormData_then_collectFormData_witness :
    collectFormData sampleEnv (fillFormData sampleEnv blankPage sampleRecord).form "now"
      = { sampleRecord with timestamp := "now" } := by
  have hs2 : numToString 2 = "2" := by
    have h := numToString_natCast 2 (by decide)
    rw [Nat.cast_ofNat] at h
    rw [h]; decide
  have hs100 : numToString 100 = "100" := by
    have h := numToString_natCast 100 (by decide)
    rw [Nat.cast_ofNat] at h
    rw [h]; decide
  have hs40 : numToString 40 = "40" := by
    have h := numToString_natCast 40 (by decide)
    rw [Nat.cast_ofNat] at h
    rw [h]; decide
  have hs125 : numToString (25 / 2) = "12.5" := by
    have h := numToString_div 25 2 (by decide) (by decide) (by decide)
    rw [Nat.cast_ofNat, Nat.cast_ofNat] at h
    rw [h]; decide
  have hp2 : parseFloat "2" = some 2 := by
    rw [parseFloat_of_decimal "2" 2 0 (by decide)]; norm_num
  have hp100 : parseFloat "100" = some 100 := by
    rw [parseFloat_of_decimal "100" 100 0 (by decide)]; norm_num
  have hp40 : parseFloat "40" = some 40 := by
    rw [parseFloat_of_decimal "40" 40 0 (by decide)]; norm_num
  have hp125 : parseFloat "12.5" = some (25 / 2) := by
    rw [parseFloat_of_decimal "12.5" 125 (-1) (by decide)]; norm_num
  have hi40 : parseInt "40" = some 40 := by
    rw [parseInt_of_integer "40" 40 (by decide)]; norm_num
  exact fillFormData_then_collectFormData sampleEnv blankPage sampleRecord "now"
    [⟨"Salle", 2, 100⟩, ⟨"Traiteur", 40, 25 / 2⟩] rfl (by simp)
    (by
      intro p hp
      simp only [List.mem_cons, List.mem_singleton, List.not_mem_nil, or_false] at hp
      rcases hp with rfl | rfl <;> norm_num)
    (by
      intro p hp
      simp only [List.mem_cons, List.mem_singleton, List.not_mem_nil, or_false] at hp
      rcases hp with rfl | rfl
      · exact ⟨by simp only [hs2, hp2], by simp only [hs100, hp100]⟩
      · exact ⟨by simp only [hs40, hp40], by simp only [hs125, hp125]⟩)
    (by
      intro _
      show parseInt (numToString 40) = some 40
      rw [hs40, hi40])
    (by
      intro p hp
      simp only [List.mem_cons, List.mem_singleton, List.not_mem_nil, or_false] at hp
      rcases hp with rfl | rfl <;> decide)
    ⟨by decide, by decide, by decide, by decide, by decide, by decide, by decide, by decide,
      by decide⟩

/-! ### Error messages, the dirty flag and clearing -/

/-- Counterexample to C11 as stated: for a `500` answer whose body has no
`error` field the message of the error is `HTTP 500: Internal Server Error`,
which is not the status text `Internal Server Error`. -/
theorem tryAttempt_message_not_statusText :
    tryAttempt (.response plainServerError)
        = .error { name := "Error", message := "HTTP 500: Internal Server Error" }
      ∧ "HTTP 500: Internal Server Error" ≠ plainServerError.statusText :=
  ⟨rfl, by decide⟩

/-- A `502` answer whose JSON body is `null`. -/
theorem tryAttempt_null_body :
    tryAttempt (.response { status := 502, statusText := "Bad Gateway", body := .ok .null })
      = .error { name := "TypeError",
                 message := "Cannot read properties of null (reading 'error')" } :=
  rfl

/-- C11, amended: for every non-2xx response the attempt throws.  When the
body is JSON `null`, what is thrown is the `TypeError` of reading `error` of
`null`.  In every other case it is an `Error`, whose message is `String(v)`
for the field `error` of a JSON object that carries a truthy one (the field
itself when it is a non-empty string), and the text
`HTTP <status>: <statusText>` when the body is not JSON, is a JSON object
without a truthy `error` field, or is any other JSON value. -/
theorem tryAttempt_error_message (r : Response) (h : r.ok = false) :
    (r.body = .ok .null →
        tryAttempt (.response r)
          = .error { name := "TypeError",
                     message := "Cannot read properties of null (reading 'error')" })
      ∧ (∀ fields v, r.body = .ok (.object fields) → fields.lookup "error" = some v →
          v.truthy = true →
          tryAttempt (.response r) = .error { name := "Error", message := v.toText })
      ∧ (∀ fields s, r.body = .ok (.object fields) →
          fields.lookup "error" = some (.string s) → s ≠ "" →
          tryAttempt (.response r) = .error { name := "Error", message := s })
      ∧ (∀ fields v, r.body = .ok (.object fields) → fields.lookup "error" = some v →
          v.truthy = false →
          tryAttempt (.response r)
            = .error { name := "Error",
                       message := "HTTP " ++ toString r.status ++ ": " ++ r.statusText })
      ∧ (∀ fields, r.body = .ok (.object fields) → fields.lookup "error" = none →
          tryAttempt (.response r)
            = .error { name := "Error",
                       message := "HTTP " ++ toString r.status ++ ": " ++ r.statusText })
      ∧ (∀ j, r.body = .ok j → j ≠ .null → (∀ fields, j ≠ .object fields) →
          tryAttempt (.response r)
            = .error { name := "Error",
                       message := "HTTP " ++ toString r.status ++ ": " ++ r.statusText })
      ∧ (∀ e, r.body = .error e →
          tryAttempt (.response r)
            = .error { name := "Error",
                       message := "HTTP " ++ toString r.status ++ ": " ++ r.statusText }) := by
  have hobj : ∀ fields v, r.body = .ok (.object fields) → fields.lookup "error" = some v →
      v.truthy = true →
      tryAttempt (.response r) = .error { name := "Error", message := v.toText } := by
    intro fields v hb hv ht
    simp [tryAttempt, h, hb, JsonValue.errorField, hv, orElseString, ht]
  refine ⟨?_, hobj, ?_, ?_, ?_, ?_, ?_⟩
  · intro hb
    simp [tryAttempt, h, hb, JsonValue.errorField]
  · intro fields s hb hv hs
    have := hobj fields (.string s) hb hv (by simp [JsonValue.truthy, hs])
    simpa [JsonValue.toText] using this
  · intro fields v hb hv ht
    simp [tryAttempt, h, hb, JsonValue.errorField, hv, orElseString, ht, statusLine]
  · intro fields hb hv
    simp [tryAttempt, h, hb, JsonValue.errorField, hv, orElseString, statusLine]
  · intro j hb hnull hobject
    cases j with
    | null => exact absurd rfl hnull
    | object fields => exact absurd rfl (hobject fields)
    | bool _ => simp [tryAttempt, h, hb, JsonValue.errorField, orElseString, statusLine]
    | number _ => simp [tryAttempt, h, hb, JsonValue.errorField, orElseString, statusLine]
    | string _ => simp [tryAttempt, h, hb, JsonValue.errorField, orElseString, statusLine]
    | array _ => simp [tryAttempt, h, hb, JsonValue.errorField, orElseString, statusLine]
  · intro e hb
    simp [tryAttempt, h, hb, JsonValue.errorField, orElseString, statusLine]

/-- Witness of C11, amended: a `404` answer with the body
`{"error": "no such quote"}` throws an `Error` with the message
`no such quote`. -/
theorem tryAttempt_error_message_witness :
    notFoundWithReason.ok = false
      ∧ tryAttempt (.response notFoundWithReason)
          = .error { name := "Error", message := "no such quote" } :=
  ⟨by decide,
    (tryAttempt_error_message notFoundWithReason (by decide)).2.2.1
      [("error", .string "no such quote")] "no such quote" rfl rfl (by decide)⟩

/-- C15: whatever the page before and whatever the record, `appState.isDirty`
is `false` when `fillFormData` returns, although each pass of its loop leaves
the page dirty: the `input` event dispatched for a line runs `calculateTotal`,
which calls `markFormDirty`. -/
theorem fillFormData_clears_dirty (env : Env) (page : Page) (r : QuoteRecord) :
    (fillFormData env page r).isDirty = false
      ∧ (∀ (before : Page) (prestation : Prestation),
          (fillPrestation env before prestation).isDirty = true)
      ∧ (∀ (before : Page) (prestation : Prestation) (rest : List Prestation),
          ((prestation :: rest).foldl (fillPrestation env) before).isDirty = true) := by
  refine ⟨rfl, ?_, ?_⟩
  · intro before prestation
    rw [fillPrestation_eq]
  · intro before prestation rest
    rw [foldl_fillPrestation]

/-- Counterexample to C19 as stated: when the answer to the dialog of
`clearAllQuotes` is no, the call resolves and the store still holds its
envelope. -/
theorem clearAllQuotes_declined_keeps_quotes :
    (clearAllQuotes (some sampleDatabase) false).db = some sampleDatabase
      ∧ (loadAllQuotes (clearAllQuotes (some sampleDatabase) false).db).result
          = .ok sampleDatabase.records
      ∧ sampleDatabase.records ≠ []
      ∧ storeRequests (clearAllQuotes (some sampleDatabase) false).events = [] := by
  refine ⟨rfl, rfl, by decide, by decide⟩

/-- C19, amended: `clearAllQuotes` opens its `confirm` dialog first.  When the
answer is yes, an initialised store loses all its envelopes and
`loadAllQuotes` then resolves with the empty sequence; when the answer is no,
the call resolves without a request on the store, which keeps what it held. -/
theorem clearAllQuotes_after_confirm (d : Database) :
    (clearAllQuotes (some d) true).result = .ok ()
      ∧ (loadAllQuotes (clearAllQuotes (some d) true).db).result = .ok []
      ∧ (clearAllQuotes (some d) true).events.head?
          = some (.confirm "Êtes-vous sûr de vouloir supprimer tous les devis ?")
      ∧ (clearAllQuotes (some d) false).result = .ok ()
      ∧ (clearAllQuotes (some d) false).db = some d
      ∧ (clearAllQuotes (some d) false).events
          = [.confirm "Êtes-vous sûr de vouloir supprimer tous les devis ?"] := by
  refine ⟨rfl, rfl, rfl, rfl, rfl, rfl⟩

/-- The number of rows written for a list of lines. -/
theorem filledRows_length (env : Env) (lines : List Prestation) :
    ∀ count, (filledRows env count lines).length = lines.length := by
  induction lines with
  | nil => intro count; rfl
  | cons p rest ih => intro count; simp [filledRows, ih]

/-- The row written for the line at index `i`. -/
theorem filledRows_getElem? (env : Env) (lines : List Prestation) :
    ∀ (count i : Nat),
      (filledRows env count lines)[i]? = lines[i]?.map (filledRow env (count + i + 1)) := by
  induction lines with
  | nil => intro count i; simp [filledRows]
  | cons p rest ih =>
      intro count i
      cases i with
      | zero => simp [filledRows]
      | succ i =>
          simp only [filledRows, List.getElem?_cons_succ, ih]
          have : count + 1 + i + 1 = count + (i + 1) + 1 := by omega
          rw [this]

/-- C14, the code at the failing input: for a record whose only line has
quantity `0`, the row that `fillFormData` writes (`prestation.quantite || 1`)
shows the quantity `1`, not the `0` of the line, so the rows of the form are
not the lines of the record; `collectFormData`, on a row whose quantity is
left empty, defaults it to `0` (`parseFloat(...) || 0`). -/
theorem fillFormData_row_shows_one_for_zero :
    ((fillFormData sampleEnv blankPage zeroQuantityRecord).form.items.map
        fun row => (row.description, row.quantite, row.prix)) = [("Salle", "1", "100")]
      ∧ numToString 0 = "0"
      ∧ ¬ List.Forall₂ rowShows (fillFormData sampleEnv blankPage zeroQuantityRecord).form.items
          [⟨"Salle", 0, 100⟩]
      ∧ (collectFormData sampleEnv emptyQuantityForm "t").prestations
          = some [⟨"Salle", 0, 100⟩] := by
  have hsibling : (collectFormData sampleEnv emptyQuantityForm "t").prestations
      = some [⟨"Salle", 0, 100⟩] := by decide!
  have hs1 : numToString 1 = "1" := by
    have h := numToString_natCast 1 (by decide)
    rw [Nat.cast_one] at h
    rw [h]; decide
  have hs100 : numToString 100 = "100" := by
    have h := numToString_natCast 100 (by decide)
    rw [Nat.cast_ofNat] at h
    rw [h]; decide
  have hs0 : numToString 0 = "0" := by simp [numToString]
  have hitems : (fillFormData sampleEnv blankPage zeroQuantityRecord).form.items
      = filledRows sampleEnv 0 [⟨"Salle", 0, 100⟩] := by
    rw [fillFormData_lines sampleEnv blankPage zeroQuantityRecord ⟨"Salle", 0, 100⟩ [] rfl]
    rfl
  refine ⟨?_, hs0, ?_, hsibling⟩
  · rw [hitems]
    simp [filledRows, filledRow, hs1, hs100]
  · rw [hitems]
    simp only [filledRows, List.forall₂_cons, List.forall₂_nil_left_iff, and_true]
    intro h
    have hq := h.2.1
    simp only [filledRow, if_true, hs1, hs0] at hq
    exact absurd hq (by decide)

/-- The rows that `fillFormData` leaves: whatever the page before, after
`fillFormData(r)` with a
non-empty `r.prestations` the form has one row per line, in the order of the
lines, and `prestationsCount` is their number; row `i` (from 0) is numbered
`Prestation i+1` and holds the description and the unit price of line `i`,
and its quantity when that is not `0`.  With `r.prestations` empty or absent
the form has exactly one row, the clone of the template numbered 1. -/
theorem fillFormData_rows (env : Env) (page : Page) (r : QuoteRecord) :
    (∀ lines, r.prestations = some lines → lines ≠ [] →
        (fillFormData env page r).form.items.length = lines.length
          ∧ (fillFormData env page r).prestationsCount = lines.length
          ∧ ∀ (i : Nat) (line : Prestation), lines[i]? = some line →
              ∃ row, (fillFormData env page r).form.items[i]? = some row
                ∧ row.number
                    = env.template.number.map (fun _ => "Prestation " ++ toString (i + 1))
                ∧ row.description = line.description
                ∧ row.prix = numToString line.prixUnitaire
                ∧ (line.quantite ≠ 0 → row.quantite = numToString line.quantite))
      ∧ ((r.prestations = none ∨ r.prestations = some []) →
          (fillFormData env page r).form.items
              = [{ env.template with
                    number := env.template.number.map fun _ => "Prestation " ++ toString 1 }]
            ∧ (fillFormData env page r).prestationsCount = 1) := by
  constructor
  · intro lines hlines hne
    obtain ⟨p, rest, rfl⟩ : ∃ p rest, lines = p :: rest := by
      cases lines with
      | nil => exact absurd rfl hne
      | cons p rest => exact ⟨p, rest, rfl⟩
    rw [fillFormData_lines env page r p rest hlines]
    have hitems : (updateTotals
        { fillFields page.form r with items := filledRows env 0 (p :: rest) }).items
        = filledRows env 0 (p :: rest) := rfl
    refine ⟨?_, ?_, ?_⟩
    · show (filledRows env 0 (p :: rest)).length = _
      exact filledRows_length env (p :: rest) 0
    · simp
    · intro i line hline
      refine ⟨filledRow env (i + 1) line, ?_, rfl, rfl, rfl, ?_⟩
      · show (filledRows env 0 (p :: rest))[i]? = _
        rw [filledRows_getElem?, hline]
        simp
      · intro hq
        simp [filledRow, hq]
  · intro h
    rw [fillFormData_default env page r h]
    exact ⟨rfl, rfl⟩

/-- The rows of two examples: the sample record (two lines) and the record
without lines, each put on a page that held a draft. -/
theorem fillFormData_rows_examples :
    ((fillFormData sampleEnv dirtyPage sampleRecord).form.items.length = 2
        ∧ (fillFormData sampleEnv dirtyPage sampleRecord).prestationsCount = 2)
      ∧ (fillFormData sampleEnv dirtyPage emptyLinesRecord).form.items
          = [{ number := some "Prestation 1", description := "", quantite := "1",
               prix := "0", total := "" }] := by
  have h1 := (fillFormData_rows sampleEnv dirtyPage sampleRecord).1
    [⟨"Salle", 2, 100⟩, ⟨"Traiteur", 40, 25 / 2⟩] rfl (by simp)
  have h2 := (fillFormData_rows sampleEnv dirtyPage emptyLinesRecord).2 (Or.inr rfl)
  exact ⟨⟨h1.1, h1.2.1⟩, h2.1⟩

/-- C16, the code at the failing input: on a page with unsaved changes
(`isDirty`, title `Brouillon`), `handleLoad` opens the modal with the stored
quote and selecting it replaces the form (title `Château X`) and clears the
dirty flag, and neither step opens a `confirm` dialog; `handleNew`, on the same
page, does open one and leaves the page alone when the answer is no. -/
theorem loadModalSelect_replaces_dirty_form :
    dirtyPage.isDirty = true
      ∧ dirtyPage.form.titre = "Brouillon"
      ∧ (handleLoad (some sampleDatabase)).1 = some [sampleEnvelope]
      ∧ confirms (handleLoad (some sampleDatabase)).2 = []
      ∧ (loadModalSelect sampleEnv dirtyPage sampleEnvelope).1.form.titre = "Château X"
      ∧ (loadModalSelect sampleEnv dirtyPage sampleEnvelope).1.isDirty = false
      ∧ confirms (loadModalSelect sampleEnv dirtyPage sampleEnvelope).2 = []
      ∧ handleNew sampleEnv dirtyPage false
          = (dirtyPage,
              [.confirm
                "Créer un nouveau devis ? Les modifications non sauvegardées seront perdues."]) := by
  refine ⟨rfl, rfl, rfl, rfl, ?_, rfl, rfl, rfl⟩
  show (fillFormData sampleEnv dirtyPage sampleRecord).form.titre = "Château X"
  rw [fillFormData_lines sampleEnv dirtyPage sampleRecord ⟨"Salle", 2, 100⟩
    [⟨"Traiteur", 40, 25 / 2⟩] rfl]
  rfl

/-- The elements of a trimmed list are elements of the list. -/
theorem mem_of_mem_trimChars (cs : List Char) (c : Char) (h : c ∈ trimChars cs) : c ∈ cs := by
  unfold trimChars at h
  rw [List.mem_reverse] at h
  have h1 := (List.dropWhile_sublist isJSWhitespace).subset h
  rw [List.mem_reverse] at h1
  exact (List.dropWhile_sublist isJSWhitespace).subset h1

/-- A trimmed list does not end with white space. -/
theorem trimChars_getLast (cs : List Char) (c : Char) (h : (trimChars cs).getLast? = some c) :
    isJSWhitespace c = false := by
  unfold trimChars at h
  rw [List.getLast?_reverse] at h
  have := List.head?_dropWhile_not isJSWhitespace (cs.dropWhile isJSWhitespace).reverse
  rw [h] at this
  simpa using this

/-- A trimmed list does not start with white space. -/
theorem trimChars_head (cs : List Char) (c : Char) (h : (trimChars cs).head? = some c) :
    isJSWhitespace c = false := by
  have hpre : trimChars cs <+: cs.dropWhile isJSWhitespace := by
    unfold trimChars
    have hs := List.dropWhile_suffix (l := (cs.dropWhile isJSWhitespace).reverse) isJSWhitespace
    have := List.reverse_prefix.mpr hs
    simpa using this
  obtain ⟨t, ht⟩ := hpre
  have hne : trimChars cs ≠ [] := by
    intro h0
    rw [h0] at h
    simp at h
  have hhead : (cs.dropWhile isJSWhitespace).head? = some c := by
    rw [← ht]
    cases htc : trimChars cs with
    | nil => exact absurd htc hne
    | cons x xs =>
        rw [htc] at h
        simpa using h
  have := List.head?_dropWhile_not isJSWhitespace cs
  rw [hhead] at this
  simpa using this

/-- What the `sanitizeInput` of the spec returns is sanitized. -/
theorem sanitizeInput_sanitized (stripped : Char → Bool) (s : String) :
    Sanitized stripped (sanitizeInput stripped s) := by
  refine ⟨?_, ?_, ?_⟩
  · intro c hc
    have hmem := mem_of_mem_trimChars _ c hc
    have := (List.mem_filter.mp hmem).2
    simpa using this
  · intro c hc
    exact trimChars_head _ c hc
  · intro c hc
    exact trimChars_getLast _ c hc

/-- C20, against the `sanitizeInput` modelled from the spec: for every form
state, each free-text field of the record returned by `collectFormData` is
`sanitizeInput` of the text of its field, and so is the description of every
line; each of them is trimmed and holds no control character and none of the
stripped characters. -/
theorem collectFormData_sanitized (stripped : Char → Bool) (template : PrestationItem)
    (form : Form) (now : String) :
    (collectFormData (specEnv stripped template) form now).titre
        = sanitizeInput stripped form.titre
      ∧ (collectFormData (specEnv stripped template) form now).adresse
        = sanitizeInput stripped form.adresse
      ∧ (collectFormData (specEnv stripped template) form now).textePresentation
        = sanitizeInput stripped form.textePresentation
      ∧ (collectFormData (specEnv stripped template) form now).informationsAcces
        = sanitizeInput stripped form.informationsAcces
      ∧ (collectFormData (specEnv stripped template) form now).nomClient
        = sanitizeInput stripped form.nomClient
      ∧ (collectFormData (specEnv stripped template) form now).emailClient
        = sanitizeInput stripped form.emailClient
      ∧ (collectFormData (specEnv stripped template) form now).telephoneClient
        = sanitizeInput stripped form.telephoneClient
      ∧ (collectFormData (specEnv stripped template) form now).entrepriseClient
        = sanitizeInput stripped form.entrepriseClient
      ∧ (collectFormData (specEnv stripped template) form now).notes
        = sanitizeInput stripped form.notes
      ∧ (∃ lines, (collectFormData (specEnv stripped template) form now).prestations
            = some lines
          ∧ List.Forall₂
              (fun item line => line.description = sanitizeInput stripped item.description
                ∧ Sanitized stripped line.description)
              form.items lines)
      ∧ Sanitized stripped (collectFormData (specEnv stripped template) form now).titre
      ∧ Sanitized stripped (collectFormData (specEnv stripped template) form now).adresse
      ∧ Sanitized stripped
          (collectFormData (specEnv stripped template) form now).textePresentation
      ∧ Sanitized stripped
          (collectFormData (specEnv stripped template) form now).informationsAcces
      ∧ Sanitized stripped (collectFormData (specEnv stripped template) form now).nomClient
      ∧ Sanitized stripped (collectFormData (specEnv stripped template) form now).emailClient
      ∧ Sanitized stripped
          (collectFormData (specEnv stripped template) form now).telephoneClient
      ∧ Sanitized stripped
          (collectFormData (specEnv stripped template) form now).entrepriseClient
      ∧ Sanitized stripped (collectFormData (specEnv stripped template) form now).notes := by
  refine ⟨rfl, rfl, rfl, rfl, rfl, rfl, rfl, rfl, rfl, ⟨_, rfl, ?_⟩,
    sanitizeInput_sanitized _ _, sanitizeInput_sanitized _ _, sanitizeInput_sanitized _ _,
    sanitizeInput_sanitized _ _, sanitizeInput_sanitized _ _, sanitizeInput_sanitized _ _,
    sanitizeInput_sanitized _ _, sanitizeInput_sanitized _ _, sanitizeInput_sanitized _ _⟩
  rw [List.forall₂_map_right_iff]
  apply List.forall₂_same.mpr
  intro item _
  exact ⟨rfl, sanitizeInput_sanitized _ _⟩

/-! ### Regular expressions and `validateEmail` -/

/-- An expression is nullable exactly when it matches the empty string. -/
theorem Regex.nullable_iff (r : Regex) : r.nullable = true ↔ Regex.Matches r [] := by
  induction r with
  | nothing => constructor <;> intro h <;> cases h
  | empty => exact ⟨fun _ => .empty, fun _ => rfl⟩
  | char p => constructor <;> intro h <;> cases h
  | seq a b iha ihb =>
      constructor
      · intro h
        simp only [Regex.nullable, Bool.and_eq_true] at h
        exact Regex.Matches.seq a b [] [] (iha.mp h.1) (ihb.mp h.2)
      · intro h
        generalize hx : ([] : List Char) = x at h
        cases h with
        | seq _ _ s t ha hb =>
            have hs : s = [] := by
              have := congrArg List.length hx; simp at this; exact List.length_eq_zero.mp (by omega)
            have ht : t = [] := by
              have := congrArg List.length hx; simp at this; exact List.length_eq_zero.mp (by omega)
            subst hs ht
            simp only [Regex.nullable, Bool.and_eq_true]
            exact ⟨iha.mpr ha, ihb.mpr hb⟩
  | alt a b iha ihb =>
      constructor
      · intro h
        simp only [Regex.nullable, Bool.or_eq_true] at h
        rcases h with h | h
        · exact .altLeft a b [] (iha.mp h)
        · exact .altRight a b [] (ihb.mp h)
      · intro h
        simp only [Regex.nullable, Bool.or_eq_true]
        cases h with
        | altLeft _ _ _ ha => exact Or.inl (iha.mpr ha)
        | altRight _ _ _ hb => exact Or.inr (ihb.mpr hb)
  | star a _ => exact ⟨fun _ => .starNil a, fun _ => rfl⟩

/-- A non-empty match of `a*` starts with a non-empty match of `a`. -/
theorem Regex.star_cons_inv (a : Regex) (x : List Char) (h : Regex.Matches (.star a) x) :
    ∀ (c : Char) (s : List Char), x = c :: s →
      ∃ s1 s2, s = s1 ++ s2 ∧ Regex.Matches a (c :: s1) ∧ Regex.Matches (.star a) s2 := by
  generalize hr : Regex.star a = r at h
  induction h with
  | empty => cases hr
  | char p c h => cases hr
  | seq a b s t ha hb _ _ => cases hr
  | altLeft a b s ha _ => cases hr
  | altRight a b s hb _ => cases hr
  | starNil a' => intro c s hx; cases hx
  | starCons a' s1 t ha ht _ iht =>
      cases hr
      intro c s hx
      cases s1 with
      | nil => exact iht rfl c s (by simpa using hx)
      | cons d s1' =>
          simp only [List.cons_append, List.cons.injEq] at hx
          obtain ⟨rfl, rfl⟩ := hx
          exact ⟨s1', t, rfl, ha, ht⟩

/-- The derivative by `c` matches `s` exactly when the expression matches
`c :: s`. -/
theorem Regex.derivative_iff (r : Regex) :
    ∀ (c : Char) (s : List Char),
      Regex.Matches (r.derivative c) s ↔ Regex.Matches r (c :: s) := by
  induction r with
  | nothing => intro c s; constructor <;> intro h <;> cases h
  | empty => intro c s; constructor <;> intro h <;> cases h
  | char p =>
      intro c s
      simp only [Regex.derivative]
      constructor
      · intro h
        by_cases hp : p c = true
        · rw [if_pos hp] at h
          cases h
          exact .char p c hp
        · rw [if_neg hp] at h
          cases h
      · intro h
        cases h with
        | char _ _ hp =>
            rw [if_pos hp]
            exact .empty
  | seq a b iha ihb =>
      intro c s
      have fwd : ∀ s1 t, Regex.Matches (a.derivative c) s1 → Regex.Matches b t →
          Regex.Matches (.seq a b) (c :: (s1 ++ t)) := by
        intro s1 t h1 h2
        have := Regex.Matches.seq a b (c :: s1) t ((iha c s1).mp h1) h2
        simpa using this
      have bwd : Regex.Matches (.seq a b) (c :: s) →
          (∃ s1 t, s = s1 ++ t ∧ Regex.Matches (a.derivative c) s1 ∧ Regex.Matches b t)
            ∨ (Regex.Matches a [] ∧ Regex.Matches (b.derivative c) s) := by
        intro h
        generalize hx : c :: s = x at h
        cases h with
        | seq _ _ s1 t ha hb =>
            cases s1 with
            | nil =>
                simp only [List.nil_append] at hx
                subst hx
                exact Or.inr ⟨ha, (ihb c s).mpr hb⟩
            | cons d s1' =>
                simp only [List.cons_append, List.cons.injEq] at hx
                obtain ⟨rfl, rfl⟩ := hx
                exact Or.inl ⟨s1', t, rfl, (iha c s1').mpr ha, hb⟩
      simp only [Regex.derivative]
      by_cases hn : a.nullable = true
      · rw [if_pos hn]
        constructor
        · intro h
          cases h with
          | altLeft _ _ _ h1 =>
              cases h1 with
              | seq _ _ s1 t h1 h2 => exact fwd s1 t h1 h2
          | altRight _ _ _ h2 =>
              have := Regex.Matches.seq a b [] (c :: s) ((Regex.nullable_iff a).mp hn)
                ((ihb c s).mp h2)
              simpa using this
        · intro h
          rcases bwd h with ⟨s1, t, rfl, h1, h2⟩ | ⟨_, h2⟩
          · exact .altLeft _ _ _ (.seq _ _ s1 t h1 h2)
          · exact .altRight _ _ _ h2
      · rw [if_neg hn]
        constructor
        · intro h
          cases h with
          | seq _ _ s1 t h1 h2 => exact fwd s1 t h1 h2
        · intro h
          rcases bwd h with ⟨s1, t, rfl, h1, h2⟩ | ⟨h0, _⟩
          · exact .seq _ _ s1 t h1 h2
          · exact absurd ((Regex.nullable_iff a).mpr h0) hn
  | alt a b iha ihb =>
      intro c s
      simp only [Regex.derivative]
      constructor
      · intro h
        cases h with
        | altLeft _ _ _ h1 => exact .altLeft _ _ _ ((iha c s).mp h1)
        | altRight _ _ _ h2 => exact .altRight _ _ _ ((ihb c s).mp h2)
      · intro h
        cases h with
        | altLeft _ _ _ h1 => exact .altLeft _ _ _ ((iha c s).mpr h1)
        | altRight _ _ _ h2 => exact .altRight _ _ _ ((ihb c s).mpr h2)
  | star a iha =>
      intro c s
      simp only [Regex.derivative]
      constructor
      · intro h
        cases h with
        | seq _ _ s1 t h1 h2 =>
            have := Regex.Matches.starCons a (c :: s1) t ((iha c s1).mp h1) h2
            simpa using this
      · intro h
        obtain ⟨s1, s2, rfl, h1, h2⟩ := Regex.star_cons_inv a (c :: s) h c s rfl
        exact .seq _ _ s1 s2 ((iha c s1).mpr h1) h2

/-- The matcher by derivatives decides `Matches`. -/
theorem Regex.matchesAll_iff (s : List Char) :
    ∀ r : Regex, r.matchesAll s = true ↔ Regex.Matches r s := by
  induction s with
  | nil => intro r; exact Regex.nullable_iff r
  | cons c s ih =>
      intro r
      simp only [Regex.matchesAll]
      rw [ih, Regex.derivative_iff]

/-- What a character class matches. -/
theorem Regex.matches_char_iff (p : Char → Bool) (s : List Char) :
    Regex.Matches (.char p) s ↔ ∃ c, s = [c] ∧ p c = true := by
  constructor
  · intro h
    cases h with
    | char _ c hp => exact ⟨c, rfl, hp⟩
  · rintro ⟨c, rfl, hp⟩
    exact .char p c hp

/-- What a concatenation matches. -/
theorem Regex.matches_seq_iff (a b : Regex) (s : List Char) :
    Regex.Matches (.seq a b) s
      ↔ ∃ s1 s2, s = s1 ++ s2 ∧ Regex.Matches a s1 ∧ Regex.Matches b s2 := by
  constructor
  · intro h
    cases h with
    | seq _ _ s1 s2 ha hb => exact ⟨s1, s2, rfl, ha, hb⟩
  · rintro ⟨s1, s2, rfl, ha, hb⟩
    exact .seq a b s1 s2 ha hb

/-- What the repetition of a character class matches. -/
theorem Regex.matches_star_char (p : Char → Bool) (s : List Char) :
    Regex.Matches (.star (.char p)) s ↔ ∀ c ∈ s, p c = true := by
  constructor
  · intro h
    generalize hr : Regex.star (.char p) = r at h
    induction h with
    | empty => cases hr
    | char q c h => cases hr
    | seq a b s t ha hb _ _ => cases hr
    | altLeft a b s ha _ => cases hr
    | altRight a b s hb _ => cases hr
    | starNil a => intro c hc; cases hc
    | starCons a s1 t ha ht _ iht =>
        cases hr
        obtain ⟨d, rfl, hd⟩ := (Regex.matches_char_iff p s1).mp ha
        intro c hc
        simp only [List.singleton_append, List.mem_cons] at hc
        rcases hc with rfl | hc
        · exact hd
        · exact iht rfl c hc
  · intro h
    induction s with
    | nil => exact .starNil _
    | cons c s ih =>
        have h1 : Regex.Matches (.char p) [c] := .char p c (h c (List.mem_cons_self _ _))
        have h2 := ih (fun x hx => h x (List.mem_cons_of_mem _ hx))
        exact Regex.Matches.starCons (.char p) [c] s h1 h2

/-- What one or more characters of a class match. -/
theorem Regex.matches_plus_char (p : Char → Bool) (s : List Char) :
    Regex.Matches (Regex.plus (.char p)) s ↔ s ≠ [] ∧ ∀ c ∈ s, p c = true := by
  unfold Regex.plus
  rw [Regex.matches_seq_iff]
  constructor
  · rintro ⟨s1, s2, rfl, h1, h2⟩
    obtain ⟨d, rfl, hd⟩ := (Regex.matches_char_iff p s1).mp h1
    refine ⟨by simp, ?_⟩
    intro c hc
    simp only [List.singleton_append, List.mem_cons] at hc
    rcases hc with rfl | hc
    · exact hd
    · exact (Regex.matches_star_char p s2).mp h2 c hc
  · rintro ⟨hne, h⟩
    cases s with
    | nil => exact absurd rfl hne
    | cons c s =>
        refine ⟨[c], s, rfl, .char p c (h c (List.mem_cons_self _ _)), ?_⟩
        exact (Regex.matches_star_char p s).mpr (fun x hx => h x (List.mem_cons_of_mem _ hx))

/-- The strings the e-mail pattern matches: `a@b.c` with `a`, `b` and `c`
non-empty and free of white space and of `@`. -/
theorem matches_emailPattern (s : List Char) :
    Regex.Matches emailPattern s
      ↔ ∃ a b c, s = a ++ '@' :: (b ++ '.' :: c) ∧ a ≠ [] ∧ b ≠ [] ∧ c ≠ []
          ∧ (∀ x ∈ a, isPlainChar x = true) ∧ (∀ x ∈ b, isPlainChar x = true)
          ∧ (∀ x ∈ c, isPlainChar x = true) := by
  have hpat : emailPattern
      = .seq (Regex.plus (.char isPlainChar)) (.seq (.char fun c => c = '@')
          (.seq (Regex.plus (.char isPlainChar))
            (.seq (.char fun c => c = '.') (Regex.plus (.char isPlainChar))))) := rfl
  rw [hpat]
  simp only [Regex.matches_seq_iff, Regex.matches_plus_char, Regex.matches_char_iff]
  constructor
  · rintro ⟨a, r1, rfl, ⟨ha, hpa⟩, at1, r2, rfl, ⟨x, rfl, hx⟩, b, r3, rfl, ⟨hb, hpb⟩,
      dot, c, rfl, ⟨y, rfl, hy⟩, hc, hpc⟩
    have hx' : x = '@' := by simpa using hx
    have hy' : y = '.' := by simpa using hy
    subst hx' hy'
    exact ⟨a, b, c, by simp, ha, hb, hc, hpa, hpb, hpc⟩
  · rintro ⟨a, b, c, rfl, ha, hb, hc, hpa, hpb, hpc⟩
    exact ⟨a, '@' :: (b ++ '.' :: c), rfl, ⟨ha, hpa⟩, ['@'], b ++ '.' :: c, rfl,
      ⟨'@', rfl, by simp⟩, b, '.' :: c, rfl, ⟨hb, hpb⟩, ['.'], c, rfl, ⟨'.', rfl, by simp⟩,
      hc, hpc⟩

/-- A plain character is one that is neither white space nor `@`. -/
theorem isPlainChar_iff (c : Char) :
    isPlainChar c = true ↔ isJSWhitespace c = false ∧ c ≠ '@' := by
  simp [isPlainChar]

/-- The strings `a@b.c` of the e-mail pattern are those of the shape the claim
describes. -/
theorem emailShape_iff (s : List Char) :
    (∃ a b c, s = a ++ '@' :: (b ++ '.' :: c) ∧ a ≠ [] ∧ b ≠ [] ∧ c ≠ []
        ∧ (∀ x ∈ a, isPlainChar x = true) ∧ (∀ x ∈ b, isPlainChar x = true)
        ∧ (∀ x ∈ c, isPlainChar x = true))
      ↔ EmailShape s := by
  constructor
  · rintro ⟨a, b, c, rfl, ha, hb, hc, hpa, hpb, hpc⟩
    have hat : ∀ l : List Char, (∀ x ∈ l, isPlainChar x = true) → List.count '@' l = 0 := by
      intro l hl
      rw [List.count_eq_zero]
      intro hmem
      exact ((isPlainChar_iff _).mp (hl _ hmem)).2 rfl
    refine ⟨?_, ?_, a, b ++ '.' :: c, rfl, ha, b.length, ?_, ?_, ?_⟩
    · intro x hx
      simp only [List.mem_append, List.mem_cons] at hx
      rcases hx with hx | rfl | hx | rfl | hx
      · exact ((isPlainChar_iff _).mp (hpa x hx)).1
      · decide
      · exact ((isPlainChar_iff _).mp (hpb x hx)).1
      · decide
      · exact ((isPlainChar_iff _).mp (hpc x hx)).1
    · simp [List.count_cons, hat a hpa, hat b hpb, hat c hpc]
    · exact List.length_pos.mpr hb
    · have := List.length_pos.mpr hc
      simp only [List.length_append, List.length_cons]
      omega
    · rw [List.getElem?_append_right (Nat.le_refl _)]
      simp
  · rintro ⟨hws, hcount, front, domain, rfl, hfront, i, hi0, hi1, hdot⟩
    have hc : List.count '@' front = 0 ∧ List.count '@' domain = 0 := by
      simp only [List.count_append, List.count_cons, beq_self_eq_true, if_true] at hcount
      omega
    have hnf : ∀ x ∈ front, isPlainChar x = true := by
      intro x hx
      refine (isPlainChar_iff x).mpr ⟨hws x (by simp [hx]), ?_⟩
      rintro rfl
      exact (List.count_eq_zero.mp hc.1) hx
    have hnd : ∀ x ∈ domain, isPlainChar x = true := by
      intro x hx
      refine (isPlainChar_iff x).mpr ⟨hws x (by simp [hx]), ?_⟩
      rintro rfl
      exact (List.count_eq_zero.mp hc.2) hx
    obtain ⟨hlt, hget⟩ := List.getElem?_eq_some_iff.mp hdot
    have hsplit : domain = domain.take i ++ '.' :: domain.drop (i + 1) := by
      have h1 : domain.drop i = domain[i] :: domain.drop (i + 1) :=
        List.drop_eq_getElem_cons hlt
      rw [hget] at h1
      rw [← h1, List.take_append_drop]
    refine ⟨front, domain.take i, domain.drop (i + 1), ?_, hfront, ?_, ?_, hnf, ?_, ?_⟩
    · rw [← hsplit]
    · intro h0
      have := congrArg List.length h0
      rw [List.length_take, List.length_nil] at this
      omega
    · intro h0
      have := congrArg List.length h0
      rw [List.length_drop, List.length_nil] at this
      omega
    · intro x hx
      exact hnd x (List.mem_of_mem_take hx)
    · intro x hx
      exact hnd x (List.mem_of_mem_drop hx)

/-- C13: `handleSave` does not reach `saveQuote` whenever the captured
`emailClient` is non-empty and `validateEmail` rejects it (the page and the
database are returned as they were and no request is made on the store), and
`validateEmail` accepts a string exactly when it has no white space, exactly
one `@` with at least one character before it, and after the `@` a `.` that is
neither the first nor the last character of that part. -/
theorem handleSave_validates_email (env : Env) (page : Page) (db : Option Database)
    (captureTime saveTime : String) (email : String) :
    ((collectFormData env page.form captureTime).emailClient ≠ "" →
        validateEmail (collectFormData env page.form captureTime).emailClient = false →
        (handleSave env page db captureTime saveTime).page = page
          ∧ (handleSave env page db captureTime saveTime).db = db
          ∧ storeRequests (handleSave env page db captureTime saveTime).events = [])
      ∧ (validateEmail email = true ↔ EmailShape email.data) := by
  constructor
  · intro hne hinv
    by_cases hreq : ((collectFormData env page.form captureTime).nomClient = ""
        || (collectFormData env page.form captureTime).titre = "") = true
    · have hs : handleSave env page db captureTime saveTime
          = { page := page, db := db,
              events := [.notify "Le nom du client et le titre sont requis" "warning"] } := by
        unfold handleSave
        simp only [hreq, if_true]
      rw [hs]
      exact ⟨rfl, rfl, rfl⟩
    · have hmail : (decide ((collectFormData env page.form captureTime).emailClient ≠ "")
          && !validateEmail (collectFormData env page.form captureTime).emailClient) = true := by
        simp [hne, hinv]
      have hs : handleSave env page db captureTime saveTime
          = { page := page, db := db, events := [.notify "Email invalide" "warning"] } := by
        unfold handleSave
        simp only [hreq, hmail, if_true, if_false]
        rfl
      rw [hs]
      exact ⟨rfl, rfl, rfl⟩
  · unfold validateEmail
    rw [Regex.matchesAll_iff, matches_emailPattern, emailShape_iff]

/-- Witness of C13: a form whose e-mail address `martin@` has nothing after
the `@`, saved over a store holding one envelope. -/
theorem handleSave_validates_email_witness :
    ((handleSave sampleEnv { blankPage with form := badEmailForm } (some sampleDatabase)
          "t1" "t2").page = { blankPage with form := badEmailForm }
        ∧ (handleSave sampleEnv { blankPage with form := badEmailForm } (some sampleDatabase)
          "t1" "t2").db = some sampleDatabase
        ∧ storeRequests (handleSave sampleEnv { blankPage with form := badEmailForm }
          (some sampleDatabase) "t1" "t2").events = [])
      ∧ (validateEmail "martin@example.org" = true ↔ EmailShape "martin@example.org".data) :=
  ⟨(handleSave_validates_email sampleEnv { blankPage with form := badEmailForm }
      (some sampleDatabase) "t1" "t2" "martin@example.org").1 (by decide) (by decide),
    (handleSave_validates_email sampleEnv { blankPage with form := badEmailForm }
      (some sampleDatabase) "t1" "t2" "martin@example.org").2⟩

/-! ### Rounding to the Number type -/

/-- The function `twoPow` is the power of two. -/
theorem twoPow_eq (k : Nat) : twoPow k = 2 ^ k := by
  induction k with
  | zero => rfl
  | succ k ih => rw [twoPow, ih, pow_succ, Nat.mul_comm]

/-- The function `tenPow` is the power of ten. -/
theorem tenPow_eq (k : Nat) : tenPow k = 10 ^ k := by
  induction k with
  | zero => rfl
  | succ k ih => rw [tenPow, ih, pow_succ, Nat.mul_comm]

/-- Zero has no binary digit. -/
theorem bitLengthAux_zero (fuel : Nat) : bitLengthAux fuel 0 = 0 := by
  cases fuel <;> simp [bitLengthAux]

/-- With enough fuel, `n` has `bitLengthAux fuel n` binary digits. -/
theorem bitLengthAux_bounds : ∀ (fuel n : Nat), n ≤ fuel →
    n < 2 ^ bitLengthAux fuel n ∧ (n ≠ 0 → 2 ^ bitLengthAux fuel n ≤ 2 * n) := by
  intro fuel
  induction fuel with
  | zero =>
      intro n hn
      have : n = 0 := by omega
      subst this
      simp [bitLengthAux]
  | succ fuel ih =>
      intro n hn
      by_cases h0 : n = 0
      · subst h0; simp [bitLengthAux]
      · have hh := ih (n / 2) (by omega)
        simp only [bitLengthAux, h0, if_false, pow_succ]
        by_cases h2 : n / 2 = 0
        · rw [h2, bitLengthAux_zero]
          have : n = 1 := by omega
          subst this
          simp
        · have h1 := hh.1
          have h3 := hh.2 h2
          generalize 2 ^ bitLengthAux fuel (n / 2) = P at h1 h3 ⊢
          constructor
          · omega
          · intro _; omega

/-- A positive `n` lies in `[2 ^ (k - 1), 2 ^ k)` for `k = bitLength n`. -/
theorem bitLength_bounds (n : Nat) (h : n ≠ 0) :
    n < 2 ^ bitLength n ∧ 2 ^ bitLength n ≤ 2 * n :=
  ⟨(bitLengthAux_bounds n n (le_refl n)).1, (bitLengthAux_bounds n n (le_refl n)).2 h⟩

/-- A number below `2 ^ k` has at most `k` binary digits. -/
theorem bitLength_le (n k : Nat) (h : n < 2 ^ k) : bitLength n ≤ k := by
  by_cases h0 : n = 0
  · subst h0; simp [bitLength, bitLengthAux_zero]
  · have hb := (bitLength_bounds n h0).2
    have : 2 ^ bitLength n < 2 ^ (k + 1) := by
      rw [pow_succ]; omega
    have := (Nat.pow_lt_pow_iff_right (by decide : 1 < 2)).mp this
    omega

/-- The rounded quotient is within one half of the fraction. -/
theorem roundQuotient_near (num den : Nat) (hden : 0 < den) :
    |((roundQuotient num den : Nat) : ℚ) - (num : ℚ) / den| ≤ 1 / 2 := by
  have hd : (0 : ℚ) < den := by exact_mod_cast hden
  have hsplit : (num : ℚ) / den = ((num / den : Nat) : ℚ) + ((num % den : Nat) : ℚ) / den := by
    have h := Nat.div_add_mod num den
    have h' : (num : ℚ) = (den : ℚ) * ((num / den : Nat) : ℚ) + ((num % den : Nat) : ℚ) := by
      exact_mod_cast h.symm
    field_simp
    linarith
  have hr : num % den < den := Nat.mod_lt _ hden
  have hrq : ((num % den : Nat) : ℚ) / den < 1 := by
    rw [div_lt_one hd]; exact_mod_cast hr
  have hr0 : (0 : ℚ) ≤ ((num % den : Nat) : ℚ) / den := by positivity
  unfold roundQuotient
  simp only []
  split
  · rename_i hc
    have hge : den ≤ 2 * (num % den) := by
      simp only [Bool.or_eq_true, decide_eq_true_eq, Bool.and_eq_true] at hc
      rcases hc with h | h
      · omega
      · omega
    have hhalf : (1 : ℚ) / 2 ≤ ((num % den : Nat) : ℚ) / den := by
      rw [le_div_iff₀ hd]
      have : (den : ℚ) ≤ 2 * ((num % den : Nat) : ℚ) := by exact_mod_cast hge
      linarith
    rw [hsplit, abs_le]
    push_cast
    constructor <;> linarith
  · rename_i hc
    have hle : 2 * (num % den) ≤ den := by
      simp only [Bool.or_eq_true, decide_eq_true_eq, Bool.and_eq_true, not_or, not_and] at hc
      omega
    have hhalf : ((num % den : Nat) : ℚ) / den ≤ 1 / 2 := by
      rw [div_le_iff₀ hd]
      have : 2 * ((num % den : Nat) : ℚ) ≤ (den : ℚ) := by exact_mod_cast hle
      linarith
    rw [hsplit, abs_le]
    constructor <;> linarith

/-- The mantissa that `roundAt` computes is within one half of the fraction
scaled by `2 ^ (-E)`. -/
theorem roundAt_quotient (a b : Nat) (E : Int) (hb : 0 < b) :
    |(((if E < 0 then roundQuotient (a * twoPow (-E).toNat) b
          else roundQuotient a (b * twoPow E.toNat) : Nat) : ℚ))
        - (a : ℚ) / b * ((2 : ℚ) ^ E)⁻¹| ≤ 1 / 2 := by
  have hbq : (0 : ℚ) < b := by exact_mod_cast hb
  by_cases hE : E < 0
  · obtain ⟨k, rfl⟩ : ∃ k : ℕ, E = -(k : ℤ) := ⟨(-E).toNat, by omega⟩
    have hk : (-(-(k : ℤ))).toNat = k := by simp
    rw [if_pos hE, hk]
    have h := roundQuotient_near (a * twoPow k) b hb
    have e : (a : ℚ) / b * ((2 : ℚ) ^ (-(k : ℤ)))⁻¹ = ((a * twoPow k : Nat) : ℚ) / b := by
      rw [zpow_neg, inv_inv, zpow_natCast, twoPow_eq]
      push_cast
      ring
    rw [e]
    exact h
  · obtain ⟨k, rfl⟩ : ∃ k : ℕ, E = (k : ℤ) := ⟨E.toNat, by omega⟩
    have hk : ((k : ℤ)).toNat = k := by simp
    rw [if_neg hE, hk]
    have hden : 0 < b * twoPow k := by
      rw [twoPow_eq]; positivity
    have h := roundQuotient_near a (b * twoPow k) hden
    have e : (a : ℚ) / b * ((2 : ℚ) ^ ((k : ℤ)))⁻¹ = (a : ℚ) / ((b * twoPow k : Nat) : ℚ) := by
      rw [zpow_natCast, twoPow_eq]
      push_cast
      field_simp
    rw [e]
    exact h

/-- Below the exponent `971`, `roundAt` gives a finite number of the sign asked
for, within half a unit of `2 ^ E` of the fraction. -/
theorem roundAt_spec (s : Bool) (a b : Nat) (E : Int) (hb : 0 < b) (hE : E < 971) :
    ∃ m e, roundAt s a b E = .finite s m e
      ∧ |(m : ℚ) * (2 : ℚ) ^ e - (a : ℚ) / b| ≤ (2 : ℚ) ^ E / 2 := by
  have hq := roundAt_quotient a b E hb
  generalize hqdef : (if E < 0 then roundQuotient (a * twoPow (-E).toNat) b
          else roundQuotient a (b * twoPow E.toNat)) = q at hq
  have h2 : (0 : ℚ) < (2 : ℚ) ^ E := by positivity
  have hval : |(q : ℚ) * (2 : ℚ) ^ E - (a : ℚ) / b| ≤ (2 : ℚ) ^ E / 2 := by
    have e : (q : ℚ) * (2 : ℚ) ^ E - (a : ℚ) / b
        = ((q : ℚ) - (a : ℚ) / b * ((2 : ℚ) ^ E)⁻¹) * (2 : ℚ) ^ E := by
      have hne : (2 : ℚ) ^ E ≠ 0 := ne_of_gt h2
      rw [sub_mul, mul_assoc, inv_mul_cancel₀ hne, mul_one]
    rw [e, abs_mul, abs_of_pos h2]
    calc |(q : ℚ) - (a : ℚ) / b * ((2 : ℚ) ^ E)⁻¹| * (2 : ℚ) ^ E
        ≤ 1 / 2 * (2 : ℚ) ^ E := by
          exact mul_le_mul_of_nonneg_right hq (le_of_lt h2)
      _ = (2 : ℚ) ^ E / 2 := by ring
  by_cases h53 : q = twoPow 53
  · refine ⟨twoPow 52, E + 1, ?_, ?_⟩
    · simp only [roundAt, hqdef, h53, if_true]
      rw [if_neg (by omega)]
    · have e : ((twoPow 52 : Nat) : ℚ) * (2 : ℚ) ^ (E + 1) = (q : ℚ) * (2 : ℚ) ^ E := by
        rw [h53, twoPow_eq, twoPow_eq, zpow_add₀ (by norm_num : (2 : ℚ) ≠ 0)]
        push_cast
        ring
      rw [e]
      exact hval
  · refine ⟨q, E, ?_, hval⟩
    simp only [roundAt, hqdef, h53, if_false]
    rw [if_neg (by omega)]

/-- The whole quotient tried by `roundingExponent` is at most the fraction
scaled by `2 ^ (-E)`. -/
theorem floorQuotient_le (a b : Nat) (E : Int) (hb : 0 < b) :
    (((if E < 0 then a * twoPow (-E).toNat / b else a / (b * twoPow E.toNat) : Nat) : ℚ))
      ≤ (a : ℚ) / b * ((2 : ℚ) ^ E)⁻¹ := by
  have hbq : (0 : ℚ) < b := by exact_mod_cast hb
  by_cases hE : E < 0
  · obtain ⟨k, rfl⟩ : ∃ k : ℕ, E = -(k : ℤ) := ⟨(-E).toNat, by omega⟩
    have hk : (-(-(k : ℤ))).toNat = k := by simp
    rw [if_pos hE, hk]
    have e : (a : ℚ) / b * ((2 : ℚ) ^ (-(k : ℤ)))⁻¹ = ((a * twoPow k : Nat) : ℚ) / b := by
      rw [zpow_neg, inv_inv, zpow_natCast, twoPow_eq]
      push_cast
      ring
    rw [e]
    exact Nat.cast_div_le
  · obtain ⟨k, rfl⟩ : ∃ k : ℕ, E = (k : ℤ) := ⟨E.toNat, by omega⟩
    have hk : ((k : ℤ)).toNat = k := by simp
    rw [if_neg hE, hk]
    have e : (a : ℚ) / b * ((2 : ℚ) ^ ((k : ℤ)))⁻¹ = (a : ℚ) / ((b * twoPow k : Nat) : ℚ) := by
      rw [zpow_natCast, twoPow_eq]
      push_cast
      field_simp
    rw [e]
    exact Nat.cast_div_le

/-- Outside the subnormal range, the fraction has a mantissa of at least
`2 ^ 52` at the exponent that `roundingExponent` chooses. -/
theorem roundingExponent_spec (a b : Nat) (ha : a ≠ 0) (hb : b ≠ 0)
    (hlow : -1074 ≤ (bitLength a : Int) - (bitLength b : Int) - 53) :
    (2 : ℚ) ^ 52 * (2 : ℚ) ^ roundingExponent a b ≤ (a : ℚ) / b
      ∧ roundingExponent a b ≤ (bitLength a : Int) - (bitLength b : Int) - 52 := by
  have hbpos : 0 < b := Nat.pos_of_ne_zero hb
  have hbq : (0 : ℚ) < b := by exact_mod_cast hbpos
  have hA := (bitLength_bounds a ha).2
  have hB := (bitLength_bounds b hb).1
  have hAq : (2 : ℚ) ^ bitLength a ≤ 2 * a := by exact_mod_cast hA
  have hBq : (b : ℚ) ≤ (2 : ℚ) ^ bitLength b := by exact_mod_cast (le_of_lt hB)
  generalize he0 : (bitLength a : Int) - (bitLength b : Int) - 53 = e0 at hlow
  have hX : (2 : ℚ) ^ e0 * (2 : ℚ) ^ bitLength b * (2 : ℚ) ^ 53 = (2 : ℚ) ^ bitLength a := by
    have h1 : (2 : ℚ) ^ bitLength b = (2 : ℚ) ^ ((bitLength b : ℕ) : ℤ) := (zpow_natCast _ _).symm
    have h2 : (2 : ℚ) ^ 53 = (2 : ℚ) ^ ((53 : ℕ) : ℤ) := (zpow_natCast _ _).symm
    have h3 : (2 : ℚ) ^ bitLength a = (2 : ℚ) ^ ((bitLength a : ℕ) : ℤ) := (zpow_natCast _ _).symm
    rw [h1, h2, h3, ← zpow_add₀ (by norm_num : (2 : ℚ) ≠ 0),
      ← zpow_add₀ (by norm_num : (2 : ℚ) ≠ 0)]
    congr 1
    push_cast
    omega
  have hXpos : (0 : ℚ) < (2 : ℚ) ^ e0 := by positivity
  have h0 : (2 : ℚ) ^ 52 * (2 : ℚ) ^ e0 ≤ (a : ℚ) / b := by
    rw [le_div_iff₀ hbq]
    have : (2 : ℚ) ^ 52 * (2 : ℚ) ^ e0 * b ≤ (2 : ℚ) ^ 52 * (2 : ℚ) ^ e0 * (2 : ℚ) ^ bitLength b :=
      mul_le_mul_of_nonneg_left hBq (by positivity)
    have h53 : (2 : ℚ) ^ 53 = 2 * (2 : ℚ) ^ 52 := by norm_num
    nlinarith
  have hfloor := floorQuotient_le a b e0 hbpos
  unfold roundingExponent
  simp only [he0]
  generalize (if e0 < 0 then a * twoPow (-e0).toNat / b else a / (b * twoPow e0.toNat)) = q0
    at hfloor
  by_cases hq0 : twoPow 53 ≤ q0
  · rw [if_pos hq0, if_neg (by omega)]
    refine ⟨?_, by omega⟩
    have hq0' : (2 : ℚ) ^ 53 ≤ (q0 : ℚ) := by
      have : ((twoPow 53 : Nat) : ℚ) ≤ (q0 : ℚ) := by exact_mod_cast hq0
      rw [twoPow_eq] at this
      exact_mod_cast this
    have h1 : (2 : ℚ) ^ 53 ≤ (a : ℚ) / b * ((2 : ℚ) ^ e0)⁻¹ := le_trans hq0' hfloor
    have h2 : (2 : ℚ) ^ 53 * (2 : ℚ) ^ e0 ≤ (a : ℚ) / b := by
      have := mul_le_mul_of_nonneg_right h1 (le_of_lt hXpos)
      rwa [mul_assoc, inv_mul_cancel₀ (ne_of_gt hXpos), mul_one] at this
    rw [zpow_add₀ (by norm_num : (2 : ℚ) ≠ 0), zpow_one]
    have h53 : (2 : ℚ) ^ 53 = 2 * (2 : ℚ) ^ 52 := by norm_num
    rw [h53] at h2
    linarith
  · rw [if_neg hq0, if_neg (by omega)]
    exact ⟨h0, by omega⟩

/-- In the normal range, the Number nearest to `a / b` is finite and differs
from it by at most `2 ^ (-53)` of its value. -/
theorem roundRatio_near (s : Bool) (a b : Nat) (ha : a ≠ 0) (hb : b ≠ 0)
    (hlow : -1074 ≤ (bitLength a : Int) - (bitLength b : Int) - 53)
    (hhigh : (bitLength a : Int) - (bitLength b : Int) - 52 < 971) :
    ∃ m e, roundRatio s a b = .finite s m e
      ∧ |(m : ℚ) * (2 : ℚ) ^ e - (a : ℚ) / b| ≤ (a : ℚ) / b / 2 ^ 53 := by
  have hE := roundingExponent_spec a b ha hb hlow
  obtain ⟨m, e, hr, hn⟩ := roundAt_spec s a b (roundingExponent a b)
    (Nat.pos_of_ne_zero hb) (by omega)
  refine ⟨m, e, ?_, ?_⟩
  · rw [roundRatio, if_neg ha, hr]
  · refine le_trans hn ?_
    have h53 : (2 : ℚ) ^ 53 = 2 * (2 : ℚ) ^ 52 := by norm_num
    rw [h53, le_div_iff₀ (by positivity)]
    have := hE.1
    linarith

/-- The Number nearest to an amount of `n` hundredths, for `n` below `2 ^ 52`,
is a finite non-negative number below `1e21` whose nearest hundredth is
`n`. -/
theorem ofDecimal_hundredths (n : Nat) (h : n < 2 ^ 52) :
    ∃ m e, Double.ofDecimal false n (-2) = .finite false m e
      ∧ 0 ≤ Double.exactValue false m e
      ∧ Double.exactValue false m e < 10 ^ 21
      ∧ Int.floor (Double.exactValue false m e * 100 + 1 / 2) = (n : ℤ) := by
  by_cases h0 : n = 0
  · subst h0
    refine ⟨0, -1074, rfl, ?_, ?_, ?_⟩
    · simp [Double.exactValue]
    · simp [Double.exactValue]
    · simp [Double.exactValue]
      norm_num
  · have hbl : bitLength n ≤ 52 := bitLength_le n 52 h
    have hb100 : bitLength 100 = 7 := by decide
    obtain ⟨m, e, hr, hn⟩ := roundRatio_near false n 100 h0 (by decide)
      (by rw [hb100]; omega) (by rw [hb100]; omega)
    have hnq : (n : ℚ) < 2 ^ 52 := by exact_mod_cast h
    have hn0 : (0 : ℚ) < n := by
      have : 0 < n := Nat.pos_of_ne_zero h0
      exact_mod_cast this
    have hval : Double.exactValue false m e = (m : ℚ) * (2 : ℚ) ^ e := by
      simp [Double.exactValue]
    have herr : (n : ℚ) / ((100 : ℕ) : ℚ) / 2 ^ 53 < 1 / 200 := by
      rw [div_div, div_lt_iff₀ (by positivity)]
      push_cast
      norm_num
      linarith
    rw [abs_le] at hn
    have hcast : (((100 : ℕ) : ℚ)) = 100 := by norm_num
    rw [hcast] at hn herr
    refine ⟨m, e, hr, ?_, ?_, ?_⟩
    · rw [hval]; positivity
    · rw [hval]
      have : (n : ℚ) / 100 < 2 ^ 52 / 100 := by
        apply div_lt_div_of_pos_right hnq (by norm_num)
      norm_num at this ⊢
      linarith [hn.2]
    · rw [hval, Int.floor_eq_iff]
      push_cast
      constructor <;> linarith [hn.1, hn.2]

/-- The result of `roundAt` is an infinity of the sign asked for, or a finite
number of that sign whose value is the rounded mantissa times `2 ^ E`. -/
theorem roundAt_cases (s : Bool) (a b : Nat) (E : Int) :
    roundAt s a b E = .infinity s
      ∨ ∃ m e, roundAt s a b E = .finite s m e
          ∧ (m : ℚ) * (2 : ℚ) ^ e
              = (((if E < 0 then roundQuotient (a * twoPow (-E).toNat) b
                    else roundQuotient a (b * twoPow E.toNat) : Nat) : ℚ)) * (2 : ℚ) ^ E
          ∧ E ≤ e := by
  generalize hqdef : (if E < 0 then roundQuotient (a * twoPow (-E).toNat) b
          else roundQuotient a (b * twoPow E.toNat)) = q
  by_cases h53 : q = twoPow 53
  · by_cases hbig : 971 < E + 1
    · left
      simp only [roundAt, hqdef, h53, if_true]
      rw [if_pos hbig]
    · right
      refine ⟨twoPow 52, E + 1, ?_, ?_, by omega⟩
      · simp only [roundAt, hqdef, h53, if_true]
        rw [if_neg hbig]
      · rw [h53, twoPow_eq, twoPow_eq, zpow_add₀ (by norm_num : (2 : ℚ) ≠ 0)]
        push_cast
        ring
  · by_cases hbig : 971 < E
    · left
      simp only [roundAt, hqdef, h53, if_false]
      rw [if_pos hbig]
    · right
      refine ⟨q, E, ?_, rfl, le_refl _⟩
      simp only [roundAt, hqdef, h53, if_false]
      rw [if_neg hbig]

/-- The Number nearest to a fraction is an infinity or a finite number, of the
sign asked for. -/
theorem roundRatio_cases (s : Bool) (a b : Nat) :
    roundRatio s a b = .infinity s ∨ ∃ m e, roundRatio s a b = .finite s m e := by
  unfold roundRatio
  by_cases ha : a = 0
  · rw [if_pos ha]; exact Or.inr ⟨_, _, rfl⟩
  · rw [if_neg ha]
    rcases roundAt_cases s a b (roundingExponent a b) with h | ⟨m, e, h, _⟩
    · exact Or.inl h
    · exact Or.inr ⟨m, e, h⟩

/-- A whole number needs no rounding. -/
theorem roundQuotient_one (n : Nat) : roundQuotient n 1 = n := by
  simp [roundQuotient, Nat.mod_one]

/-- The Number nearest to a whole number is an infinity or a whole number. -/
theorem roundRatio_integer (s : Bool) (n : Nat) :
    roundRatio s n 1 = .infinity s ∨ (roundRatio s n 1).IsInteger := by
  unfold roundRatio
  by_cases ha : n = 0
  · rw [if_pos ha]
    right
    exact ⟨0, by simp [Double.exactValue]⟩
  · rw [if_neg ha]
    rcases roundAt_cases s n 1 (roundingExponent n 1) with h | ⟨m, e, h, hv, hle⟩
    · exact Or.inl h
    · right
      rw [h]
      generalize roundingExponent n 1 = E at hv hle
      have hsign : ∀ x : ℚ, (∃ z : ℤ, x = (z : ℚ)) →
          ∃ z : ℤ, (if s = true then -1 else 1) * x = (z : ℚ) := by
        rintro x ⟨z, rfl⟩
        cases s
        · exact ⟨z, by simp⟩
        · exact ⟨-z, by simp⟩
      show ∃ z : ℤ, Double.exactValue s m e = (z : ℚ)
      unfold Double.exactValue
      rw [mul_assoc]
      apply hsign
      by_cases hE : E < 0
      · obtain ⟨k, rfl⟩ : ∃ k : ℕ, E = -(k : ℤ) := ⟨(-E).toNat, by omega⟩
        have hk : (-(-(k : ℤ))).toNat = k := by simp
        rw [if_pos hE, hk, roundQuotient_one, twoPow_eq] at hv
        refine ⟨(n : ℤ), ?_⟩
        rw [hv, zpow_neg, zpow_natCast]
        push_cast
        field_simp
      · obtain ⟨j, rfl⟩ : ∃ j : ℕ, e = (j : ℤ) := ⟨e.toNat, by omega⟩
        refine ⟨((m * 2 ^ j : ℕ) : ℤ), ?_⟩
        rw [zpow_natCast]
        push_cast
        ring

/-! ### Numeric capture by `collectFormData` -/

/-- The Number nearest to a fraction is not `NaN`. -/
theorem roundRatio_ne_nan (s : Bool) (a b : Nat) : roundRatio s a b ≠ .nan := by
  rcases roundRatio_cases s a b with h | ⟨m, e, h⟩ <;> rw [h] <;> simp

/-- The Number nearest to a decimal is an infinity or a finite number, of the
sign asked for. -/
theorem ofDecimal_cases (s : Bool) (m : Nat) (e : Int) :
    Double.ofDecimal s m e = .infinity s ∨ ∃ n f, Double.ofDecimal s m e = .finite s n f := by
  unfold Double.ofDecimal
  split <;> exact roundRatio_cases _ _ _

/-- There is no decimal literal at the head of a text exactly when the text
starts neither with a digit nor with a point followed by a digit. -/
theorem unsignedDecimal_eq_none (cs : List Char) :
    Binary64.unsignedDecimal cs = none ↔
      (match cs with
        | [] => false
        | c :: rest =>
            c.isDigit || (c = '.' && (match rest with
              | d :: _ => d.isDigit
              | [] => false))) = false := by
  cases cs with
  | nil => simp [Binary64.unsignedDecimal]
  | cons c rest =>
      by_cases hc : c.isDigit = true
      · simp [Binary64.unsignedDecimal, List.takeWhile_cons, hc]
      · have hc' : c.isDigit = false := by simpa using hc
        by_cases hdot : c = '.'
        · subst hdot
          cases rest with
          | nil => simp [Binary64.unsignedDecimal, List.takeWhile_cons, List.dropWhile_cons, hc']
          | cons d rest =>
              by_cases hd : d.isDigit = true
              · simp [Binary64.unsignedDecimal, List.takeWhile_cons, List.dropWhile_cons, hc', hd]
              · have hd' : d.isDigit = false := by simpa using hd
                simp [Binary64.unsignedDecimal, List.takeWhile_cons, List.dropWhile_cons, hc',
                  hd']
        · simp only [Binary64.unsignedDecimal, List.takeWhile_cons, List.dropWhile_cons, hc',
            hdot]
          simp
          split <;> simp_all

/-- The count of hexadecimal digits read only grows. -/
theorem hexPrefixValue_count (cs : List Char) :
    ∀ acc count, count ≤ (hexPrefixValue cs acc count).2 := by
  induction cs with
  | nil => intro acc count; simp [hexPrefixValue]
  | cons c rest ih =>
      intro acc count
      cases hv : hexDigitValue c with
      | none => simp [hexPrefixValue, hv]
      | some v =>
          simp only [hexPrefixValue, hv]
          exact le_trans (Nat.le_succ count) (ih _ _)

/-- No hexadecimal digit is read exactly when the text does not start with
one. -/
theorem hexPrefixValue_eq_zero (cs : List Char) :
    (hexPrefixValue cs 0 0).2 = 0 ↔
      (match cs with
        | h :: _ => (hexDigitValue h).isSome
        | [] => false) = false := by
  cases cs with
  | nil => simp [hexPrefixValue]
  | cons c rest =>
      cases hv : hexDigitValue c with
      | none => simp [hexPrefixValue, hv]
      | some v =>
          simp only [hexPrefixValue, hv, Option.isSome_some]
          have := hexPrefixValue_count rest (0 * 16 + v) (0 + 1)
          constructor
          · intro h; omega
          · intro h; exact absurd h (by simp)

/-- The function `parseInt` finds no digit exactly when the text does not start with a
digit, or has the prefix `0x` and no hexadecimal digit after it. -/
theorem unsignedInteger_eq_none (cs : List Char) :
    Binary64.unsignedInteger cs = none ↔
      (match cs with
        | [] => false
        | [c] => c.isDigit
        | c :: x :: rest =>
            if c = '0' && (x = 'x' || x = 'X') then
              (match rest with
                | h :: _ => (hexDigitValue h).isSome
                | [] => false)
            else c.isDigit) = false := by
  unfold Binary64.unsignedInteger
  split
  · rename_i x rest
    by_cases hx : (x = 'x' || x = 'X') = true
    · simp only [hx, if_true, Bool.and_true, decide_True]
      rw [← hexPrefixValue_eq_zero]
      split <;> simp_all
    · have hx' : (x = 'x' || x = 'X') = false := by simpa using hx
      simp only [hx', Bool.and_false]
      simp [List.takeWhile_cons]
  · rename_i hne
    cases cs with
    | nil => simp
    | cons c tl =>
        cases tl with
        | nil =>
            by_cases hc : c.isDigit = true
            · simp [List.takeWhile_cons, hc]
            · have hc' : c.isDigit = false := by simpa using hc
              simp [List.takeWhile_cons, hc']
        | cons x rest =>
            have h0 : ¬ (c = '0' ∧ (x = 'x' ∨ x = 'X')) := by
              rintro ⟨rfl, _⟩
              exact hne x rest rfl
            have h0' : (decide (c = '0') && (decide (x = 'x') || decide (x = 'X'))) = false := by
              simpa using h0
            simp only [h0']
            by_cases hc : c.isDigit = true
            · simp [List.takeWhile_cons, hc]
            · have hc' : c.isDigit = false := by simpa using hc
              simp [List.takeWhile_cons, hc']

/-- The function `parseFloat` gives `NaN` exactly for the texts that do not start as a
number. -/
theorem parseFloat_eq_nan (s : String) :
    Binary64.parseFloat s = .nan ↔ Binary64.startsFloat s = false := by
  unfold Binary64.parseFloat Binary64.startsFloat
  generalize (takeSign (s.data.dropWhile isJSWhitespace)) = signed
  by_cases hinf : "Infinity".data.isPrefixOf signed.2 = true
  · simp only [hinf, if_true]
    cases hcs : signed.2 with
    | nil => rw [hcs] at hinf; exact absurd hinf (by decide)
    | cons c rest =>
        rw [hcs] at hinf
        simp [hinf]
  · have hinf' : "Infinity".data.isPrefixOf signed.2 = false := (Bool.not_eq_true _).mp hinf
    simp only [hinf', Bool.false_eq_true, if_false]
    have hnone := unsignedDecimal_eq_none signed.2
    cases hu : Binary64.unsignedDecimal signed.2 with
    | none =>
        have := hnone.mp hu
        cases hcs : signed.2 with
        | nil => simp
        | cons c rest =>
            rw [hcs] at this hinf'
            simp only [hinf', Bool.or_false]
            simpa using this
    | some d =>
        obtain ⟨m, e⟩ := d
        have hne : ¬ (Binary64.unsignedDecimal signed.2 = none) := by rw [hu]; simp
        have := mt hnone.mpr hne
        have hnan : Double.ofDecimal signed.1 m e ≠ .nan := by
          rcases ofDecimal_cases signed.1 m e with h | ⟨n, f, h⟩ <;> rw [h] <;> simp
        simp only [hnan, false_iff]
        cases hcs : signed.2 with
        | nil => rw [hcs] at this; simp at this
        | cons c rest =>
            rw [hcs] at this hinf'
            simp only [hinf', Bool.or_false]
            simpa using this

/-- The function `parseInt` gives `NaN` exactly for the texts that do not start as a
whole number. -/
theorem parseInt_eq_nan (s : String) :
    Binary64.parseInt s = .nan ↔ Binary64.startsInt s = false := by
  unfold Binary64.parseInt Binary64.startsInt
  generalize (takeSign (s.data.dropWhile isJSWhitespace)) = signed
  have hnone := unsignedInteger_eq_none signed.2
  cases hu : Binary64.unsignedInteger signed.2 with
  | none =>
      simp only [hu, true_iff]
      exact hnone.mp hu
  | some n =>
      have hne : ¬ (Binary64.unsignedInteger signed.2 = none) := by rw [hu]; simp
      simp only [hu, roundRatio_ne_nan, false_iff]
      exact mt hnone.mpr hne

/-- The expression `x || 0` on the result of a parse. -/
theorem orZero_captures (parses : Bool) (parsed : Double)
    (h : parsed = .nan ↔ parses = false) :
    Binary64.Captures parses parsed (Binary64.orZero parsed) := by
  have hzero : Double.ofNat 0 ≠ .nan := by decide
  cases parsed with
  | nan =>
      have hp : parses = false := h.mp rfl
      subst hp
      exact ⟨hzero, fun _ => ⟨rfl, rfl⟩, fun hc => absurd hc (by decide)⟩
  | infinity negative =>
      have hp : parses = true := by
        cases parses with
        | true => rfl
        | false => exact absurd (h.mpr rfl) (by simp)
      subst hp
      exact ⟨by simp [Binary64.orZero], fun hc => absurd hc (by decide),
        fun _ => ⟨by simp, Or.inl rfl⟩⟩
  | finite negative m e =>
      have hp : parses = true := by
        cases parses with
        | true => rfl
        | false => exact absurd (h.mpr rfl) (by simp)
      subst hp
      by_cases hm : m = 0
      · subst hm
        refine ⟨?_, fun hc => absurd hc (by decide), fun _ => ⟨by simp, Or.inr ⟨negative, e, rfl, ?_⟩⟩⟩
        · simp only [Binary64.orZero, if_true]; exact hzero
        · simp only [Binary64.orZero, if_true]
      · refine ⟨?_, fun hc => absurd hc (by decide), fun _ => ⟨by simp, Or.inl ?_⟩⟩
        · simp [Binary64.orZero, hm]
        · simp [Binary64.orZero, hm]

/-- A finite number without the sign bit is at least `0`. -/
theorem geZero_finite (m : Nat) (e : Int) : (Double.finite false m e).GeZero := by
  show 0 ≤ Double.exactValue false m e
  have : Double.exactValue false m e = (m : ℚ) * (2 : ℚ) ^ e := by simp [Double.exactValue]
  rw [this]
  positivity

/-- The number `0` is at least `0`. -/
theorem geZero_zero : (Double.ofNat 0).GeZero := geZero_finite 0 (-1074)

/-- The expression `x || 0` is at least `0` when `x` is `NaN` or at least `0`. -/
theorem orZero_geZero (x : Double) (h : x = .nan ∨ x.GeZero) : (Binary64.orZero x).GeZero := by
  cases x with
  | nan => exact geZero_zero
  | infinity negative =>
      rcases h with h | h
      · exact absurd h (by simp)
      · exact h
  | finite negative m e =>
      rcases h with h | h
      · exact absurd h (by simp)
      · by_cases hm : m = 0
        · simp only [Binary64.orZero, hm, if_true]; exact geZero_zero
        · simp only [Binary64.orZero, hm, if_false]; exact h

/-- The Number nearest to a non-negative fraction is at least `0`. -/
theorem roundRatio_geZero (a b : Nat) : (roundRatio false a b).GeZero := by
  rcases roundRatio_cases false a b with h | ⟨m, e, h⟩
  · rw [h]; rfl
  · rw [h]; exact geZero_finite m e

/-- A text without a minus sign is not captured by `parseFloat(...) || 0` as a
negative number. -/
theorem parseFloat_geZero (s : String) (h : hasMinusSign s = false) :
    (Binary64.orZero (Binary64.parseFloat s)).GeZero := by
  apply orZero_geZero
  unfold hasMinusSign at h
  unfold Binary64.parseFloat
  simp only [h]
  split
  · right; rfl
  · split
    · right
      unfold Double.ofDecimal
      split <;> exact roundRatio_geZero _ _
    · left; rfl

/-- A text without a minus sign is not captured by `parseInt(...) || 0` as a
negative number. -/
theorem parseInt_geZero (s : String) (h : hasMinusSign s = false) :
    (Binary64.orZero (Binary64.parseInt s)).GeZero := by
  apply orZero_geZero
  unfold hasMinusSign at h
  unfold Binary64.parseInt
  simp only [h]
  split
  · right; exact roundRatio_geZero _ _
  · left; rfl

/-- The number `0` is an integer. -/
theorem isInteger_zero : (Double.ofNat 0).IsInteger :=
  ⟨0, by simp [Double.exactValue]⟩

/-- What `parseInt(...) || 0` captures is an integer or an infinity. -/
theorem parseInt_integer_or_infinite (s : String) :
    (Binary64.orZero (Binary64.parseInt s)).IsInteger
      ∨ Binary64.orZero (Binary64.parseInt s) = .infinity false
      ∨ Binary64.orZero (Binary64.parseInt s) = .infinity true := by
  have key : ∀ x : Double, (x = .nan ∨ (∃ t, x = .infinity t) ∨ x.IsInteger) →
      (Binary64.orZero x).IsInteger ∨ Binary64.orZero x = .infinity false
        ∨ Binary64.orZero x = .infinity true := by
    intro x hx
    cases x with
    | nan => exact Or.inl isInteger_zero
    | infinity negative =>
        cases negative
        · exact Or.inr (Or.inl rfl)
        · exact Or.inr (Or.inr rfl)
    | finite negative m e =>
        rcases hx with hx | ⟨t, hx⟩ | hx
        · exact absurd hx (by simp)
        · exact absurd hx (by simp)
        · by_cases hm : m = 0
          · simp only [Binary64.orZero, hm, if_true]; exact Or.inl isInteger_zero
          · simp only [Binary64.orZero, hm, if_false]; exact Or.inl hx
  apply key
  unfold Binary64.parseInt
  simp only []
  cases Binary64.unsignedInteger (takeSign (s.data.dropWhile isJSWhitespace)).2 with
  | some n =>
      rcases roundRatio_integer (takeSign (s.data.dropWhile isJSWhitespace)).1 n with h | h
      · exact Or.inr (Or.inl ⟨_, h⟩)
      · exact Or.inr (Or.inr h)
  | none => exact Or.inl rfl

/-- C17: `collectFormData` is a total function of the form, and for every text
of a numeric field the captured value is a number (never `NaN`): it is `0`
when the text does not parse as a number, which is exactly when `parseFloat`
(for a quantity or a unit price) or `parseInt` (for the number of guests)
gives `NaN`, as for the empty text and for `abc`; otherwise it is the parsed
Number, a zero of either sign being captured as `0`.  The parsed Number is
the nearest one to the numeral read, an infinity included: `1e400` and
`Infinity` are captured as `Infinity`, `9007199254740993` guests as
`9007199254740992`, `12abc` as `12`. -/
theorem collectFormData_numbers (env : Env) (form : Form) (now : String) :
    Binary64.Captures (Binary64.startsInt form.nbPersonnes)
        (Binary64.parseInt form.nbPersonnes)
        (Binary64.collectFormData env form now).nbPersonnes
      ∧ (∃ lines, (Binary64.collectFormData env form now).prestations = some lines
          ∧ List.Forall₂
              (fun item line =>
                Binary64.Captures (Binary64.startsFloat item.quantite)
                    (Binary64.parseFloat item.quantite) line.quantite
                  ∧ Binary64.Captures (Binary64.startsFloat item.prix)
                      (Binary64.parseFloat item.prix) line.prixUnitaire)
              form.items lines)
      ∧ (Binary64.collectFormData sampleEnv oddNumbersForm "t").nbPersonnes
          = Double.ofNat 9007199254740992
      ∧ (Binary64.collectFormData sampleEnv oddNumbersForm "t").prestations
          = some [⟨"a", .infinity false, .infinity false⟩,
                  ⟨"b", Double.ofNat 0, Double.ofNat 0⟩,
                  ⟨"c", Double.ofNat 12, .finite false 7205759403792794 (-56)⟩,
                  ⟨"d", Double.ofNat 0, Double.ofNat 5⟩] := by
  refine ⟨orZero_captures _ _ (parseInt_eq_nan _), ⟨_, rfl, ?_⟩, by decide!, by decide!⟩
  rw [List.forall₂_map_right_iff]
  apply List.forall₂_same.mpr
  intro item _
  exact ⟨orZero_captures _ _ (parseFloat_eq_nan _), orZero_captures _ _ (parseFloat_eq_nan _)⟩

/-- Counterexample to C18 as stated: the form whose line has the quantity
`-5` and the unit price `-2.5`, with `-3` guests, is captured with these
negative numbers. -/
theorem collectFormData_negative_numbers :
    (Binary64.collectFormData sampleEnv negativeForm "t").prestations
        = some [⟨"Remise", .finite true 5629499534213120 (-50),
                  .finite true 5629499534213120 (-51)⟩]
      ∧ (Binary64.collectFormData sampleEnv negativeForm "t").nbPersonnes
          = .finite true 6755399441055744 (-51)
      ∧ Double.exactValue true 5629499534213120 (-50) = -5
      ∧ Double.exactValue true 5629499534213120 (-51) = -5 / 2
      ∧ Double.exactValue true 6755399441055744 (-51) = -3
      ∧ ¬ (Double.finite true 5629499534213120 (-50)).GeZero
      ∧ ¬ (Double.finite true 5629499534213120 (-51)).GeZero
      ∧ ¬ (Double.finite true 6755399441055744 (-51)).GeZero := by
  have h1 : Double.exactValue true 5629499534213120 (-50) = -5 := by
    simp only [Double.exactValue, if_true]
    norm_num [zpow_neg]
  have h2 : Double.exactValue true 5629499534213120 (-51) = -5 / 2 := by
    simp only [Double.exactValue, if_true]
    norm_num [zpow_neg]
  have h3 : Double.exactValue true 6755399441055744 (-51) = -3 := by
    simp only [Double.exactValue, if_true]
    norm_num [zpow_neg]
  refine ⟨by decide!, by decide!, h1, h2, h3, ?_, ?_, ?_⟩
  · show ¬ (0 ≤ Double.exactValue true 5629499534213120 (-50))
    rw [h1]; norm_num
  · show ¬ (0 ≤ Double.exactValue true 5629499534213120 (-51))
    rw [h2]; norm_num
  · show ¬ (0 ≤ Double.exactValue true 6755399441055744 (-51))
    rw [h3]; norm_num

/-- C18, amended: for every form state the captured `nbPersonnes` is an
integer or an infinity, and each captured number (`nbPersonnes`, and the
`quantite` and the `prixUnitaire` of every line) is at least `0` whenever the
text of its field, after leading white space, does not start with a minus
sign. -/
theorem collectFormData_signs (env : Env) (form : Form) (now : String) :
    ((Binary64.collectFormData env form now).nbPersonnes.IsInteger
        ∨ (Binary64.collectFormData env form now).nbPersonnes = .infinity false
        ∨ (Binary64.collectFormData env form now).nbPersonnes = .infinity true)
      ∧ (hasMinusSign form.nbPersonnes = false →
          (Binary64.collectFormData env form now).nbPersonnes.GeZero)
      ∧ ∃ lines, (Binary64.collectFormData env form now).prestations = some lines
          ∧ List.Forall₂
              (fun item line =>
                (hasMinusSign item.quantite = false → line.quantite.GeZero)
                  ∧ (hasMinusSign item.prix = false → line.prixUnitaire.GeZero))
              form.items lines := by
  refine ⟨parseInt_integer_or_infinite form.nbPersonnes, parseInt_geZero form.nbPersonnes,
    _, rfl, ?_⟩
  rw [List.forall₂_map_right_iff]
  apply List.forall₂_same.mpr
  intro item _
  exact ⟨parseFloat_geZero item.quantite, parseFloat_geZero item.prix⟩

/-- Witness of C18, amended: a form with the line `2 x 100` and `40` guests. -/
theorem collectFormData_signs_witness :
    hasMinusSign typedForm.nbPersonnes = false
      ∧ (Binary64.collectFormData sampleEnv typedForm "t").nbPersonnes = Double.ofNat 40
      ∧ ((Binary64.collectFormData sampleEnv typedForm "t").nbPersonnes.IsInteger
        ∨ (Binary64.collectFormData sampleEnv typedForm "t").nbPersonnes = .infinity false
        ∨ (Binary64.collectFormData sampleEnv typedForm "t").nbPersonnes = .infinity true)
      ∧ (Binary64.collectFormData sampleEnv typedForm "t").nbPersonnes.GeZero
      ∧ ∃ lines, (Binary64.collectFormData sampleEnv typedForm "t").prestations = some lines
          ∧ List.Forall₂
              (fun item line =>
                (hasMinusSign item.quantite = false → line.quantite.GeZero)
                  ∧ (hasMinusSign item.prix = false → line.prixUnitaire.GeZero))
              typedForm.items lines :=
  ⟨by decide, by decide!, (collectFormData_signs sampleEnv typedForm "t").1,
    (collectFormData_signs sampleEnv typedForm "t").2.1 (by decide),
    (collectFormData_signs sampleEnv typedForm "t").2.2⟩

/-! ### Decimal digits and `formatPrice` -/

/-- The digits written so far are kept behind the ones `toDigitsCore` adds. -/
theorem toDigitsCore_append (fuel : Nat) :
    ∀ (n : Nat) (ds : List Char),
      Nat.toDigitsCore 10 fuel n ds = Nat.toDigitsCore 10 fuel n [] ++ ds := by
  induction fuel with
  | zero => intro n ds; rfl
  | succ fuel ih =>
      intro n ds
      simp only [Nat.toDigitsCore]
      split
      · rfl
      · rw [ih (n / 10) (Nat.digitChar (n % 10) :: ds), ih (n / 10) [Nat.digitChar (n % 10)]]
        simp

/-- With enough fuel the digits do not depend on the fuel. -/
theorem toDigitsCore_fuel (fuel1 : Nat) :
    ∀ (fuel2 n : Nat), n < fuel1 → n < fuel2 →
      Nat.toDigitsCore 10 fuel1 n [] = Nat.toDigitsCore 10 fuel2 n [] := by
  induction fuel1 with
  | zero => intro fuel2 n h1 _; omega
  | succ fuel1 ih =>
      intro fuel2 n h1 h2
      obtain ⟨f2, rfl⟩ : ∃ f2, fuel2 = f2 + 1 := ⟨fuel2 - 1, by omega⟩
      simp only [Nat.toDigitsCore]
      split
      · rfl
      · rename_i hne
        have hlt : n / 10 < n := Nat.div_lt_self (by omega) (by decide)
        rw [toDigitsCore_append fuel1, toDigitsCore_append f2,
          ih f2 (n / 10) (by omega) (by omega)]

/-- The digit of a number below ten. -/
theorem toDigits_lt_ten (n : Nat) (h : n < 10) : Nat.toDigits 10 n = [Nat.digitChar n] := by
  have h1 : n / 10 = 0 := Nat.div_eq_of_lt h
  have h2 : n % 10 = n := Nat.mod_eq_of_lt h
  simp [Nat.toDigits, Nat.toDigitsCore, h1, h2]

/-- The digits of a number from ten on: those of its tenth, then its last
digit. -/
theorem toDigits_step (n : Nat) (h : 10 ≤ n) :
    Nat.toDigits 10 n = Nat.toDigits 10 (n / 10) ++ [Nat.digitChar (n % 10)] := by
  have h1 : n / 10 ≠ 0 := by
    have : 1 ≤ n / 10 := (Nat.le_div_iff_mul_le (by decide)).mpr (by omega)
    omega
  have hlt : n / 10 < n := Nat.div_lt_self (by omega) (by decide)
  have hl : Nat.toDigitsCore 10 (n + 1) n []
      = Nat.toDigitsCore 10 n (n / 10) [Nat.digitChar (n % 10)] := by
    simp only [Nat.toDigitsCore, h1, if_false]
  unfold Nat.toDigits
  rw [hl, toDigitsCore_append n, toDigitsCore_fuel n (n / 10 + 1) (n / 10) hlt (by omega)]

/-- The character of a digit is a digit. -/
theorem digitChar_isDigit (d : Nat) (h : d < 10) : (Nat.digitChar d).isDigit = true := by
  interval_cases d <;> decide

/-- The characters of `Nat.toDigits 10 n` are digits. -/
theorem toDigits_isDigit (n : Nat) : ∀ c ∈ Nat.toDigits 10 n, c.isDigit = true := by
  induction n using Nat.strong_induction_on with
  | _ n ih =>
      by_cases h : n < 10
      · rw [toDigits_lt_ten n h]
        intro c hc
        simp only [List.mem_singleton] at hc
        rw [hc]
        exact digitChar_isDigit n h
      · rw [toDigits_step n (by omega)]
        intro c hc
        simp only [List.mem_append, List.mem_singleton] at hc
        rcases hc with hc | hc
        · exact ih (n / 10) (Nat.div_lt_self (by omega) (by decide)) c hc
        · rw [hc]
          exact digitChar_isDigit _ (Nat.mod_lt _ (by decide))


/-- Grouping from the right, with one more digit on the left. -/
theorem groupReversed_append_singleton (c : Char) :
    ∀ (k : Nat) (xs : List Char), xs.length = k →
      groupReversed (xs ++ [c])
        = groupReversed xs ++ (if xs.length % 3 = 0 ∧ xs ≠ [] then [' ', c] else [c]) := by
  intro k
  induction k using Nat.strong_induction_on with
  | _ k ih =>
      intro xs hk
      match xs, hk with
      | [], _ => rfl
      | [_], _ => rfl
      | [_, _], _ => rfl
      | [_, _, _], _ => simp [groupReversed]
      | a :: b :: c' :: d :: rest, hk =>
          have hrec := ih (d :: rest).length (by simp at hk ⊢; omega) (d :: rest) rfl
          have e1 : groupReversed ((a :: b :: c' :: d :: rest) ++ [c])
              = a :: b :: c' :: ' ' :: groupReversed ((d :: rest) ++ [c]) := by
            simp [groupReversed]
          have e2 : groupReversed (a :: b :: c' :: d :: rest)
              = a :: b :: c' :: ' ' :: groupReversed (d :: rest) := by
            simp [groupReversed]
          have hmod : (a :: b :: c' :: d :: rest).length % 3 = (d :: rest).length % 3 := by
            simp only [List.length_cons]; omega
          rw [e1, e2, hrec, hmod]
          simp

/-- The grouping of a digit string with one more digit in front. -/
theorem groupThousands_cons (c : Char) (cs : List Char) :
    groupThousands (c :: cs)
      = c :: (if cs.length % 3 = 0 ∧ cs ≠ [] then ' ' :: groupThousands cs
              else groupThousands cs) := by
  unfold groupThousands
  rw [List.reverse_cons, groupReversed_append_singleton c cs.reverse.length cs.reverse rfl]
  by_cases h : cs.length % 3 = 0 ∧ cs ≠ []
  · have h' : cs.reverse.length % 3 = 0 ∧ cs.reverse ≠ [] := by simpa using h
    rw [if_pos h, if_pos h']
    simp
  · have h' : ¬ (cs.reverse.length % 3 = 0 ∧ cs.reverse ≠ []) := by simpa using h
    rw [if_neg h, if_neg h']
    simp

/-- A digit is a word character. -/
theorem isWordChar_of_isDigit (c : Char) (h : c.isDigit = true) : isWordChar c = true := by
  simp [isWordChar, Char.isAlphanum, h]

/-- The scan of `insertThousands` over digits that follow a digit. -/
theorem insertThousands_some (cs : List Char) :
    ∀ (p : Char), p.isDigit = true → (∀ c ∈ cs, c.isDigit = true) →
      insertThousands (some p) cs
        = (if cs.length % 3 = 0 ∧ cs ≠ [] then ' ' :: groupThousands cs
           else groupThousands cs) := by
  induction cs with
  | nil => intro p _ _; rfl
  | cons c cs ih =>
      intro p hp hall
      have hc : c.isDigit = true := hall c (List.mem_cons_self _ _)
      have hcs : ∀ x ∈ cs, x.isDigit = true := fun x hx => hall x (List.mem_cons_of_mem _ hx)
      have htake : List.takeWhile Char.isDigit (c :: cs) = c :: cs :=
        List.takeWhile_eq_self_iff.mpr hall
      have hahead : groupsOfThreeAhead (c :: cs) = decide ((c :: cs).length % 3 = 0) := by
        unfold groupsOfThreeAhead
        rw [htake]
        simp only [List.length_cons]
        by_cases h3 : (cs.length + 1) % 3 = 0
        · have : 3 ≤ cs.length + 1 := by omega
          simp [h3, this]
        · simp [h3]
      simp only [insertThousands, isWordChar_of_isDigit p hp, isWordChar_of_isDigit c hc,
        beq_self_eq_true, Bool.true_and, hahead, ih c hc hcs, groupThousands_cons]
      by_cases h3 : (c :: cs).length % 3 = 0
      · simp [h3]
      · simp [h3]

/-- On a string of digits `insertThousands` is the grouping of the claim. -/
theorem insertThousands_digits (ds : List Char) (h : ∀ c ∈ ds, c.isDigit = true) :
    insertThousands none ds = groupThousands ds := by
  cases ds with
  | nil => rfl
  | cons c cs =>
      have hc : c.isDigit = true := h c (List.mem_cons_self _ _)
      have hcs : ∀ x ∈ cs, x.isDigit = true := fun x hx => h x (List.mem_cons_of_mem _ hx)
      simp only [insertThousands, isWordChar_of_isDigit c hc, groupThousands_cons,
        insertThousands_some cs c hc hcs]
      simp

/-- The digit string of a number is not empty. -/
theorem toDigits_ne_nil (n : Nat) : Nat.toDigits 10 n ≠ [] := by
  by_cases h : n < 10
  · rw [toDigits_lt_ten n h]; simp
  · rw [toDigits_step n (by omega)]; simp

/-- The layout of `n` hundredths by `toFixed(2)`: the digits of `n / 100`, a
point, the tens digit and the units digit of `n`. -/
theorem fixedDigits_eq (n : Nat) :
    fixedDigits n
      = Nat.toDigits 10 (n / 100)
          ++ '.' :: [Nat.digitChar (n / 10 % 10), Nat.digitChar (n % 10)] := by
  unfold fixedDigits
  by_cases h1 : n < 10
  · have e0 : n / 100 = 0 := Nat.div_eq_of_lt (by omega)
    have e1 : n / 10 % 10 = 0 := by omega
    have e2 : n % 10 = n := Nat.mod_eq_of_lt h1
    rw [toDigits_lt_ten n h1, e0, e1, e2, toDigits_lt_ten 0 (by decide)]
    rfl
  · by_cases h2 : n < 100
    · have e0 : n / 100 = 0 := Nat.div_eq_of_lt h2
      have e1 : n / 10 % 10 = n / 10 := Nat.mod_eq_of_lt (by omega)
      rw [toDigits_step n (by omega), toDigits_lt_ten (n / 10) (by omega), e0, e1,
        toDigits_lt_ten 0 (by decide)]
      rfl
    · have e0 : n / 10 / 10 = n / 100 := by omega
      have hne := toDigits_ne_nil (n / 100)
      have hlen : 0 < (Nat.toDigits 10 (n / 100)).length := List.length_pos.mpr hne
      have hm : Nat.toDigits 10 n
          = Nat.toDigits 10 (n / 100)
              ++ [Nat.digitChar (n / 10 % 10), Nat.digitChar (n % 10)] := by
        rw [toDigits_step n (by omega), toDigits_step (n / 10) (by omega), e0]
        simp
      rw [hm]
      have hrep : 3 - (Nat.toDigits 10 (n / 100)
          ++ [Nat.digitChar (n / 10 % 10), Nat.digitChar (n % 10)]).length = 0 := by
        simp only [List.length_append, List.length_cons, List.length_nil]
        omega
      simp only [hrep, List.replicate_zero, List.nil_append]
      have hl2 : (Nat.toDigits 10 (n / 100)
          ++ [Nat.digitChar (n / 10 % 10), Nat.digitChar (n % 10)]).length - 2
            = (Nat.toDigits 10 (n / 100)).length := by
        simp only [List.length_append, List.length_cons, List.length_nil]
        omega
      rw [hl2, List.take_left, List.drop_left]

/-- Below `1e21`, `toFixed(2)` lays out the hundredth nearest to a
non-negative number, the larger one of two equally near. -/
theorem toFixed2_nonneg (x : ℚ) (h0 : 0 ≤ x) (h21 : x < 10 ^ 21) :
    toFixed2 x = String.mk (fixedDigits (Int.floor (x * 100 + 1 / 2)).toNat) := by
  have habs : |x| = x := abs_of_nonneg h0
  unfold toFixed2
  rw [habs, if_neg (not_le.mpr h21), if_neg (not_lt.mpr h0)]
  rfl

/-- A point is not a digit. -/
theorem ne_dot_of_isDigit (c : Char) (h : c.isDigit = true) : c ≠ '.' := by
  rintro rfl
  exact absurd h (by decide)

/-- Splitting at the first point a string that starts with digits. -/
theorem split_digits_dot (ds rest : List Char) (h : ∀ c ∈ ds, c.isDigit = true) :
    (ds ++ '.' :: rest).takeWhile (fun c => c ≠ '.') = ds
      ∧ (ds ++ '.' :: rest).dropWhile (fun c => c ≠ '.') = '.' :: rest := by
  induction ds with
  | nil => simp
  | cons c cs ih =>
      have hc : c ≠ '.' := ne_dot_of_isDigit c (h c (List.mem_cons_self _ _))
      have ih' := ih (fun x hx => h x (List.mem_cons_of_mem _ hx))
      constructor
      · have := ih'.1
        simp only [List.cons_append, List.takeWhile_cons, ne_eq, hc, not_false_eq_true,
          decide_True, if_true, List.cons.injEq, true_and]
        simpa using this
      · have := ih'.2
        simp only [List.cons_append, List.dropWhile_cons, ne_eq, hc, not_false_eq_true,
          decide_True, if_true]
        simpa using this

/-- What `formatPrice` makes of the layout of `n` hundredths: the text of the
amount. -/
theorem formatFixed_fixedDigits (n : Nat) :
    formatFixed (String.mk (fixedDigits n)) = priceText n := by
  have hd := toDigits_isDigit (n / 100)
  have hsplit := split_digits_dot (Nat.toDigits 10 (n / 100))
    [Nat.digitChar (n / 10 % 10), Nat.digitChar (n % 10)] hd
  have h1 : (Nat.digitChar (n / 10 % 10)) ≠ '.' :=
    ne_dot_of_isDigit _ (digitChar_isDigit _ (Nat.mod_lt _ (by decide)))
  have h2 : (Nat.digitChar (n % 10)) ≠ '.' :=
    ne_dot_of_isDigit _ (digitChar_isDigit _ (Nat.mod_lt _ (by decide)))
  unfold formatFixed priceText
  simp only [fixedDigits_eq, hsplit.1, hsplit.2, insertThousands_digits _ hd]
  simp [List.takeWhile_cons, h1, h2]

/-- The text `formatPrice` gives for a non-negative Number below `1e21`: that
of the hundredth nearest to its exact value, the larger one of two equally
near. -/
theorem formatPrice_number (m : Nat) (e : Int)
    (h21 : Double.exactValue false m e < 10 ^ 21) :
    Binary64.formatPrice (.finite false m e)
      = some (priceText (Int.floor (Double.exactValue false m e * 100 + 1 / 2)).toNat) := by
  have h0 : 0 ≤ Double.exactValue false m e := by
    have : Double.exactValue false m e = (m : ℚ) * (2 : ℚ) ^ e := by
      simp [Double.exactValue]
    rw [this]
    positivity
  have habs : |Double.exactValue false m e| = Double.exactValue false m e := abs_of_nonneg h0
  simp only [Binary64.formatPrice, Binary64.toFixed2]
  rw [habs, if_neg (not_le.mpr h21)]
  simp only [Option.map_some', toFixed2_nonneg _ h0 h21, formatFixed_fixedDigits]

/-- Counterexample to C12 as stated: the amount `70368744177664.07` has two
decimals and is below `1e21`; the Number nearest to it is
`70368744177664.0625`, and `formatPrice` prints it with the decimals `06`, not
`07`. -/
theorem formatPrice_large_amount :
    Double.ofDecimal false 7036874417766407 (-2) = .finite false 4503599627370500 (-6)
      ∧ Binary64.formatPrice (Double.ofDecimal false 7036874417766407 (-2))
          = some "70 368 744 177 664,06 €"
      ∧ priceText 7036874417766407 = "70 368 744 177 664,07 €"
      ∧ Binary64.formatPrice (Double.ofDecimal false 7036874417766407 (-2))
          ≠ some (priceText 7036874417766407) := by
  decide!

/-- C12, amended: for every amount of `n` hundredths with `n` below `2 ^ 52`
(a non-negative amount with at most two decimals below
`45 035 996 273 704.96`), `formatPrice` of the Number nearest to the amount
returns the digits of the integer part in groups of three counted from the
right and separated by single spaces, a comma, the two decimal digits and the
suffix ` €`; `1234.5` gives `1 234,50 €` and `0` gives `0,00 €`. -/
theorem formatPrice_amount (n : Nat) (h : n < 2 ^ 52) :
    Binary64.formatPrice (Double.ofDecimal false n (-2)) = some (priceText n)
      ∧ Binary64.formatPrice (Double.ofDecimal false 12345 (-1)) = some "1 234,50 €"
      ∧ Binary64.formatPrice (Double.ofNat 0) = some "0,00 €" := by
  refine ⟨?_, by decide!, by decide!⟩
  obtain ⟨m, e, hr, _, h21, hfloor⟩ := ofDecimal_hundredths n h
  rw [hr, formatPrice_number m e h21, hfloor, Int.toNat_ofNat]

/-- Witness of C12, amended: the amount `1234567.89`. -/
theorem formatPrice_amount_witness :
    123456789 < 2 ^ 52
      ∧ Binary64.formatPrice (Double.ofDecimal false 123456789 (-2))
          = some (priceText 123456789)
      ∧ priceText 123456789 = "1 234 567,89 €" :=
  ⟨by norm_num, (formatPrice_amount 123456789 (by norm_num)).1, by decide⟩

/-! ### Saving and the dirty flag; totals on screen and in the PDF -/

/-- What `handleSave` returns, by whether the save succeeds. -/
theorem handleSave_eq (env : Env) (page : Page) (db : Option Database)
    (captureTime saveTime : String) :
    (handleSave env page db captureTime saveTime).page
        = (if saveSucceeds env page db captureTime saveTime then markFormClean page else page)
      ∧ (handleSave env page db captureTime saveTime).db
        = (if saveSucceeds env page db captureTime saveTime then
            (saveQuote db saveTime (collectFormData env page.form captureTime)).db
           else db) := by
  unfold saveSucceeds validationBlocks handleSave
  by_cases h1 : ((collectFormData env page.form captureTime).nomClient = ""
      || (collectFormData env page.form captureTime).titre = "") = true
  · simp only [h1, if_true, Bool.true_or, Bool.not_true, Bool.false_and]
    exact ⟨rfl, rfl⟩
  · by_cases h2 : (decide ((collectFormData env page.form captureTime).emailClient ≠ "")
        && !validateEmail (collectFormData env page.form captureTime).emailClient) = true
    · simp only [h1, h2, if_true, if_false, Bool.or_true, Bool.not_true, Bool.false_and]
      exact ⟨rfl, rfl⟩
    · simp only [h1, h2, if_false, Bool.or_self, Bool.not_false, Bool.true_and]
      cases hr : (saveQuote db saveTime (collectFormData env page.form captureTime)).result with
      | ok id => exact ⟨rfl, rfl⟩
      | error e =>
          refine ⟨rfl, ?_⟩
          exact saveQuote_error db saveTime _ e hr

/-- Both outcomes of `handleSave` occur: over an initialised store the typed
form is saved, without a database the save fails, and the blank form is
stopped by the guards. -/
theorem saveSucceeds_examples :
    saveSucceeds sampleEnv typedPage (some sampleDatabase) "t1" "t2" = true
      ∧ saveSucceeds sampleEnv typedPage none "t1" "t2" = false
      ∧ saveSucceeds sampleEnv blankPage (some sampleDatabase) "t1" "t2" = false := by
  refine ⟨?_, ?_, ?_⟩
  · have hv : validationBlocks (collectFormData sampleEnv typedPage.form "t1") = false := by
      decide
    unfold saveSucceeds
    rw [hv]
    rfl
  · have hv : validationBlocks (collectFormData sampleEnv typedPage.form "t1") = false := by
      decide
    unfold saveSucceeds
    rw [hv]
    rfl
  · have hv : validationBlocks (collectFormData sampleEnv blankPage.form "t1") = true := by
      decide
    unfold saveSucceeds
    rw [hv]
    rfl

/-- C21: `handleSave` clears the dirty flag exactly when its `saveQuote`
succeeds.  When a guard stops the save or `saveQuote` fails, the page, and
with it the dirty flag, is returned as it was and the database is unchanged,
so no envelope is added. -/
theorem handleSave_dirty_flag (env : Env) (page : Page) (db : Option Database)
    (captureTime saveTime : String) :
    (handleSave env page db captureTime saveTime).page.isDirty
        = (if saveSucceeds env page db captureTime saveTime then false else page.isDirty)
      ∧ (handleSave env page db captureTime saveTime).page
        = (if saveSucceeds env page db captureTime saveTime then markFormClean page else page)
      ∧ (handleSave env page db captureTime saveTime).db
        = (if saveSucceeds env page db captureTime saveTime then
            (saveQuote db saveTime (collectFormData env page.form captureTime)).db
           else db)
      ∧ (loadAllQuotes (handleSave env page db captureTime saveTime).db).result
        = (if saveSucceeds env page db captureTime saveTime then
            (loadAllQuotes
              (saveQuote db saveTime (collectFormData env page.form captureTime)).db).result
           else (loadAllQuotes db).result) := by
  obtain ⟨hp, hd⟩ := handleSave_eq env page db captureTime saveTime
  refine ⟨?_, hp, hd, ?_⟩
  · rw [hp]
    split <;> rfl
  · rw [hd]
    split <;> rfl

/-- The subtotal `updateTotals` adds up over the rows is the `ht` that
`calculateTotals` computes on the captured lines. -/
theorem subtotal_eq_calculateTotals (env : Env) (form : Form) (now : String) :
    form.items.foldl
        (fun totalHT prestation =>
          totalHT + orZero (parseFloat prestation.quantite) * orZero (parseFloat prestation.prix))
        0
      = (calculateTotals (collectFormData env form now).prestations).ht := by
  simp only [calculateTotals, collectFormData, List.length_map, List.foldl_map]
  cases h : form.items with
  | nil => simp
  | cons item rest => simp

/-- C22: for every form state, the three texts `updateTotals` displays are
`formatPrice` of the `ht`, the `tva` and the `ttc` that `calculateTotals`
computes on the lines returned by `collectFormData`, which are the texts the
PDF export prints: the same subtotal, the same tax and the same total. -/
theorem updateTotals_eq_calculateTotals (env : Env) (form : Form) (now : String) :
    (updateTotals form).totalHT
        = formatPrice (calculateTotals (collectFormData env form now).prestations).ht
      ∧ (updateTotals form).totalTVA
        = formatPrice (calculateTotals (collectFormData env form now).prestations).tva
      ∧ (updateTotals form).totalTTC
        = formatPrice (calculateTotals (collectFormData env form now).prestations).ttc
      ∧ form.items.foldl
          (fun totalHT prestation =>
            totalHT
              + orZero (parseFloat prestation.quantite) * orZero (parseFloat prestation.prix))
          0
        = (calculateTotals (collectFormData env form now).prestations).ht := by
  have h := subtotal_eq_calculateTotals env form now
  refine ⟨?_, ?_, ?_, h⟩
  · show formatPrice _ = _
    rw [h]
  · show formatPrice (_ * (20 / 100)) = _
    rw [h]
    rfl
  · show formatPrice (_ + _ * (20 / 100)) = _
    rw [h]
    rfl

end QuoteGen
